import Mathlib

/-! # dthread / dterm

A shallow embedding of `c_src/dthread.c` (worker-thread message queue, wakeup
signal, stop protocol) and `c_src/dterm.c` (growable term buffer) and the
properties proved about them.

Conventions of the embedding

* Pointers to messages and channels are addresses (`Nat`), `0` is `NULL`.
* The message heap is a function from addresses to `dmessage_t` records; a C
  assignment `mp->f = v` is a `Function.update` of that heap.
* Every function body runs under `iq_mtx`, so one call is one atomic step.
* The outcome of a system call (`write`, `read`, `pipe`, `driver_alloc`, ...)
  is an explicit argument of the function that makes the call.
* Sizes and counters are natural numbers or integers; the byte counts of
  `dterm_expand` and `dterm_alloc` wrap at the number of values of `size_t`
  and the correlation counter `ref` wraps at a modulus, both parameters.
-/

namespace Dthread

/-! ## Data model -/

/-- Constants of `include/dthread.h` and `include/dterm.h`. The headers give
them fixed values; every result below holds for all values. -/
structure Config where
  DTHREAD_INVALID_EVENT : Int
  DTHREAD_STOP : Int
  DTHREAD_OUTPUT : Int
  DTHREAD_SEND_TERM : Int
  DTERM_FIXED : Nat

/-- A `char*` as stored in `dmessage_t.buffer`: `NULL`, a position inside the
trailing `data[]` region of the message at address `mp`, or some other
address. -/
inductive BufPtr where
  | null
  | inl (mp : Nat) (off : Nat)
  | ext (addr : Nat)
deriving DecidableEq, Repr

/-- The record `dmessage_t` (declared in `include/dthread.h`), with the fields
`dthread.c` reads and writes. `release` is the function pointer (`0` when
absent), `data` the bytes of the trailing inline region. -/
structure dmessage_t where
  next : Nat
  cmd : Int
  source : Nat
  from_ : Nat
  to_ : Nat
  ref : Nat
  udata : Nat
  release : Nat
  buffer : BufPtr
  used : Nat
  size : Nat
  data : List Nat
deriving DecidableEq, Repr

/-- The record `dthread_t` (one channel; declared in `include/dthread.h`), with
the fields `dthread.c` reads and writes. `iq_signal_0` is `iq_signal[0]`, the
read end of the pipe, `iq_signal_1` is `iq_signal[1]`, the write end. -/
structure dthread_t where
  iq_mtx : Nat
  iq_signal_0 : Int
  iq_signal_1 : Int
  iq_front : Nat
  iq_rear : Nat
  iq_len : Int
  smp_support : Int
  am_ok : Nat
  am_error : Nat
  port : Nat
  dport : Nat
  owner : Nat
  caller : Nat
  ref : Nat
  tid : Nat
  arg : Nat
deriving DecidableEq, Repr

/-- Calls that hand a resource back to the runtime or the system, in the order
they are made. -/
inductive Call where
  | mutex_destroy (mtx : Nat)
  | close_event (ev : Int)
  | driver_free_msg (mp : Nat)
  | driver_free_buf (buf : BufPtr)
  | driver_free_thr (thr : Nat)
  | release (fn : Nat) (buf : BufPtr) (size : Nat) (udata : Nat)
  | thread_opts_destroy (opts : Nat)
deriving DecidableEq, Repr

/-- Everything the queue operations read or write: the channel record, the
message heap, the number of bytes written to the pipe and not yet read, and
the log of release calls. -/
structure World where
  thr : dthread_t
  mem : Nat → dmessage_t
  pipe : Nat
  calls : List Call

/-- Result of `memset(mp, 0, sz)` on a message with `n` trailing bytes. -/
def dmessage_zero (n : Nat) : dmessage_t :=
  { next := 0, cmd := 0, source := 0, from_ := 0, to_ := 0, ref := 0, udata := 0,
    release := 0, buffer := BufPtr.null, used := 0, size := 0,
    data := List.replicate n 0 }

/-- Result of `memset(thr, 0, sizeof(dthread_t))`. -/
def dthread_zero : dthread_t :=
  { iq_mtx := 0, iq_signal_0 := 0, iq_signal_1 := 0, iq_front := 0, iq_rear := 0,
    iq_len := 0, smp_support := 0, am_ok := 0, am_error := 0, port := 0,
    dport := 0, owner := 0, caller := 0, ref := 0, tid := 0, arg := 0 }

/-! ## Messages (dthread.c 59-114) -/

/-- Embeds `dmessage_alloc(n)`. `a` is what `driver_alloc` returned: `none` for
`NULL`, else the address of the new block. Returns the heap and `mp`. -/
def dmessage_alloc (mem : Nat → dmessage_t) (a : Option Nat) (n : Nat) :
    (Nat → dmessage_t) × Nat :=
  match a with
  | none => (mem, 0)
  | some mp =>
    let m := dmessage_zero n
    let m := { m with buffer := BufPtr.inl mp 0 }
    let m := { m with used := 0 }
    let m := { m with size := n }
    (Function.update mem mp m, mp)

/-- Embeds `memcpy(dst, buf, len)` into the inline region at offset `off`:
`bytes` is the memory found at `buf`. -/
def memcpy_inl (data : List Nat) (off : Nat) (bytes : List Nat) (len : Nat) : List Nat :=
  (List.range data.length).map fun i =>
    if off ≤ i ∧ i < off + len then bytes.getD (i - off) 0 else data.getD i 0

/-- Embeds `dmessage_create_r(cmd, release, udata, buf, len)`; `bytes` is the
memory found at `buf`, `a` the outcome of `driver_alloc`. -/
def dmessage_create_r (mem : Nat → dmessage_t) (a : Option Nat) (cmd : Int) (release : Nat)
    (udata : Nat) (buf : BufPtr) (bytes : List Nat) (len : Nat) : (Nat → dmessage_t) × Nat :=
  if release ≠ 0 then
    let (mem1, mp) := dmessage_alloc mem a 0
    if mp ≠ 0 then
      let m := mem1 mp
      let m := { m with cmd := cmd }
      let m := { m with udata := udata }
      let m := { m with release := release }
      let m := { m with buffer := buf }
      let m := { m with size := len }
      let m := { m with used := len }
      (Function.update mem1 mp m, mp)
    else (mem1, mp)
  else
    let (mem1, mp) := dmessage_alloc mem a (len + 8)
    if mp ≠ 0 then
      let m := mem1 mp
      let m := { m with cmd := cmd }
      let m := { m with udata := udata }
      let m := { m with buffer := BufPtr.inl mp 8 }
      let m := { m with data := memcpy_inl m.data 8 bytes len }
      let m := { m with used := len }
      (Function.update mem1 mp m, mp)
    else (mem1, mp)

/-- Embeds `dmessage_create(cmd, buf, len)`. -/
def dmessage_create (mem : Nat → dmessage_t) (a : Option Nat) (cmd : Int)
    (buf : BufPtr) (bytes : List Nat) (len : Nat) : (Nat → dmessage_t) × Nat :=
  dmessage_create_r mem a cmd 0 0 buf bytes len

/-- The test `(mp->buffer < mp->data) || (mp->buffer > mp->data+mp->size)` of
`dmessage_free` for the message at address `mp`. -/
def buffer_outside (mp : Nat) (m : dmessage_t) : Bool :=
  match m.buffer with
  | BufPtr.inl b off => if b = mp then decide (m.size < off) else true
  | _ => true

/-- Embeds `dmessage_free(mp)`: the release calls it makes, in order. -/
def dmessage_free (mem : Nat → dmessage_t) (mp : Nat) : List Call :=
  let m := mem mp
  (if m.release ≠ 0 then [Call.release m.release m.buffer m.size m.udata]
   else if buffer_outside mp m then [Call.driver_free_buf m.buffer]
   else []) ++ [Call.driver_free_msg mp]

/-! ## Signal (dthread.c 128-203, pipe variant) -/

/-- Embeds `dthread_signal_init`. -/
def dthread_signal_init (cfg : Config) (thr : dthread_t) : dthread_t :=
  let thr := { thr with iq_signal_0 := cfg.DTHREAD_INVALID_EVENT }
  { thr with iq_signal_1 := cfg.DTHREAD_INVALID_EVENT }

/-- Embeds `dthread_signal_set`: `write(iq_signal[1], "!", 1)`. `ok` tells
whether the write succeeds; the result is the value of `write`. -/
def dthread_signal_set (w : World) (ok : Bool) : World × Int :=
  if ok then ({ w with pipe := w.pipe + 1 }, 1) else (w, -1)

/-- Embeds `dthread_signal_reset`: `read(iq_signal[0], buf, 1)`. `ok = false`
is a failing read; a read of the empty pipe does not return (`none`). -/
def dthread_signal_reset (w : World) (ok : Bool) : Option (World × Int) :=
  if ok then
    if w.pipe = 0 then none else some ({ w with pipe := w.pipe - 1 }, 1)
  else some (w, -1)

/-- Embeds `dthread_signal_finish(thr, and_close)`. -/
def dthread_signal_finish (cfg : Config) (w : World) (and_close : Bool) : World :=
  let w :=
    if w.thr.iq_signal_0 ≠ cfg.DTHREAD_INVALID_EVENT then
      let w := if and_close then
        { w with calls := w.calls ++ [Call.close_event w.thr.iq_signal_0] } else w
      { w with thr := { w.thr with iq_signal_0 := cfg.DTHREAD_INVALID_EVENT } }
    else w
  if w.thr.iq_signal_1 ≠ cfg.DTHREAD_INVALID_EVENT then
    let w := if and_close then
      { w with calls := w.calls ++ [Call.close_event w.thr.iq_signal_1] } else w
    { w with thr := { w.thr with iq_signal_1 := cfg.DTHREAD_INVALID_EVENT } }
  else w

/-! ## Channel (dthread.c 205-320, 505-546) -/

/-- Values the host runtime hands to `dthread_init`: `sys_info.smp_support`,
`driver_mk_atom`, `driver_mk_port`, `driver_connected`. -/
structure Host where
  smp_support : Int
  driver_mk_atom : String → Nat
  driver_mk_port : Nat → Nat
  driver_connected : Nat → Nat

/-- The loop `while(mp) { tmp = mp->next; dmessage_free(mp); mp = tmp; }` of
`dthread_finish`, at most `fuel` iterations; `none` when they do not suffice. -/
def free_loop (mem : Nat → dmessage_t) : Nat → Nat → Option (List Call)
  | _, 0 => some []
  | 0, _ + 1 => none
  | fuel + 1, mp + 1 =>
    (free_loop mem fuel (mem (mp + 1)).next).map fun cs => dmessage_free mem (mp + 1) ++ cs

/-- Embeds `dthread_finish(thr)`. -/
def dthread_finish (cfg : Config) (fuel : Nat) (w : World) : Option World :=
  let w :=
    if w.thr.iq_mtx ≠ 0 then
      { w with calls := w.calls ++ [Call.mutex_destroy w.thr.iq_mtx],
               thr := { w.thr with iq_mtx := 0 } }
    else w
  match free_loop w.mem fuel w.thr.iq_front with
  | none => none
  | some cs =>
    let w := { w with calls := w.calls ++ cs }
    let w := { w with thr := { w.thr with iq_rear := 0 } }
    let w := { w with thr := { w.thr with iq_front := w.thr.iq_rear } }
    some (dthread_signal_finish cfg w false)

/-- Embeds `dthread_init(thr, port)` (pipe variant). `mtx` is what
`erl_drv_mutex_create` returned (`0` for `NULL`), `pfd` what `pipe` produced
(`none` when it failed). A pipe that was just created holds no byte. -/
def dthread_init (cfg : Config) (host : Host) (w : World) (port : Nat) (mtx : Nat)
    (pfd : Option (Int × Int)) : Option (World × Int) :=
  let thr := dthread_zero
  let thr := dthread_signal_init cfg thr
  let thr := { thr with smp_support := host.smp_support }
  let thr := { thr with am_ok := host.driver_mk_atom "ok" }
  let thr := { thr with am_error := host.driver_mk_atom "error" }
  let thr := { thr with port := port }
  let thr := { thr with dport := host.driver_mk_port port }
  let thr := { thr with owner := host.driver_connected port }
  let thr := { thr with iq_mtx := mtx }
  let w := { w with thr := thr }
  if mtx = 0 then some (w, -1)
  else
    match pfd with
    | none =>
      match dthread_finish cfg 0 w with
      | none => none
      | some w => some (w, -1)
    | some (fd0, fd1) =>
      let w := { w with pipe := 0 }
      let w := { w with thr := { w.thr with iq_signal_0 := fd0 } }
      let w := { w with thr := { w.thr with iq_signal_1 := fd1 } }
      some (w, 0)

/-- Embeds `dthread_send(thr, source, mp)`; `ok` is the outcome of the `write`
inside `dthread_signal_set`, should it be called. Returns the world and `r`. -/
def dthread_send (w : World) (source : Nat) (mp : Nat) (ok : Bool) : World × Int :=
  let r : Int := 0
  let mem := Function.update w.mem mp { w.mem mp with next := 0 }
  let mem := Function.update mem mp { mem mp with source := source }
  let mr := w.thr.iq_rear
  let w :=
    if mr ≠ 0 then { w with mem := Function.update mem mr { mem mr with next := mp } }
    else { w with mem := mem, thr := { w.thr with iq_front := mp } }
  let w := { w with thr := { w.thr with iq_rear := mp } }
  let w := { w with thr := { w.thr with iq_len := w.thr.iq_len + 1 } }
  let len := w.thr.iq_len
  if len = 1 then dthread_signal_set w ok else (w, r)

/-- Embeds `dthread_recv(thr, source)`. `source` is `none` when the caller
passes a `NULL` pointer, else the present value of `*source`; `ok` is the
outcome of the `read` inside `dthread_signal_reset`, should it be called.
Returns the world, `mp` and the value of `*source`; `none` when the call does
not return. -/
def dthread_recv (w : World) (source : Option Nat) (ok : Bool) :
    Option (World × Nat × Option Nat) :=
  let mp := w.thr.iq_front
  let w1 : Option World :=
    if mp ≠ 0 then
      let w := { w with thr := { w.thr with iq_front := (w.mem mp).next } }
      let w := if w.thr.iq_front = 0 then { w with thr := { w.thr with iq_rear := 0 } } else w
      let w := { w with thr := { w.thr with iq_len := w.thr.iq_len - 1 } }
      if w.thr.iq_len = 0 then (dthread_signal_reset w ok).map Prod.fst else some w
    else some w
  match w1 with
  | none => none
  | some w1 =>
    if mp ≠ 0 ∧ source.isSome then some (w1, mp, some (w1.mem mp).source)
    else some (w1, mp, source)

/-- The first statements of `dthread_stop`, up to and including the
`dthread_send` (dthread.c 308-310): the world in which the worker runs while
`dthread_stop` waits in `erl_drv_thread_join`. `none` when `dmessage_create`
returned `NULL`. -/
def dthread_stop_enqueue (cfg : Config) (w : World) (source : Nat) (a : Option Nat)
    (ok : Bool) : Option World :=
  let (mem1, mp) := dmessage_create w.mem a cfg.DTHREAD_STOP BufPtr.null [] 0
  if mp = 0 then none
  else some (dthread_send { w with mem := mem1 } source mp ok).1

/-- Embeds `dthread_stop(target, source, exit_value)` for the channel at address
`target`. `join` is what the worker thread does to the world between the send
and its exit. -/
def dthread_stop (cfg : Config) (fuel : Nat) (w : World) (target source : Nat)
    (a : Option Nat) (ok : Bool) (join : World → World) : Option (World × Int) :=
  match dthread_stop_enqueue cfg w source a ok with
  | none => some (w, -1)
  | some w =>
    let w := join w
    let w := dthread_signal_finish cfg w true
    match dthread_finish cfg fuel w with
    | none => none
    | some w => some ({ w with calls := w.calls ++ [Call.driver_free_thr target] }, 0)

/-! ## Call sequences -/

/-- One call on the channel, with the outcome of the system call it may make. -/
inductive Op where
  | send (source : Nat) (mp : Nat) (ok : Bool)
  | recv (ok : Bool)
deriving DecidableEq, Repr

/-- Runs the calls in order (callers pass `source = NULL` to `dthread_recv`);
yields the final world and the value returned by each `dthread_recv`, `0` for
`NULL`. `none` when some `dthread_recv` does not return. -/
def run : World → List Op → Option (World × List Nat)
  | w, [] => some (w, [])
  | w, Op.send source mp ok :: ops => run (dthread_send w source mp ok).1 ops
  | w, Op.recv ok :: ops =>
    match dthread_recv w none ok with
    | none => none
    | some (w1, mp, _) => (run w1 ops).map fun r => (r.1, mp :: r.2)

/-- The messages passed to `dthread_send`, in call order. -/
def sent : List Op → List Nat
  | [] => []
  | Op.send _ mp _ :: ops => mp :: sent ops
  | Op.recv _ :: ops => sent ops

/-- The messages among the values returned by `dthread_recv` (`NULL` dropped). -/
def received (rs : List Nat) : List Nat := rs.filter fun mp => mp ≠ 0

/-- Ownership discipline of the callers: a message passed to `dthread_send` is
not `NULL` and is not in the queue at that moment. `q` lists the messages in
the queue before the calls. -/
def Owned : List Nat → List Op → Prop
  | _, [] => True
  | q, Op.send _ mp _ :: ops => mp ≠ 0 ∧ mp ∉ q ∧ Owned (q ++ [mp]) ops
  | q, Op.recv _ :: ops => Owned q.tail ops

/-- Every `write` made by the `dthread_send` calls and every `read` made by the
`dthread_recv` calls succeeds. -/
def AllOk : List Op → Prop
  | [] => True
  | Op.send _ _ ok :: ops => ok = true ∧ AllOk ops
  | Op.recv ok :: ops => ok = true ∧ AllOk ops

/-- Every `write` made by the `dthread_send` calls succeeds. -/
def RaiseOk : List Op → Prop
  | [] => True
  | Op.send _ _ ok :: ops => ok = true ∧ RaiseOk ops
  | Op.recv _ :: ops => RaiseOk ops

/-- The messages linked from `p` by `next`: `chain mem p l` holds when `l` lists
them from `p` up to the message whose `next` is `NULL`. -/
def chain (mem : Nat → dmessage_t) : Nat → List Nat → Prop
  | p, [] => p = 0
  | p, a :: l => p = a ∧ a ≠ 0 ∧ chain mem (mem a).next l

/-- A world whose queue is empty. -/
def EmptyQueue (w : World) : Prop :=
  w.thr.iq_front = 0 ∧ w.thr.iq_rear = 0 ∧ w.thr.iq_len = 0

/-- The queue of `w` holds exactly the messages `q`, front first: they are
linked from `iq_front`, pairwise distinct, counted by `iq_len`, and `iq_rear`
is the last of them (`NULL` when there is none). -/
def Queue (w : World) (q : List Nat) : Prop :=
  chain w.mem w.thr.iq_front q ∧ q.Nodup ∧ w.thr.iq_len = (q.length : Int) ∧
    w.thr.iq_rear = q.getLastD 0

/-! ## Concrete worlds used in the examples -/

/-- Header constants with pairwise different command tags. -/
def cfg0 : Config :=
  { DTHREAD_INVALID_EVENT := -1, DTHREAD_STOP := 1, DTHREAD_OUTPUT := 2,
    DTHREAD_SEND_TERM := 3, DTERM_FIXED := 4 }

/-- A host runtime that names every atom by the length of its text. -/
def host0 : Host :=
  { smp_support := 1, driver_mk_atom := fun s => s.length,
    driver_mk_port := fun p => p + 100, driver_connected := fun p => p + 200 }

/-- A channel with an empty queue and an empty pipe. -/
def world_empty : World :=
  { thr := dthread_zero, mem := fun _ => dmessage_zero 0, pipe := 0, calls := [] }

/-- A channel whose queue holds the message at address 1 and the pipe one byte. -/
def world_one : World :=
  { thr := { dthread_zero with iq_front := 1, iq_rear := 1, iq_len := 1 },
    mem := fun _ => dmessage_zero 0, pipe := 1, calls := [] }

/-- A channel whose queue holds the messages at addresses 1 and 2, in that
order, and the pipe one byte. -/
def world_two : World :=
  { thr := { dthread_zero with iq_front := 1, iq_rear := 2, iq_len := 2 },
    mem := fun a => if a = 1 then { dmessage_zero 0 with next := 2 } else dmessage_zero 0,
    pipe := 1, calls := [] }

/-! ## Term buffer (dterm.c)

A word of the buffer (`ErlDrvTermData`) is modelled by the integer it denotes.
A pointer to a word is the block it points into and the word index in that
block: the block `Blk.data` is the inline array `p->data` of the `dterm_t`, a
block `Blk.heap a` the heap block at address `a`. -/

/-- The word type `ErlDrvTermData`. -/
abbrev ErlDrvTermData := Int

/-- The storage blocks a term pointer can point into. -/
inductive Blk where
  | data
  | heap (a : Nat)
deriving DecidableEq, Repr

/-- An `ErlDrvTermData*`. -/
structure TPtr where
  blk : Blk
  off : Nat
deriving DecidableEq, Repr

/-- One block `dterm_link_t` of the link list: its address and its bytes. The
list `head` of a `dterm_t` holds the blocks in the order of the `next`
pointers, the newest first. -/
structure dterm_link_t where
  addr : Nat
  data : List Nat
deriving DecidableEq, Repr

/-- The record `dterm_t` (declared in `include/dterm.h`), with the fields
`dterm.c` reads and writes; `data` is the inline array. -/
structure dterm_t where
  dyn_alloc : Int
  dyn_size : Nat
  base : TPtr
  ptr : TPtr
  ptr_end : TPtr
  head : List dterm_link_t
  mark : Nat
  data : List ErlDrvTermData
deriving DecidableEq, Repr

/-- A term buffer with the heap blocks its pointers can reach, the addresses
passed to `driver_free` so far, and the number of allocation requests made. -/
structure TermState where
  p : dterm_t
  heap : Nat → List ErlDrvTermData
  freed : List Nat
  nreq : Nat

/-- The words of a block. -/
def TermState.block (t : TermState) : Blk → List ErlDrvTermData
  | Blk.data => t.p.data
  | Blk.heap a => t.heap a

/-- Embeds `p->ptr[i] = v` and the like: writes one word through a pointer. -/
def TermState.store (t : TermState) (q : TPtr) (v : ErlDrvTermData) : TermState :=
  match q.blk with
  | Blk.data => { t with p := { t.p with data := t.p.data.set q.off v } }
  | Blk.heap a => { t with heap := Function.update t.heap a ((t.heap a).set q.off v) }

/-- Modelled from the spec: `dterm_allocated_size(p)` of `include/dterm.h`, the
capacity in words of the storage window `base`..`end`: `p->ptr_end - p->base`. -/
def dterm_allocated_size (p : dterm_t) : Nat := p.ptr_end.off - p.base.off

/-- Modelled from the spec: `dterm_used_size(p)` of `include/dterm.h`, the used
size in words: `p->ptr - p->base`. -/
def dterm_used_size (p : dterm_t) : Nat := p.ptr.off - p.base.off

/-- Modelled from the spec: the remaining capacity in words,
`p->ptr_end - p->ptr`, which `ensureCapacity` compares with the need. -/
def dterm_remain (p : dterm_t) : Nat := p.ptr_end.off - p.ptr.off

/-- Modelled from the spec: `dterm_data(p)` of `include/dterm.h`, the start of
the encoded words: `p->base`. -/
def dterm_data (p : dterm_t) : TPtr := p.base

/-- The word sequence written so far: the `dterm_used_size` words at
`dterm_data`. -/
def dterm_words (t : TermState) : List ErlDrvTermData :=
  ((t.block t.p.base.blk).drop t.p.base.off).take (dterm_used_size t.p)

/-- A block of `n` words as an allocator returns it; `junk` is the
indeterminate content. -/
def raw_block (n : Nat) (junk : List ErlDrvTermData) : List ErlDrvTermData :=
  (List.range n).map fun i => junk.getD i 0

/-- Embeds `memcpy(dst, src, k words)`. -/
def memcpy_words (dst src : List ErlDrvTermData) (k : Nat) : List ErlDrvTermData :=
  (List.range dst.length).map fun i => if i < k then src.getD i 0 else dst.getD i 0

/-- The block `driver_realloc` returns for new size `n`: the content of the old
block up to the smaller of the two sizes, then indeterminate content. -/
def realloc_block (old : List ErlDrvTermData) (n : Nat) (junk : List ErlDrvTermData) :
    List ErlDrvTermData :=
  (List.range n).map fun i => if i < old.length then old.getD i 0 else junk.getD (i - old.length) 0

/-- Embeds `dterm_init(p)`. -/
def dterm_init (cfg : Config) (t : TermState) : TermState :=
  let p := t.p
  let p := { p with dyn_alloc := 0 }
  let p := { p with dyn_size := cfg.DTERM_FIXED }
  let p := { p with base := ⟨Blk.data, 0⟩ }
  let p := { p with ptr := ⟨Blk.data, 0⟩ }
  let p := { p with ptr_end := ⟨Blk.data, 0 + cfg.DTERM_FIXED⟩ }
  let p := { p with head := [] }
  let p := { p with mark := 0 }
  { t with p := p }

/-- Embeds `q + k` for a pointer `q` to `ErlDrvTermData` in an address space
of `S` bytes, `W` being `sizeof(ErlDrvTermData)`: the byte offset wraps at `S`.
Offsets are counted from the start of the block. -/
def ptr_plus (S W : Nat) (q : TPtr) (k : Nat) : TPtr :=
  ⟨q.blk, (q.off * W + k * W) % S / W⟩

/-- Embeds `dterm_alloc(size)`. `S` is the number of values of `size_t`, `W`
is `sizeof(ErlDrvTermData)` and `HDR` is
`sizeof(dterm_t) - DTERM_FIXED*sizeof(ErlDrvTermData)`; the byte count `sz`
wraps at `S`. `r` is the outcome of `malloc(sz)`: `none` for `NULL`, else the
indeterminate content of the new block (its link list, its mark, the words of
its `data` array, which has as many elements as the `sz` bytes leave after the
`HDR` bytes in front). The result is `some none` when `dterm_alloc` returns
`NULL`, and `none` when the block is smaller than the fields written to it. -/
def dterm_alloc (S W HDR : Nat) (t : TermState) (size : Nat)
    (r : Option (List dterm_link_t × Nat × List ErlDrvTermData)) : Option (Option TermState) :=
  let sz := (HDR + (size * W) % S) % S
  match r with
  | none => some none
  | some (links, mark, junk) =>
    if sz < HDR then none
    else
      let p : dterm_t :=
        { dyn_alloc := 0, dyn_size := 0, base := ⟨Blk.data, 0⟩, ptr := ⟨Blk.data, 0⟩,
          ptr_end := ⟨Blk.data, 0⟩, head := links, mark := mark,
          data := raw_block ((sz - HDR) / W) junk }
      let p := { p with dyn_alloc := 1 }
      let p := { p with dyn_size := size }
      let p := { p with base := ⟨Blk.data, 0⟩ }
      let p := { p with ptr := ⟨Blk.data, 0⟩ }
      let p := { p with ptr_end := ptr_plus S W ⟨Blk.data, 0⟩ p.dyn_size }
      let p := { p with head := [] }
      let p := { p with mark := 0 }
      some (some { t with p := p })

/-- Embeds `dterm_reset_links(p)`: every block of the list is passed to
`driver_free`, then `head` is cleared. -/
def dterm_reset_links (t : TermState) : TermState :=
  if t.p.head ≠ [] then
    let t := { t with freed := t.freed ++ t.p.head.map dterm_link_t.addr }
    { t with p := { t.p with head := [] } }
  else t

/-- Embeds `dterm_reset(p)`. -/
def dterm_reset (t : TermState) : TermState :=
  let t := { t with p := { t.p with ptr := t.p.base } }
  dterm_reset_links t

/-- Embeds `dterm_expand(p, n)`. `S` is the number of values of `size_t` (and
of the byte addresses), `W` is `sizeof(ErlDrvTermData)`: `new_size`, `old_sz`
and `new_sz` are computed in `size_t` and wrap at `S`. `r` is the outcome of
`driver_alloc(new_sz)` (inline storage) or `driver_realloc(p->base, new_sz)`
(heap storage): `none` for `NULL`, else the address of the block, which holds
`new_sz` bytes, and its indeterminate content. Returns the state and the `int`
result; `none` when the `memcpy` of `old_sz` bytes writes past the `new_sz`
bytes of the new block. -/
def dterm_expand (S W : Nat) (t : TermState) (n : Nat)
    (r : Option (Nat × List ErlDrvTermData)) : Option (TermState × Int) :=
  let old_size := dterm_allocated_size t.p
  let new_size := (old_size + n) % S
  let old_sz := (old_size * W) % S
  let new_sz := (new_size * W) % S
  let offset := t.p.ptr.off - t.p.base.off
  let old := (t.block t.p.base.blk).drop t.p.base.off
  if t.p.base = ⟨Blk.data, 0⟩ then
    match r with
    | none => some (t, 0)
    | some (a, junk) =>
      if new_sz < old_sz then none
      else
        let blk := memcpy_words (raw_block (new_sz / W) junk) old (old_sz / W)
        let t := { t with heap := Function.update t.heap a blk }
        let t := { t with p := { t.p with base := ⟨Blk.heap a, 0⟩ } }
        let t := { t with p := { t.p with ptr := ptr_plus S W t.p.base offset } }
        let t := { t with p := { t.p with ptr_end := ptr_plus S W ⟨Blk.heap a, 0⟩ new_size } }
        let t := { t with p := { t.p with base := ⟨Blk.heap a, 0⟩ } }
        some (t, 1)
  else
    match r with
    | none => some (t, 0)
    | some (a, junk) =>
      let blk := realloc_block old (new_sz / W) junk
      let t := { t with heap := Function.update t.heap a blk }
      let t := { t with p := { t.p with base := ⟨Blk.heap a, 0⟩ } }
      let t := { t with p := { t.p with ptr := ptr_plus S W t.p.base offset } }
      let t := { t with p := { t.p with ptr_end := ptr_plus S W ⟨Blk.heap a, 0⟩ new_size } }
      let t := { t with p := { t.p with base := ⟨Blk.heap a, 0⟩ } }
      some (t, 1)

/-- Modelled from the spec: `expand(n)` as the specification words it ("an
expand operation that preserves the logical offset of the in-progress write
cursor", "never shrinks"): the sizes are exact numbers, so the capacity
becomes the old capacity plus `n`. It is what `dterm_expand` of `dterm.c`
computes whenever no size wraps (`dterm_expand_exact` below), and it is the
growth step of the emitters of `include/dterm.h`, which are modelled from the
specification too. `r` is the outcome of the allocation request. -/
def spec_expand (t : TermState) (n : Nat) (r : Option (Nat × List ErlDrvTermData)) :
    TermState × Int :=
  let old_size := dterm_allocated_size t.p
  let new_size := old_size + n
  let offset := t.p.ptr.off - t.p.base.off
  let old := (t.block t.p.base.blk).drop t.p.base.off
  if t.p.base = ⟨Blk.data, 0⟩ then
    match r with
    | none => (t, 0)
    | some (a, junk) =>
      let blk := memcpy_words (raw_block new_size junk) old old_size
      let t := { t with heap := Function.update t.heap a blk }
      let t := { t with p := { t.p with base := ⟨Blk.heap a, 0⟩ } }
      let t := { t with p := { t.p with ptr := ⟨t.p.base.blk, t.p.base.off + offset⟩ } }
      let t := { t with p := { t.p with ptr_end := ⟨Blk.heap a, 0 + new_size⟩ } }
      let t := { t with p := { t.p with base := ⟨Blk.heap a, 0⟩ } }
      (t, 1)
  else
    match r with
    | none => (t, 0)
    | some (a, junk) =>
      let blk := realloc_block old new_size junk
      let t := { t with heap := Function.update t.heap a blk }
      let t := { t with p := { t.p with base := ⟨Blk.heap a, 0⟩ } }
      let t := { t with p := { t.p with ptr := ⟨t.p.base.blk, t.p.base.off + offset⟩ } }
      let t := { t with p := { t.p with ptr_end := ⟨Blk.heap a, 0 + new_size⟩ } }
      let t := { t with p := { t.p with base := ⟨Blk.heap a, 0⟩ } }
      (t, 1)

/-- The cursor window `base <= ptr <= ptr_end`: the three pointers point into
one block, in that order. -/
def Window (p : dterm_t) : Prop :=
  p.base.blk = p.ptr.blk ∧ p.base.blk = p.ptr_end.blk ∧
    p.base.off ≤ p.ptr.off ∧ p.ptr.off ≤ p.ptr_end.off

/-- A term buffer in a state the functions of `dterm.c` produce: the cursor
window holds and the block at `base` has at least the words up to `ptr_end`. -/
def TermOk (t : TermState) : Prop :=
  Window t.p ∧ t.p.ptr_end.off ≤ (t.block t.p.base.blk).length

/-! ## Emitters of `include/dterm.h`

`dterm.c` builds its key/value helpers from inline emitters declared in
`include/dterm.h`, which is not among the sources. They are modelled here from
section 4.1 of the specification. The tags are those of `erl_driver.h`. -/

/-- Tag `ERL_DRV_ATOM` of `erl_driver.h`. -/
def ERL_DRV_ATOM : ErlDrvTermData := 2

/-- Tag `ERL_DRV_INT` of `erl_driver.h`. -/
def ERL_DRV_INT : ErlDrvTermData := 3

/-- Tag `ERL_DRV_STRING` of `erl_driver.h`. -/
def ERL_DRV_STRING : ErlDrvTermData := 6

/-- Tag `ERL_DRV_TUPLE` of `erl_driver.h`. -/
def ERL_DRV_TUPLE : ErlDrvTermData := 7

/-- Tag `ERL_DRV_UINT` of `erl_driver.h`. -/
def ERL_DRV_UINT : ErlDrvTermData := 13

/-- The allocator as the emitters meet it: the growth amount chosen when
`capacity` words are allocated and `shortfall` more are needed (the
specification leaves the choice open), and the outcome of the k-th request
(`none` for `NULL`, else the address and indeterminate content of the block). -/
structure AllocEnv where
  grow : Nat → Nat → Nat
  outcome : Nat → Option (Nat × List ErlDrvTermData)

/-- The growth amount always covers the shortfall. -/
def Covers (env : AllocEnv) : Prop := ∀ capacity shortfall, shortfall ≤ env.grow capacity shortfall

/-- No allocation request fails. -/
def NoFailure (env : AllocEnv) : Prop := ∀ k, env.outcome k ≠ none

/-- Modelled from the spec: `ensureCapacity(n)` of `include/dterm.h` ("MUST call
`ensureCapacity(n)` first, which triggers `expand` when remaining capacity is
insufficient; expand failure is reported to the caller"). Returns the result of
`expand`, or 1 when no growth is needed. -/
def ensureCapacity (env : AllocEnv) (t : TermState) (n : Nat) : TermState × Int :=
  if dterm_remain t.p < n then
    let r := env.outcome t.nreq
    let t := { t with nreq := t.nreq + 1 }
    spec_expand t (env.grow (dterm_allocated_size t.p) (n - dterm_remain t.p)) r
  else (t, 1)

/-- Modelled from the spec: the write of one word in `include/dterm.h`,
`*p->ptr++ = w`. -/
def dterm_put_word (t : TermState) (w : ErlDrvTermData) : TermState :=
  let t := t.store t.p.ptr w
  { t with p := { t.p with ptr := ⟨t.p.ptr.blk, t.p.ptr.off + 1⟩ } }

/-- Modelled from the spec: the write of `include/dterm.h` ("every write
advances `ptr` by exactly the words it appends"): `*p->ptr++ = w` for each
word in turn. -/
def dterm_put (t : TermState) : List ErlDrvTermData → TermState
  | [] => t
  | w :: ws => dterm_put (dterm_put_word t w) ws

/-- Modelled from the spec: a primitive emitter of `include/dterm.h` that
appends the tagged words `ws` after `ensureCapacity`; returns 0 and appends
nothing when the growth fails. -/
def dterm_emit (env : AllocEnv) (t : TermState) (ws : List ErlDrvTermData) : TermState × Int :=
  let (t, ok) := ensureCapacity env t ws.length
  if ok = 0 then (t, 0) else (dterm_put t ws, 1)

/-- Modelled from the spec: `dterm_atom(p, atom)` of `include/dterm.h`, the
emitter `atom(id)`. -/
def dterm_atom (env : AllocEnv) (t : TermState) (atom : ErlDrvTermData) : TermState × Int :=
  dterm_emit env t [ERL_DRV_ATOM, atom]

/-- Modelled from the spec: `dterm_int(p, value)` of `include/dterm.h`, the
emitter `int(v)`. -/
def dterm_int (env : AllocEnv) (t : TermState) (value : Int) : TermState × Int :=
  dterm_emit env t [ERL_DRV_INT, value]

/-- Modelled from the spec: `dterm_uint(p, value)` of `include/dterm.h`, the
emitter `uint(v)`. -/
def dterm_uint (env : AllocEnv) (t : TermState) (value : Nat) : TermState × Int :=
  dterm_emit env t [ERL_DRV_UINT, (value : Int)]

/-- Modelled from the spec: `dterm_string(p, ptr, len)` of `include/dterm.h`,
the emitter `string(ptr,len)`. -/
def dterm_string (env : AllocEnv) (t : TermState) (ptr : Nat) (len : Nat) : TermState × Int :=
  dterm_emit env t [ERL_DRV_STRING, (ptr : Int), (len : Int)]

/-- A decoded term. -/
inductive Term where
  | atom (a : ErlDrvTermData)
  | int (v : Int)
  | uint (v : Int)
  | string (ptr : ErlDrvTermData) (len : ErlDrvTermData)
  | tuple (es : List Term)

mutual
/-- Modelled from the spec: reads one term from the front of a word sequence
laid out as the emitters write it (a tuple is its tag, its arity, then its
elements); returns the term and the remaining words. -/
def decode_term : Nat → List ErlDrvTermData → Option (Term × List ErlDrvTermData)
  | 0, _ => none
  | _ + 1, [] => none
  | fuel + 1, tag :: ws =>
    if tag = ERL_DRV_ATOM then
      match ws with
      | a :: r => some (Term.atom a, r)
      | _ => none
    else if tag = ERL_DRV_INT then
      match ws with
      | v :: r => some (Term.int v, r)
      | _ => none
    else if tag = ERL_DRV_UINT then
      match ws with
      | v :: r => some (Term.uint v, r)
      | _ => none
    else if tag = ERL_DRV_STRING then
      match ws with
      | q :: n :: r => some (Term.string q n, r)
      | _ => none
    else if tag = ERL_DRV_TUPLE then
      match ws with
      | n :: r =>
        match decode_terms fuel n.toNat r with
        | some (es, r1) => some (Term.tuple es, r1)
        | none => none
      | _ => none
    else none
/-- Reads `k` terms in a row. -/
def decode_terms : Nat → Nat → List ErlDrvTermData → Option (List Term × List ErlDrvTermData)
  | _, 0, ws => some ([], ws)
  | 0, _ + 1, _ => none
  | fuel + 1, k + 1, ws =>
    match decode_term fuel ws with
    | some (e, r) =>
      match decode_terms fuel k r with
      | some (es, r1) => some (e :: es, r1)
      | none => none
    | none => none
end

/-- Number of terms that stand in a row at the front of `ws` (a tuple with its
elements counts once); at most `fuel` of them are counted. -/
def elem_count_aux : Nat → List ErlDrvTermData → Nat
  | 0, _ => 0
  | fuel + 1, ws =>
    match decode_term (ws.length + 1) ws with
    | some (_, r) => 1 + elem_count_aux fuel r
    | none => 0

/-- Modelled from the spec: the conversion of the words emitted since a mark
to an element count ("the number of direct child elements; tuples of tuples
count the inner tuple as ONE element"). -/
def elem_count (ws : List ErlDrvTermData) : Nat := elem_count_aux ws.length ws

/-- A mark `dterm_mark_t`: the saved cursor, as a word offset from `base`. -/
abbrev dterm_mark_t := Nat

/-- Modelled from the spec: `dterm_tuple_begin(p, mark)` of `include/dterm.h`
("records the current cursor and reserves a slot for the arity tag pair").
Returns the state, the mark and the result. -/
def dterm_tuple_begin (env : AllocEnv) (t : TermState) : TermState × dterm_mark_t × Int :=
  let mark := dterm_used_size t.p
  let (t, ok) := dterm_emit env t [ERL_DRV_TUPLE, 0]
  (t, mark, ok)

/-- Modelled from the spec: `dterm_tuple_end(p, mark)` of `include/dterm.h`
("computes the number of words emitted since the mark, converts it to an
element count, and writes it into the reserved slot"). -/
def dterm_tuple_end (t : TermState) (mark : dterm_mark_t) : TermState :=
  let since := (dterm_words t).drop (mark + 2)
  t.store ⟨t.p.base.blk, t.p.base.off + mark + 1⟩ (elem_count since : Nat)

/-! ## Key/value helpers (dterm.c 11-18, 127-165) -/

/-- The atoms `am_true` and `am_false`, file-scope variables of `dterm.c`. -/
structure TermLib where
  am_true : ErlDrvTermData
  am_false : ErlDrvTermData

/-- Embeds `dterm_lib_init()`; `driver_mk_atom` comes from the host runtime. -/
def dterm_lib_init (driver_mk_atom : String → ErlDrvTermData) : TermLib :=
  { am_true := driver_mk_atom "true", am_false := driver_mk_atom "false" }

/-- One emission made by a caller of the term buffer. -/
inductive Emit where
  | atom (a : ErlDrvTermData)
  | int (v : Int)
  | uint (v : Nat)
  | string (ptr : Nat) (len : Nat)
  | tuple_begin
  | tuple_end
deriving DecidableEq, Repr

/-- One emission on the buffer. The caller keeps its open marks, innermost
first. `none` when the emitter reports an allocation failure. A `tuple_end`
without an open mark emits nothing. -/
def emit_one (env : AllocEnv) (s : TermState × List dterm_mark_t) :
    Emit → Option (TermState × List dterm_mark_t)
  | Emit.atom a =>
    let (t, ok) := dterm_atom env s.1 a
    if ok = 0 then none else some (t, s.2)
  | Emit.int v =>
    let (t, ok) := dterm_int env s.1 v
    if ok = 0 then none else some (t, s.2)
  | Emit.uint v =>
    let (t, ok) := dterm_uint env s.1 v
    if ok = 0 then none else some (t, s.2)
  | Emit.string q n =>
    let (t, ok) := dterm_string env s.1 q n
    if ok = 0 then none else some (t, s.2)
  | Emit.tuple_begin =>
    let (t, m, ok) := dterm_tuple_begin env s.1
    if ok = 0 then none else some (t, m :: s.2)
  | Emit.tuple_end =>
    match s.2 with
    | [] => some s
    | m :: ms => some (dterm_tuple_end s.1 m, ms)

/-- A sequence of emissions on the buffer. -/
def emit_all (env : AllocEnv) :
    TermState × List dterm_mark_t → List Emit → Option (TermState × List dterm_mark_t)
  | s, [] => some s
  | s, e :: es =>
    match emit_one env s e with
    | none => none
    | some s1 => emit_all env s1 es

/-- One emission into an unbounded buffer: a plain word list that never needs
to grow. -/
def unbounded_one (s : List ErlDrvTermData × List dterm_mark_t) :
    Emit → List ErlDrvTermData × List dterm_mark_t
  | Emit.atom a => (s.1 ++ [ERL_DRV_ATOM, a], s.2)
  | Emit.int v => (s.1 ++ [ERL_DRV_INT, v], s.2)
  | Emit.uint v => (s.1 ++ [ERL_DRV_UINT, (v : Int)], s.2)
  | Emit.string q n => (s.1 ++ [ERL_DRV_STRING, (q : Int), (n : Int)], s.2)
  | Emit.tuple_begin => (s.1 ++ [ERL_DRV_TUPLE, 0], s.1.length :: s.2)
  | Emit.tuple_end =>
    match s.2 with
    | [] => s
    | m :: ms => (s.1.set (m + 1) (elem_count (s.1.drop (m + 2)) : Nat), ms)

/-- A sequence of emissions into an unbounded buffer. -/
def unbounded_all (s : List ErlDrvTermData × List dterm_mark_t) (es : List Emit) :
    List ErlDrvTermData × List dterm_mark_t :=
  es.foldl unbounded_one s

/-- A `dterm_t` before `dterm_init`: an inline array of `cfg0.DTERM_FIXED = 4`
words, one stale link, no heap block. -/
def term_raw : TermState :=
  { p := { dyn_alloc := 7, dyn_size := 9, base := ⟨Blk.heap 3, 1⟩, ptr := ⟨Blk.data, 2⟩,
           ptr_end := ⟨Blk.data, 1⟩, head := [], mark := 5, data := [11, 12, 13, 14] },
    heap := fun _ => [], freed := [], nreq := 0 }

/-- An inline buffer of capacity 4 holding the two words `[2, 5]` and owning two
link blocks. -/
def term_used : TermState :=
  { p := { dyn_alloc := 0, dyn_size := 4, base := ⟨Blk.data, 0⟩, ptr := ⟨Blk.data, 2⟩,
           ptr_end := ⟨Blk.data, 4⟩, head := [⟨40, [1, 2]⟩, ⟨30, []⟩], mark := 0,
           data := [2, 5, 13, 14] },
    heap := fun _ => [], freed := [], nreq := 0 }

/-- A buffer on the heap: the block at address 3 holds 8 words, of which 6 are
used. -/
def term_heap : TermState :=
  { p := { dyn_alloc := 0, dyn_size := 4, base := ⟨Blk.heap 3, 0⟩, ptr := ⟨Blk.heap 3, 6⟩,
           ptr_end := ⟨Blk.heap 3, 8⟩, head := [], mark := 0, data := [0, 0, 0, 0] },
    heap := fun a => if a = 3 then [7, 2, 3, 5, 2, 21, 0, 0] else [], freed := [], nreq := 1 }
/-! ## Words as bytes

A message payload is a `char` buffer; a term array copied into it is stored
word by word, each word as `W = sizeof(ErlDrvTermData)` bytes, least
significant byte first, as the unsigned value of the word. -/

/-- The `k` low bytes of `n`, least significant first. -/
def le_bytes : Nat → Nat → List Nat
  | 0, _ => []
  | k + 1, n => n % 256 :: le_bytes k (n / 256)

/-- The number whose bytes, least significant first, are `bs`. -/
def le_value : List Nat → Nat
  | [] => 0
  | b :: bs => b + 256 * le_value bs

/-- The value of a word as an unsigned machine word of `W` bytes. -/
def word_norm (W : Nat) (v : ErlDrvTermData) : ErlDrvTermData := v % ((256 : Int) ^ W)

/-- The `W` bytes of a word in memory. -/
def word_bytes (W : Nat) (v : ErlDrvTermData) : List Nat := le_bytes W (word_norm W v).toNat

/-- The bytes of a term array, `(char*)spec`. -/
def spec_bytes (W : Nat) (spec : List ErlDrvTermData) : List Nat :=
  (spec.map (word_bytes W)).flatten

/-- The first `n` words read from bytes, `((ErlDrvTermData*)buf)[0..n)`. -/
def bytes_words (W : Nat) : Nat → List Nat → List ErlDrvTermData
  | 0, _ => []
  | n + 1, bs => (le_value (bs.take W) : Int) :: bytes_words W n (bs.drop W)

/-- The word `((ErlDrvTermData*)buf)[i]` read from the bytes at `buf`. -/
def bytes_word_at (W : Nat) (bs : List Nat) (i : Nat) : ErlDrvTermData :=
  (le_value ((bs.drop (i * W)).take W) : Int)

/-- The bytes found at a `char*`: for a pointer into the inline region of a
message, the region from that offset on; nothing is known about other
memory. -/
def bytes_at (mem : Nat → dmessage_t) : BufPtr → List Nat
  | BufPtr.inl b off => (mem b).data.drop off
  | _ => []

/-- The payload of the message at `mp`: the `used` bytes at `buffer`. -/
def payload_bytes (mem : Nat → dmessage_t) (mp : Nat) : List Nat :=
  (bytes_at mem (mem mp).buffer).take (mem mp).used

/-- The payload of the message at `mp` read as a term array. -/
def payload_words (W : Nat) (mem : Nat → dmessage_t) (mp : Nat) : List ErlDrvTermData :=
  bytes_words W ((mem mp).used / W) (payload_bytes mem mp)

/-! ## Output path (dthread.c 549-807) -/

/-- Tag `ERL_DRV_PORT` of `erl_driver.h`. -/
def ERL_DRV_PORT : ErlDrvTermData := 4

/-- Tag `ERL_DRV_STRING_CONS` of `erl_driver.h`. -/
def ERL_DRV_STRING_CONS : ErlDrvTermData := 9

/-- The world of the output path: the channel world, the byte memory by address
(buffers of the caller and blocks from `driver_alloc`), and the calls of
`driver_send_term` made so far, each with its port, target and term array. -/
structure PortWorld where
  w : World
  bufs : Nat → List Nat
  delivered : List (Nat × Nat × List ErlDrvTermData)

/-- Embeds `dthread_lib_init()`: the atoms of `dterm.c` and `am_data`. -/
def dthread_lib_init (host : Host) : TermLib × Nat :=
  (dterm_lib_init fun s => (host.driver_mk_atom s : Int), host.driver_mk_atom "data")

/-- Embeds `dthread_control(thr, source, cmd, buf, len)`. `source` is the
address of the source channel and `src` its record (a channel other than the
target); `a` is the outcome of `driver_alloc`, `ok` that of the `write` of the
raise. `R` is the number of values of the type of `ref` (declared in
`include/dthread.h`): `++source->ref` wraps to 0 after `R - 1`. Returns the
world, the source record and the `int` result. -/
def dthread_control (R : Nat) (w : World) (source : Nat) (src : dthread_t) (a : Option Nat)
    (cmd : Int) (buf : BufPtr) (bytes : List Nat) (len : Nat) (ok : Bool) :
    World × dthread_t × Int :=
  let (mem1, mp) := dmessage_create w.mem a cmd buf bytes len
  if mp = 0 then (w, src, -1)
  else
    let mem2 := Function.update mem1 mp { mem1 mp with from_ := src.caller }
    let src := { src with ref := (src.ref + 1) % R }
    let mem3 := Function.update mem2 mp { mem2 mp with ref := src.ref }
    let (w1, r) := dthread_send { w with mem := mem3 } source mp ok
    (w1, src, r)

/-- Embeds `dthread_output(thr, source, buf, len)`. -/
def dthread_output (cfg : Config) (R : Nat) (w : World) (source : Nat) (src : dthread_t)
    (a : Option Nat) (buf : BufPtr) (bytes : List Nat) (len : Nat) (ok : Bool) :
    World × dthread_t × Int :=
  dthread_control R w source src a cfg.DTHREAD_OUTPUT buf bytes len ok

/-- Embeds `dthread_port_send_term(thr, source, target, spec, len)`. `spec` is
the memory found at the pointer `spec`, `W` is `sizeof(ErlDrvTermData)`, `res`
what `driver_send_term` returns, `a` the outcome of `driver_alloc`, `ok` that
of the `write` of the raise. `none` when the call writes through a `NULL`
pointer. -/
def dthread_port_send_term (cfg : Config) (W : Nat) (pw : PortWorld) (source target : Nat)
    (spec : List ErlDrvTermData) (len : Nat) (a : Option Nat) (res : Int) (ok : Bool) :
    Option (PortWorld × Int) :=
  if pw.w.thr.smp_support ≠ 0 then
    some ({ pw with delivered := pw.delivered ++ [(pw.w.thr.port, target, spec.take len)] }, res)
  else
    let (mem1, mp) := dmessage_create pw.w.mem a cfg.DTHREAD_SEND_TERM (BufPtr.ext 0)
      (spec_bytes W spec) (len * W)
    if mp = 0 then none
    else
      let mem2 := Function.update mem1 mp { mem1 mp with to_ := target }
      let (w1, r) := dthread_send { pw.w with mem := mem2 } source mp ok
      some ({ pw with w := w1 }, r)

/-- Embeds `dthread_port_output_term(thr, source, spec, len)`. -/
def dthread_port_output_term (cfg : Config) (W : Nat) (pw : PortWorld) (source : Nat)
    (spec : List ErlDrvTermData) (len : Nat) (a : Option Nat) (res : Int) (ok : Bool) :
    Option (PortWorld × Int) :=
  dthread_port_send_term cfg W pw source pw.w.thr.owner spec len a res ok

/-- The memory found at `dterm_data(p)`: the block of `base` from `base` on. -/
def dterm_memory (t : TermState) : List ErlDrvTermData :=
  (t.block (dterm_data t.p).blk).drop (dterm_data t.p).off

/-- Embeds `dthread_port_send_dterm(thr, source, target, p)`. -/
def dthread_port_send_dterm (cfg : Config) (W : Nat) (pw : PortWorld) (source target : Nat)
    (t : TermState) (a : Option Nat) (res : Int) (ok : Bool) : Option (PortWorld × Int) :=
  let len := dterm_used_size t.p
  if pw.w.thr.smp_support ≠ 0 then
    some ({ pw with delivered := pw.delivered ++
      [(pw.w.thr.port, target, (dterm_memory t).take len)] }, res)
  else
    let (mem1, mp) := dmessage_create pw.w.mem a cfg.DTHREAD_SEND_TERM (BufPtr.ext 0)
      (spec_bytes W (dterm_memory t)) (len * W)
    if mp = 0 then none
    else
      let mem2 := Function.update mem1 mp { mem1 mp with to_ := target }
      let (w1, r) := dthread_send { pw.w with mem := mem2 } source mp ok
      some ({ pw with w := w1 }, r)

/-- Embeds `dthread_port_output_dterm(thr, source, p)`. -/
def dthread_port_output_dterm (cfg : Config) (W : Nat) (pw : PortWorld) (source : Nat)
    (t : TermState) (a : Option Nat) (res : Int) (ok : Bool) : Option (PortWorld × Int) :=
  dthread_port_send_dterm cfg W pw source pw.w.thr.owner t a res ok

/-- The address of the static function `release_spec_5` as stored in
`mp->release`. -/
def release_spec_5_fn : Nat := 5

/-- The address of the static function `release_spec_5_8` as stored in
`mp->release`; it differs from that of `release_spec_5`. -/
def release_spec_5_8_fn : Nat := 58

/-- Embeds `release_spec_5(buf, used, udata)`; `bytes` is the memory at `buf`. -/
def release_spec_5 (W : Nat) (bytes : List Nat) : List Call :=
  [Call.driver_free_buf (BufPtr.ext (bytes_word_at W bytes 5).toNat)]

/-- Embeds `release_spec_5_8(buf, used, udata)`; `bytes` is the memory at
`buf`. -/
def release_spec_5_8 (W : Nat) (bytes : List Nat) : List Call :=
  [Call.driver_free_buf (BufPtr.ext (bytes_word_at W bytes 5).toNat),
   Call.driver_free_buf (BufPtr.ext (bytes_word_at W bytes 8).toNat)]

/-- What a logged call does once the release function is run: a call through
`mp->release` to one of the two release functions of `dthread.c` becomes the
`driver_free` calls that function makes. -/
def run_release (W : Nat) (mem : Nat → dmessage_t) : Call → List Call
  | Call.release fn buf size udata =>
    if fn = release_spec_5_fn then release_spec_5 W (bytes_at mem buf)
    else if fn = release_spec_5_8_fn then release_spec_5_8 W (bytes_at mem buf)
    else [Call.release fn buf size udata]
  | c => [c]

/-- The calls of `dmessage_free(mp)` with the release functions run. -/
def dmessage_free_run (W : Nat) (mem : Nat → dmessage_t) (mp : Nat) : List Call :=
  ((dmessage_free mem mp).map (run_release W mem)).flatten

/-- Embeds the idiom `ptr = driver_alloc(len); memcpy(ptr, src, len);` of the
proxied output path: `a` is the outcome of `driver_alloc`. Returns the memory
and `ptr`; `none` when bytes are written through `NULL`. -/
def copy_buffer (bufs : Nat → List Nat) (a : Option Nat) (src len : Nat) :
    Option ((Nat → List Nat) × Nat) :=
  match a with
  | none => if len = 0 then some (bufs, 0) else none
  | some ptr =>
    some (Function.update bufs ptr ((List.range len).map fun i => (bufs src).getD i 0), ptr)

/-- Embeds `dthread_port_output(thr, source, buf, len)` for `len >= 0`.
`a_copy` and `a_msg` are the outcomes of the two `driver_alloc` calls. -/
def dthread_port_output (cfg : Config) (W : Nat) (host : Host) (pw : PortWorld)
    (source buf len : Nat) (a_copy a_msg : Option Nat) (res : Int) (ok : Bool) :
    Option (PortWorld × Int) :=
  let spec : List ErlDrvTermData :=
    [ERL_DRV_PORT, (pw.w.thr.dport : Int), ERL_DRV_ATOM, (host.driver_mk_atom "data" : Int),
     ERL_DRV_STRING, (buf : Int), (len : Int), ERL_DRV_TUPLE, 2, ERL_DRV_TUPLE, 2]
  if pw.w.thr.smp_support ≠ 0 then
    some ({ pw with delivered := pw.delivered ++
      [(pw.w.thr.port, pw.w.thr.owner, spec.take 11)] }, res)
  else
    match copy_buffer pw.bufs a_copy buf len with
    | none => none
    | some (bufs1, buf_copy) =>
      let spec := spec.set 5 (buf_copy : Int)
      let (mem1, mp) := dmessage_create pw.w.mem a_msg cfg.DTHREAD_SEND_TERM (BufPtr.ext 0)
        (spec_bytes W spec) (11 * W)
      if mp = 0 then none
      else
        let mem2 := Function.update mem1 mp { mem1 mp with release := release_spec_5_fn }
        let mem3 := Function.update mem2 mp { mem2 mp with to_ := pw.w.thr.owner }
        let (w1, r) := dthread_send { pw.w with mem := mem3 } source mp ok
        some ({ pw with w := w1, bufs := bufs1 }, r)

/-- The term array `spec[0..i)` that `dthread_port_output2` and
`dthread_port_output_binary` build, with the flag `r_8` (`r_5` is always
set). -/
def output2_spec (dport am_data hbuf hlen buf len : Nat) : List ErlDrvTermData × Bool :=
  let spec : List ErlDrvTermData :=
    [ERL_DRV_PORT, (dport : Int), ERL_DRV_ATOM, (am_data : Int)]
  let (spec, r_8) :=
    if len = 0 then
      (spec ++ [ERL_DRV_STRING, (hbuf : Int), (hlen : Int)], false)
    else
      let spec := spec ++ [ERL_DRV_STRING, (buf : Int), (len : Int)]
      if hlen ≠ 0 then (spec ++ [ERL_DRV_STRING_CONS, (hbuf : Int), (hlen : Int)], true)
      else (spec, false)
  (spec ++ [ERL_DRV_TUPLE, 2, ERL_DRV_TUPLE, 2], r_8)

/-- Embeds `dthread_port_output2(thr, source, hbuf, hlen, buf, len)` for
`hlen, len >= 0`. `am_data` is the atom set by `dthread_lib_init`; `a_5`,
`a_8` and `a_msg` are the outcomes of the `driver_alloc` calls. -/
def dthread_port_output2 (cfg : Config) (W : Nat) (am_data : Nat) (pw : PortWorld)
    (source hbuf hlen buf len : Nat) (a_5 a_8 a_msg : Option Nat) (res : Int) (ok : Bool) :
    Option (PortWorld × Int) :=
  let (spec, r_8) := output2_spec pw.w.thr.dport am_data hbuf hlen buf len
  let i := spec.length
  if pw.w.thr.smp_support ≠ 0 then
    some ({ pw with delivered := pw.delivered ++
      [(pw.w.thr.port, pw.w.thr.owner, spec.take i)] }, res)
  else
    match copy_buffer pw.bufs a_5 (spec.getD 5 0).toNat (spec.getD 6 0).toNat with
    | none => none
    | some (bufs1, ptr5) =>
      let spec := spec.set 5 (ptr5 : Int)
      let copied8 :=
        if r_8 then
          match copy_buffer bufs1 a_8 (spec.getD 8 0).toNat (spec.getD 9 0).toNat with
          | none => none
          | some (bufs2, ptr8) => some (bufs2, spec.set 8 (ptr8 : Int))
        else some (bufs1, spec)
      match copied8 with
      | none => none
      | some (bufs2, spec) =>
        let (mem1, mp) := dmessage_create pw.w.mem a_msg cfg.DTHREAD_SEND_TERM (BufPtr.ext 0)
          (spec_bytes W spec) (i * W)
        if mp = 0 then none
        else
          let mem2 :=
            if r_8 then Function.update mem1 mp { mem1 mp with release := release_spec_5_8_fn }
            else Function.update mem1 mp { mem1 mp with release := release_spec_5_fn }
          let mem3 := Function.update mem2 mp { mem2 mp with to_ := pw.w.thr.owner }
          let (w1, r) := dthread_send { pw.w with mem := mem3 } source mp ok
          some ({ pw with w := w1, bufs := bufs2 }, r)

/-- Embeds `dthread_port_output_binary(thr, source, hbuf, hlen, bin, offset,
len)`: with `buf = bin->orig_bytes + offset` its body is that of
`dthread_port_output2`, statement for statement. `orig_bytes` is the address
of `bin->orig_bytes`. -/
def dthread_port_output_binary (cfg : Config) (W : Nat) (am_data : Nat) (pw : PortWorld)
    (source hbuf hlen orig_bytes offset len : Nat) (a_5 a_8 a_msg : Option Nat) (res : Int)
    (ok : Bool) : Option (PortWorld × Int) :=
  dthread_port_output2 cfg W am_data pw source hbuf hlen (orig_bytes + offset) len a_5 a_8 a_msg
    res ok

/-! ## Creation (dthread.c 269-300) -/

/-- The statements after the label `error:` of `dthread_start`, for the channel
at address `thr`; `opts` is the thread-options pointer (`0` for `NULL`). -/
def dthread_start_error (cfg : Config) (w : World) (thr opts : Nat) : Option (World × Nat) :=
  match dthread_finish cfg 0 w with
  | none => none
  | some w =>
    let w := if opts ≠ 0 then { w with calls := w.calls ++ [Call.thread_opts_destroy opts] }
      else w
    match dthread_finish cfg 0 w with
    | none => none
    | some w => some ({ w with calls := w.calls ++ [Call.driver_free_thr thr] }, 0)

/-- Embeds `dthread_start(port, func, arg, stack_size)`. `a` is the outcome of
`driver_alloc` for the channel, `mtx` and `pfd` those of
`erl_drv_mutex_create` and `pipe`, `opts` what `erl_drv_thread_opts_create`
returned (`0` for `NULL`), `tc` what `erl_drv_thread_create` returned and
`tid` the thread it stored. Returns the world and the channel pointer (`0` for
`NULL`). -/
def dthread_start (cfg : Config) (host : Host) (w : World) (port : Nat) (a : Option Nat)
    (mtx : Nat) (pfd : Option (Int × Int)) (opts : Nat) (tc : Int) (tid arg : Nat) :
    Option (World × Nat) :=
  match a with
  | none => some (w, 0)
  | some thr =>
    match dthread_init cfg host w port mtx pfd with
    | none => none
    | some (w, r) =>
      if r < 0 then dthread_start_error cfg w thr 0
      else if opts = 0 then dthread_start_error cfg w thr opts
      else
        let w := { w with thr := { w.thr with arg := arg } }
        if tc < 0 then dthread_start_error cfg w thr opts
        else
          let w := { w with thr := { w.thr with tid := tid } }
          let w := { w with calls := w.calls ++ [Call.thread_opts_destroy opts] }
          some (w, thr)

/-! ## Poll (dthread.c 420-501, select variant) -/

/-- Flag `ERL_DRV_READ` of `erl_driver.h`. -/
def ERL_DRV_READ : Nat := 1

/-- Flag `ERL_DRV_WRITE` of `erl_driver.h`. -/
def ERL_DRV_WRITE : Nat := 2

/-- The record `dthread_poll_event_t` (declared in `include/dthread.h`), with
the fields `dthread_poll` reads and writes: the descriptor, the requested
events and the ready events. -/
structure dthread_poll_event_t where
  event : Int
  events : Nat
  revents : Nat
deriving DecidableEq, Repr

/-- What `select` hands back: its result and the two descriptor sets as it
left them. -/
structure SelectResult where
  ready : Int
  readfds : Int → Bool
  writefds : Int → Bool

/-- The `struct timeval` that `dthread_poll` computes from `timeout`
(milliseconds), as `(tv_sec, tv_usec)`; `none` for the `NULL` pointer that
makes `select` wait without bound. -/
def poll_timeval (timeout : Int) : Option (Int × Int) :=
  if timeout < 0 then none
  else
    let tv_sec := Int.tdiv timeout 1000
    let tv_usec := (timeout - tv_sec * 1000) * 1000
    some (tv_sec, tv_usec)

/-- The first loop of `dthread_poll` over the entries: `revents` is cleared. -/
def poll_clear (es : List dthread_poll_event_t) : List dthread_poll_event_t :=
  es.map fun e => { e with revents := 0 }

/-- The descriptors the first loop puts into `readfds` (after the queue signal)
and into `writefds`. -/
def poll_requested (es : List dthread_poll_event_t) : List Int × List Int :=
  (((es.filter fun e => e.events ≠ 0).filter fun e => e.events &&& ERL_DRV_READ ≠ 0).map
      fun e => e.event,
   ((es.filter fun e => e.events ≠ 0).filter fun e => e.events &&& ERL_DRV_WRITE ≠ 0).map
      fun e => e.event)

/-- The loop `for (i = 0; ready && (i < n); i++)` of `dthread_poll`: returns
the entries, `nready` and `ready`. -/
def poll_scan (sel : SelectResult) :
    Int → Nat → List dthread_poll_event_t → List dthread_poll_event_t × Nat × Int
  | ready, nready, [] => ([], nready, ready)
  | ready, nready, e :: es =>
    if ready ≠ 0 then
      let fd_ready : Nat := 0
      let fd := e.event
      let (e, fd_ready) :=
        if sel.readfds fd then ({ e with revents := e.revents ||| ERL_DRV_READ }, 1)
        else (e, fd_ready)
      let (e, fd_ready) :=
        if sel.writefds fd then ({ e with revents := e.revents ||| ERL_DRV_WRITE }, 1)
        else (e, fd_ready)
      let r := poll_scan sel (ready - 1) (nready + fd_ready) es
      (e :: r.1, r.2)
    else (e :: es, nready, ready)

/-- Embeds `dthread_poll(thr, events, nevents, timeout)` (select variant).
`events` is `none` for a `NULL` pointer, else the array; `nevents` is `none`
for a `NULL` pointer, else `*nevents`; `select` is the system call: it gets
the descriptors put into `readfds` and `writefds` and the timeout. Returns the
world, the array, `*nevents` and the `int` result. -/
def dthread_poll (w : World) (events : Option (List dthread_poll_event_t)) (nevents : Option Nat)
    (timeout : Int) (select : List Int → List Int → Option (Int × Int) → SelectResult) :
    World × Option (List dthread_poll_event_t) × Option Nat × Int :=
  let iq_len : Int := 0
  let tp := poll_timeval timeout
  let fd := w.thr.iq_signal_0
  let readfds : List Int := if fd ≥ 0 then [fd] else []
  let writefds : List Int := []
  let (events, readfds, writefds) :=
    match events, nevents with
    | some es, some (n + 1) =>
      (some (poll_clear (es.take (n + 1)) ++ es.drop (n + 1)),
       readfds ++ (poll_requested (es.take (n + 1))).1,
       writefds ++ (poll_requested (es.take (n + 1))).2)
    | events, _ => (events, readfds, writefds)
  let sel := select readfds writefds tp
  let ready := sel.ready
  if ready ≤ 0 then (w, events, nevents.map fun _ => 0, ready)
  else
    let fd := w.thr.iq_signal_0
    let (iq_len, ready) := if sel.readfds fd then (w.thr.iq_len, ready - 1) else (iq_len, ready)
    match events, nevents with
    | some es, some (n + 1) =>
      if ready ≠ 0 then
        let r := poll_scan sel ready 0 (es.take (n + 1))
        (w, some (r.1 ++ es.drop (n + 1)), some r.2.1, iq_len)
      else (w, events, nevents, iq_len)
    | events, nevents => (w, events, nevents, iq_len)

/-! ## Reading aids for the output path -/

/-- The record of a message made by `dmessage_create(cmd, buf, len)` at address
`mp`, with `to` and `release` then set by the caller, before `dthread_send`
links it: the payload is the inline copy of the `len` bytes at `buf`. -/
def proxy_message (cmd : Int) (mp target release : Nat) (bytes : List Nat) (len : Nat) :
    dmessage_t :=
  { next := 0, cmd := cmd, source := 0, from_ := 0, to_ := target, ref := 0, udata := 0,
    release := release, buffer := BufPtr.inl mp 8, used := len, size := len + 8,
    data := memcpy_inl (List.replicate (len + 8) 0) 8 bytes len }

/-- An Erlang term as `driver_send_term` builds it from a term array. -/
inductive ETerm where
  | port (p : ErlDrvTermData)
  | atom (a : ErlDrvTermData)
  | int (v : ErlDrvTermData)
  | str (bytes : List Nat)
  | tuple (es : List ETerm)

/-- The stack machine of `driver_send_term` (erl_driver): the term array is read
left to right; `ERL_DRV_PORT p`, `ERL_DRV_ATOM a` and `ERL_DRV_INT v` push a
value, `ERL_DRV_STRING ptr len` pushes the `len` bytes at `ptr`,
`ERL_DRV_STRING_CONS ptr len` puts the `len` bytes at `ptr` in front of the
string on top of the stack, and `ERL_DRV_TUPLE n` replaces the `n` topmost
values by the tuple of them. `fuel` bounds the number of steps. -/
def driver_term_run (bufs : Nat → List Nat) :
    Nat → List ErlDrvTermData → List ETerm → Option (List ETerm)
  | 0, _, _ => none
  | _ + 1, [], st => some st
  | fuel + 1, tag :: ws, st =>
    if tag = ERL_DRV_PORT then
      match ws with
      | p :: r => driver_term_run bufs fuel r (ETerm.port p :: st)
      | _ => none
    else if tag = ERL_DRV_ATOM then
      match ws with
      | a :: r => driver_term_run bufs fuel r (ETerm.atom a :: st)
      | _ => none
    else if tag = ERL_DRV_INT then
      match ws with
      | v :: r => driver_term_run bufs fuel r (ETerm.int v :: st)
      | _ => none
    else if tag = ERL_DRV_STRING then
      match ws with
      | p :: n :: r =>
        driver_term_run bufs fuel r (ETerm.str ((bufs p.toNat).take n.toNat) :: st)
      | _ => none
    else if tag = ERL_DRV_STRING_CONS then
      match ws, st with
      | p :: n :: r, ETerm.str tl :: st1 =>
        driver_term_run bufs fuel r (ETerm.str ((bufs p.toNat).take n.toNat ++ tl) :: st1)
      | _, _ => none
    else if tag = ERL_DRV_TUPLE then
      match ws with
      | n :: r =>
        if n.toNat ≤ st.length then
          driver_term_run bufs fuel r
            (ETerm.tuple (st.take n.toNat).reverse :: st.drop n.toNat)
        else none
      | _ => none
    else none

/-- The term a term array stands for: what is left on the stack when it is a
single value. -/
def driver_term (bufs : Nat → List Nat) (spec : List ErlDrvTermData) : Option ETerm :=
  match driver_term_run bufs (spec.length + 1) spec [] with
  | some [t] => some t
  | _ => none

/-- The descriptor sets `dthread_poll` hands to `select`: `readfds` holds the
queue signal and the entries asking for `ERL_DRV_READ`, `writefds` the entries
asking for `ERL_DRV_WRITE`. -/
def poll_fdsets (w : World) (events : Option (List dthread_poll_event_t))
    (nevents : Option Nat) : List Int × List Int :=
  let fd := w.thr.iq_signal_0
  let readfds : List Int := if fd ≥ 0 then [fd] else []
  match events, nevents with
  | some es, some (n + 1) =>
    (readfds ++ (poll_requested (es.take (n + 1))).1, (poll_requested (es.take (n + 1))).2)
  | _, _ => (readfds, [])

/-- The number of entries among the first `n` whose `revents` is not zero. -/
def ready_count (es : List dthread_poll_event_t) (n : Nat) : Nat :=
  ((es.take n).filter fun e => e.revents ≠ 0).length

/-- A channel without SMP support, with an empty queue, port 7, `dport` 107 and
owner 207; the caller holds the bytes `[1, 2, 3, 4, 5]` at address 1000 and
`[8, 9]` at address 1100. -/
def port_world : PortWorld :=
  { w := { world_empty with thr := { world_empty.thr with
      smp_support := 0, port := 7, dport := 107, owner := 207, am_ok := 21, am_error := 22 } },
    bufs := fun a => if a = 1000 then [1, 2, 3, 4, 5] else if a = 1100 then [8, 9] else [],
    delivered := [] }

/-- The same channel with SMP support. -/
def port_world_smp : PortWorld :=
  { port_world with w := { port_world.w with thr := { port_world.w.thr with
      smp_support := 1 } } }

/-- A channel whose queue holds two messages and whose signal is read on
descriptor 3. -/
def poll_world : World :=
  { world_two with thr := { world_two.thr with iq_signal_0 := 3, iq_signal_1 := 4 } }

/-- Two entries asking for `ERL_DRV_READ` on the descriptors 5 and 6, with
stale `revents`. -/
def poll_entries : List dthread_poll_event_t :=
  [{ event := 5, events := 1, revents := 9 }, { event := 6, events := 1, revents := 9 }]

/-- A `select` that finds the descriptor `fd` readable, and nothing else,
provided it was asked about it; it then returns 1, else 0. -/
def select_only (fd : Int) : List Int → List Int → Option (Int × Int) → SelectResult :=
  fun readfds _ _ =>
    if fd ∈ readfds then
      { ready := 1, readfds := fun x => decide (x = fd), writefds := fun _ => false }
    else { ready := 0, readfds := fun _ => false, writefds := fun _ => false }

/-- Runs the calls in order, every `dthread_recv` being given the address of
one variable `source`, which holds `s` before the first call. Yields the final
world and, for each `dthread_recv`, the message it returned (`0` for `NULL`)
with the value of `*source` after the call. `none` when some `dthread_recv`
does not return. -/
def run_routed : World → Nat → List Op → Option (World × List (Nat × Nat))
  | w, _, [] => some (w, [])
  | w, s, Op.send source mp ok :: ops => run_routed (dthread_send w source mp ok).1 s ops
  | w, s, Op.recv ok :: ops =>
    match dthread_recv w (some s) ok with
    | none => none
    | some (w1, mp, s1) =>
      (run_routed w1 (s1.getD s) ops).map fun r => (r.1, (mp, s1.getD s) :: r.2)

/-- The messages passed to `dthread_send`, each with the `source` argument of
that call, in call order. -/
def routes : List Op → List (Nat × Nat)
  | [] => []
  | Op.send source mp _ :: ops => (mp, source) :: routes ops
  | Op.recv _ :: ops => routes ops

/-- The arguments of one `dthread_control` call with the outcomes of the
`driver_alloc` and of the `write` it may make. -/
structure ControlCall where
  a : Option Nat
  cmd : Int
  buf : BufPtr
  bytes : List Nat
  len : Nat
  ok : Bool

/-- Successive `dthread_control` calls of one source channel on one target;
yields the world, the source record and the result of each call. -/
def control_run (R : Nat) : World → Nat → dthread_t → List ControlCall →
    World × dthread_t × List Int
  | w, _, src, [] => (w, src, [])
  | w, source, src, c :: cs =>
    let r1 := dthread_control R w source src c.a c.cmd c.buf c.bytes c.len c.ok
    let r2 := control_run R r1.1 source r1.2.1 cs
    (r2.1, r2.2.1, r1.2.2 :: r2.2.2)

/-! ## Links (dterm.c 109-124, 167-178) -/

/-- Embeds `memcpy(dst, src, size)` for a pointer `dst` to the data area of a
link block: the block whose data area starts at `dst` gets the bytes.
`LINK_DATA` is the offset of `data` in `dterm_link_t` (declared in
`include/dterm.h`). -/
def link_write (LINK_DATA : Nat) (links : List dterm_link_t) (dst : Nat) (src : List Nat)
    (size : Nat) : List dterm_link_t :=
  links.map fun l =>
    if l.addr + LINK_DATA = dst then { l with data := memcpy_inl l.data 0 src size } else l

/-- Embeds `dterm_link_alloc_data(p, size)`. `a` is the outcome of
`driver_alloc`: `none` for `NULL`, else the address of the block and the
indeterminate content of its data area. Returns the state and the pointer
`&lp->data[0]`; `none` when the call writes through a `NULL` pointer. -/
def dterm_link_alloc_data (LINK_DATA : Nat) (t : TermState) (size : Nat)
    (a : Option (Nat × List Nat)) : Option (TermState × Nat) :=
  match a with
  | none => none
  | some (lp, junk) =>
    let link : dterm_link_t := { addr := lp, data := (List.range size).map fun i => junk.getD i 0 }
    some ({ t with p := { t.p with head := link :: t.p.head } }, lp + LINK_DATA)

/-- Embeds `dterm_link_copy_data(p, src, size)`; `src` is the memory found at
the pointer `src`. -/
def dterm_link_copy_data (LINK_DATA : Nat) (t : TermState) (src : List Nat) (size : Nat)
    (a : Option (Nat × List Nat)) : Option (TermState × Nat) :=
  match dterm_link_alloc_data LINK_DATA t size a with
  | none => none
  | some (t, dst) =>
    some ({ t with p := { t.p with head := link_write LINK_DATA t.p.head dst src size } }, dst)

/-- A source channel whose caller is 55 and whose last reference is 7. -/
def source_seven : dthread_t := { dthread_zero with caller := 55, ref := 7 }

/-- Three `dthread_control` calls: the first and the third get the message
blocks 1 and 2, the allocation of the second fails. -/
def three_controls : List ControlCall :=
  [{ a := some 1, cmd := 5, buf := BufPtr.ext 1000, bytes := [1, 2], len := 2, ok := true },
   { a := none, cmd := 5, buf := BufPtr.ext 1000, bytes := [1, 2], len := 2, ok := true },
   { a := some 2, cmd := 6, buf := BufPtr.null, bytes := [], len := 0, ok := true }]

theorem chain_ne_zero (mem : Nat → dmessage_t) :
    ∀ (q : List Nat) (p : Nat), chain mem p q → ∀ x ∈ q, x ≠ 0 := by
  intro q
  induction q with
  | nil => intro p _ x hx; simp at hx
  | cons a l ih =>
    intro p h x hx
    obtain ⟨_, ha, hl⟩ := h
    rcases List.mem_cons.mp hx with rfl | hx
    · exact ha
    · exact ih _ hl x hx

theorem chain_congr (mem mem1 : Nat → dmessage_t) :
    ∀ (q : List Nat) (p : Nat), chain mem p q →
      (∀ x ∈ q, (mem1 x).next = (mem x).next) → chain mem1 p q := by
  intro q
  induction q with
  | nil => intro p h _; exact h
  | cons a l ih =>
    intro p h hx
    obtain ⟨hp, ha, hl⟩ := h
    refine ⟨hp, ha, ?_⟩
    rw [hx a (List.mem_cons_self a l)]
    exact ih _ hl fun x hxl => hx x (List.mem_cons_of_mem a hxl)

theorem getLastD_cons_cons (a b : Nat) (l : List Nat) (d : Nat) :
    (a :: b :: l).getLastD d = (b :: l).getLastD d := by
  simp [List.getLastD]

theorem getLastD_mem (l : List Nat) (hl : l ≠ []) (d : Nat) : l.getLastD d ∈ l := by
  cases l with
  | nil => exact absurd rfl hl
  | cons a t =>
    rw [List.getLastD_cons]
    induction t generalizing a with
    | nil => simp
    | cons b t ih =>
      rw [List.getLastD_cons]
      exact List.mem_cons_of_mem a (ih b (by simp))

theorem getLastD_append_singleton (l : List Nat) (x d : Nat) :
    (l ++ [x]).getLastD d = x := by
  induction l generalizing d with
  | nil => simp
  | cons a t ih =>
    rw [List.cons_append, List.getLastD_cons]
    exact ih a

theorem chain_snoc (mem mem1 : Nat → dmessage_t) (mp : Nat) (hmp : mp ≠ 0)
    (h3 : (mem1 mp).next = 0) :
    ∀ (q : List Nat) (p : Nat), chain mem p q → q ≠ [] → q.Nodup →
      (∀ x ∈ q, x ≠ q.getLastD 0 → (mem1 x).next = (mem x).next) →
      (mem1 (q.getLastD 0)).next = mp → chain mem1 p (q ++ [mp]) := by
  intro q
  induction q with
  | nil => intro p _ hne; exact absurd rfl hne
  | cons a l ih =>
    intro p h _ hnd h1 h2
    obtain ⟨hp, ha, hl⟩ := h
    cases l with
    | nil =>
      simp only [List.getLastD_cons, List.getLastD_nil] at h2
      exact ⟨hp, ha, h2.symm ▸ ⟨rfl, hmp, h3⟩⟩
    | cons b t =>
      have hnd1 : (b :: t).Nodup := (List.nodup_cons.mp hnd).2
      have hab : a ∉ b :: t := (List.nodup_cons.mp hnd).1
      have hlast : (a :: b :: t).getLastD 0 = (b :: t).getLastD 0 := getLastD_cons_cons a b t 0
      have hmem : (b :: t).getLastD 0 ∈ b :: t := getLastD_mem (b :: t) (by simp) 0
      have hane : a ≠ (a :: b :: t).getLastD 0 := by
        rw [hlast]; intro h; exact hab (h ▸ hmem)
      refine ⟨hp, ha, ?_⟩
      rw [h1 a (List.mem_cons_self a _) hane]
      refine ih _ hl (by simp) hnd1 ?_ ?_
      · intro x hx hxl
        exact h1 x (List.mem_cons_of_mem a hx) (by rw [hlast]; exact hxl)
      · rw [← hlast]; exact h2

theorem Queue_rear_eq_zero (w : World) (q : List Nat) (h : Queue w q) :
    w.thr.iq_rear = 0 ↔ q = [] := by
  obtain ⟨hc, _, _, hr⟩ := h
  constructor
  · intro h0
    by_contra hne
    have hm := getLastD_mem q hne 0
    rw [← hr, h0] at hm
    exact chain_ne_zero w.mem q _ hc 0 hm rfl
  · intro hq; rw [hr, hq]; rfl

theorem Queue_front (w : World) (q : List Nat) (h : Queue w q) :
    w.thr.iq_front = q.headD 0 := by
  obtain ⟨hc, _, _, _⟩ := h
  cases q with
  | nil => exact hc
  | cons a l => exact hc.1

/-! ## What one call does, field by field -/

theorem send_front (w : World) (source mp : Nat) (ok : Bool) :
    (dthread_send w source mp ok).1.thr.iq_front =
      if w.thr.iq_rear ≠ 0 then w.thr.iq_front else mp := by
  by_cases h1 : w.thr.iq_rear = 0 <;> by_cases h2 : w.thr.iq_len = 0 <;> cases ok <;>
    simp [dthread_send, dthread_signal_set, h1, h2]

theorem send_rear (w : World) (source mp : Nat) (ok : Bool) :
    (dthread_send w source mp ok).1.thr.iq_rear = mp := by
  by_cases h1 : w.thr.iq_rear = 0 <;> by_cases h2 : w.thr.iq_len = 0 <;> cases ok <;>
    simp [dthread_send, dthread_signal_set, h1, h2]

theorem send_len (w : World) (source mp : Nat) (ok : Bool) :
    (dthread_send w source mp ok).1.thr.iq_len = w.thr.iq_len + 1 := by
  by_cases h1 : w.thr.iq_rear = 0 <;> by_cases h2 : w.thr.iq_len = 0 <;> cases ok <;>
    simp [dthread_send, dthread_signal_set, h1, h2]

theorem send_mem (w : World) (source mp : Nat) (ok : Bool) :
    (dthread_send w source mp ok).1.mem =
      let mem1 := Function.update w.mem mp { w.mem mp with next := 0, source := source }
      if w.thr.iq_rear ≠ 0 then
        Function.update mem1 w.thr.iq_rear { mem1 w.thr.iq_rear with next := mp }
      else mem1 := by
  by_cases h1 : w.thr.iq_rear = 0 <;> by_cases h2 : w.thr.iq_len = 0 <;> cases ok <;>
    simp [dthread_send, dthread_signal_set, h1, h2]

theorem send_pipe (w : World) (source mp : Nat) (ok : Bool) :
    (dthread_send w source mp ok).1.pipe =
      if w.thr.iq_len = 0 ∧ ok = true then w.pipe + 1 else w.pipe := by
  by_cases h1 : w.thr.iq_rear = 0 <;> by_cases h2 : w.thr.iq_len = 0 <;> cases ok <;>
    simp [dthread_send, dthread_signal_set, h1, h2]

theorem send_ret (w : World) (source mp : Nat) (ok : Bool) :
    (dthread_send w source mp ok).2 =
      if w.thr.iq_len = 0 then (dthread_signal_set w ok).2 else 0 := by
  by_cases h1 : w.thr.iq_rear = 0 <;> by_cases h2 : w.thr.iq_len = 0 <;> cases ok <;>
    simp [dthread_send, dthread_signal_set, h1, h2]

theorem recv_empty (w : World) (source : Option Nat) (ok : Bool)
    (h : w.thr.iq_front = 0) : dthread_recv w source ok = some (w, 0, source) := by
  simp [dthread_recv, h]

theorem recv_none_iff (w : World) (source : Option Nat) (ok : Bool) :
    dthread_recv w source ok = none ↔
      w.thr.iq_front ≠ 0 ∧ w.thr.iq_len = 1 ∧ ok = true ∧ w.pipe = 0 := by
  by_cases h1 : w.thr.iq_front = 0
  · simp [dthread_recv, h1]
  · by_cases h2 : w.thr.iq_len - 1 = 0
    · have h3 : w.thr.iq_len = 1 := by omega
      by_cases h4 : w.pipe = 0 <;> cases ok <;> cases source <;>
        by_cases h5 : (w.mem w.thr.iq_front).next = 0 <;>
        simp [dthread_recv, dthread_signal_reset, h1, h3, h4, h5]
    · have h3 : ¬ w.thr.iq_len = 1 := by omega
      cases source <;> by_cases h5 : (w.mem w.thr.iq_front).next = 0 <;>
        simp [dthread_recv, dthread_signal_reset, h1, h2, h3, h5]

theorem recv_some (w w1 : World) (source s1 : Option Nat) (ok : Bool) (r : Nat)
    (h : dthread_recv w source ok = some (w1, r, s1)) (h1 : w.thr.iq_front ≠ 0) :
    r = w.thr.iq_front ∧ w1.mem = w.mem ∧ w1.calls = w.calls ∧
      w1.thr.iq_front = (w.mem r).next ∧
      w1.thr.iq_rear = (if (w.mem r).next = 0 then 0 else w.thr.iq_rear) ∧
      w1.thr.iq_len = w.thr.iq_len - 1 ∧
      w1.pipe = (if w.thr.iq_len = 1 ∧ ok = true then w.pipe - 1 else w.pipe) ∧
      s1 = source.map fun _ => (w.mem r).source := by
  by_cases h2 : w.thr.iq_len - 1 = 0
  · have h3 : w.thr.iq_len = 1 := by omega
    by_cases h4 : w.pipe = 0 <;> cases ok <;> cases source <;>
      by_cases h5 : (w.mem w.thr.iq_front).next = 0 <;>
      simp [dthread_recv, dthread_signal_reset, h1, h3, h4, h5] at h <;>
      obtain ⟨rfl, rfl, rfl⟩ := h <;> simp [h3, h4, h5]
  · have h3 : ¬ w.thr.iq_len = 1 := by omega
    cases source <;> by_cases h5 : (w.mem w.thr.iq_front).next = 0 <;>
      simp [dthread_recv, dthread_signal_reset, h1, h2, h3, h5] at h <;>
      obtain ⟨rfl, rfl, rfl⟩ := h <;> simp [h3, h5]

/-! ## The queue after one call -/

theorem send_Queue (w : World) (q : List Nat) (source mp : Nat) (ok : Bool)
    (h : Queue w q) (hmp : mp ≠ 0) (hq : mp ∉ q) :
    Queue (dthread_send w source mp ok).1 (q ++ [mp]) := by
  have hrear := Queue_rear_eq_zero w q h
  obtain ⟨hc, hnd, hlen, hr⟩ := h
  refine ⟨?_, ?_, ?_, ?_⟩
  · rw [send_front, send_mem]
    by_cases hq0 : q = []
    · subst hq0
      have hr0 : w.thr.iq_rear = 0 := hrear.mpr rfl
      simp only [hr0, ne_eq, not_true_eq_false, if_false, List.nil_append]
      exact ⟨rfl, hmp, by simp [chain]⟩
    · have hr0 : w.thr.iq_rear ≠ 0 := fun h0 => hq0 (hrear.mp h0)
      have hmem : w.thr.iq_rear ∈ q := by rw [hr]; exact getLastD_mem q hq0 0
      have hne : mp ≠ w.thr.iq_rear := fun h0 => hq (h0 ▸ hmem)
      simp only [hr0, ne_eq, not_false_eq_true, if_true]
      refine chain_snoc w.mem _ mp hmp ?_ q _ hc hq0 hnd ?_ ?_
      · simp [Function.update_noteq hne]
      · intro x hx hxl
        have hx1 : x ≠ w.thr.iq_rear := by rw [hr]; exact hxl
        have hx2 : x ≠ mp := fun h0 => hq (h0 ▸ hx)
        simp [Function.update_noteq hx1, Function.update_noteq hx2]
      · rw [← hr]; simp
  · exact List.nodup_append.mpr ⟨hnd, List.nodup_singleton mp, by
      intro x hx hx1
      rw [List.mem_singleton] at hx1
      exact hq (hx1 ▸ hx)⟩
  · rw [send_len, hlen]; simp
  · rw [send_rear, getLastD_append_singleton]

theorem recv_Queue (w w1 : World) (a : Nat) (q : List Nat) (source s1 : Option Nat)
    (ok : Bool) (r : Nat) (h : Queue w (a :: q))
    (hr : dthread_recv w source ok = some (w1, r, s1)) :
    r = a ∧ Queue w1 q ∧ w1.mem = w.mem := by
  obtain ⟨hc, hnd, hlen, hrear⟩ := h
  obtain ⟨hp, ha, hl⟩ := hc
  have hf : w.thr.iq_front ≠ 0 := hp ▸ ha
  obtain ⟨e1, e2, _, e4, e5, e6, _, _⟩ := recv_some w w1 source s1 ok r hr hf
  have hra : r = a := e1.trans hp
  subst hra
  refine ⟨rfl, ⟨?_, (List.nodup_cons.mp hnd).2, ?_, ?_⟩, e2⟩
  · rw [e2, e4]; exact hl
  · rw [e6, hlen]; simp
  · rw [e5]
    cases q with
    | nil => simp [chain] at hl; simp [hl]
    | cons b t =>
      obtain ⟨hb, hb0, _⟩ := hl
      rw [hb, if_neg hb0, hrear, getLastD_cons_cons]

theorem Queue_empty (w : World) (h : EmptyQueue w) : Queue w [] := by
  obtain ⟨h1, h2, h3⟩ := h
  exact ⟨h1, List.nodup_nil, by simp [h3], by simp [h2]⟩

/-- Strong form of the queue discipline: what was received so far, followed by
what is still queued, is what was queued at the start followed by what was
sent. -/
theorem run_Queue : ∀ (ops : List Op) (w : World) (q : List Nat), Queue w q → Owned q ops →
    ∀ (w1 : World) (rs : List Nat), run w ops = some (w1, rs) →
      ∃ q1, Queue w1 q1 ∧ received rs ++ q1 = q ++ sent ops := by
  intro ops
  induction ops with
  | nil =>
    intro w q hq _ w1 rs hrun
    simp only [run, Option.some.injEq, Prod.mk.injEq] at hrun
    obtain ⟨rfl, rfl⟩ := hrun
    exact ⟨q, hq, by simp [received, sent]⟩
  | cons op ops ih =>
    intro w q hq ho w1 rs hrun
    cases op with
    | send source mp ok =>
      obtain ⟨hmp, hnq, ho1⟩ := ho
      obtain ⟨q1, hq1, he⟩ := ih _ _ (send_Queue w q source mp ok hq hmp hnq) ho1 w1 rs hrun
      exact ⟨q1, hq1, by rw [he]; simp [sent]⟩
    | recv ok =>
      simp only [run] at hrun
      cases hrecv : dthread_recv w none ok with
      | none => rw [hrecv] at hrun; simp at hrun
      | some res =>
        obtain ⟨w2, r, s2⟩ := res
        rw [hrecv] at hrun
        simp only [Option.map_eq_some'] at hrun
        obtain ⟨⟨w3, rs3⟩, hrun3, he⟩ := hrun
        simp only [Prod.mk.injEq] at he
        obtain ⟨rfl, rfl⟩ := he
        cases q with
        | nil =>
          have hf : w.thr.iq_front = 0 := hq.1
          rw [recv_empty w none ok hf] at hrecv
          simp only [Option.some.injEq, Prod.mk.injEq] at hrecv
          obtain ⟨rfl, rfl, _⟩ := hrecv
          obtain ⟨q1, hq1, he⟩ := ih _ _ hq ho w3 rs3 hrun3
          exact ⟨q1, hq1, by simpa [received, sent] using he⟩
        | cons a q =>
          obtain ⟨hra, hq2, _⟩ := recv_Queue w w2 a q none s2 ok r hq hrecv
          subst hra
          have hr0 : r ≠ 0 := hq.1.2.1
          obtain ⟨q1, hq1, he⟩ := ih _ _ hq2 ho w3 rs3 hrun3
          exact ⟨q1, hq1, by simp [received, sent, hr0] at he ⊢; exact he⟩

theorem Queue_len_one (w : World) (a : Nat) (q : List Nat) (h : Queue w (a :: q)) :
    w.thr.iq_len = 1 ↔ q = [] := by
  obtain ⟨_, _, hlen, _⟩ := h
  rw [hlen]
  cases q with
  | nil => simp
  | cons b t =>
    simp only [List.length_cons, Nat.cast_add, Nat.cast_one]
    constructor
    · intro h0; omega
    · intro h0; simp at h0

theorem Queue_len_zero (w : World) (q : List Nat) (h : Queue w q) :
    w.thr.iq_len = 0 ↔ q = [] := by
  obtain ⟨_, _, hlen, _⟩ := h
  rw [hlen]
  cases q with
  | nil => simp
  | cons b t =>
    simp only [List.length_cons, Nat.cast_add, Nat.cast_one]
    constructor
    · intro h0; omega
    · intro h0; simp at h0

/-- A `dthread_recv` returns whenever the signal holds a byte while the queue is
not empty; with successful raises that remains so. -/
theorem run_total : ∀ (ops : List Op) (w : World) (q : List Nat), Queue w q → Owned q ops →
    RaiseOk ops → (q ≠ [] → 0 < w.pipe) → ∃ w1 rs, run w ops = some (w1, rs) := by
  intro ops
  induction ops with
  | nil => intro w q _ _ _ _; exact ⟨w, [], rfl⟩
  | cons op ops ih =>
    intro w q hq ho hk hp
    cases op with
    | send source mp ok =>
      obtain ⟨hmp, hnq, ho1⟩ := ho
      obtain ⟨hok, hk1⟩ := hk
      refine ih _ _ (send_Queue w q source mp ok hq hmp hnq) ho1 hk1 ?_
      intro _
      rw [send_pipe]
      by_cases h0 : w.thr.iq_len = 0
      · simp [h0, hok]
      · simp only [h0, false_and, if_false]
        exact hp fun hq0 => h0 ((Queue_len_zero w q hq).mpr hq0)
    | recv ok =>
      cases q with
      | nil =>
        have hf : w.thr.iq_front = 0 := hq.1
        obtain ⟨w1, rs, h1⟩ := ih _ _ hq ho hk hp
        exact ⟨w1, 0 :: rs, by simp [run, recv_empty w none ok hf, h1]⟩
      | cons a q =>
        cases hrecv : dthread_recv w none ok with
        | none =>
          have h4 := ((recv_none_iff w none ok).mp hrecv).2.2.2
          have := hp (by simp)
          omega
        | some res =>
          obtain ⟨w2, r, s2⟩ := res
          obtain ⟨_, hq2, _⟩ := recv_Queue w w2 a q none s2 ok r hq hrecv
          have hf : w.thr.iq_front ≠ 0 := by
            have := hq.1.1; have := hq.1.2.1; omega
          have hpipe := (recv_some w w2 none s2 ok r hrecv hf).2.2.2.2.2.2.1
          have hp2 : q ≠ [] → 0 < w2.pipe := by
            intro hne
            have h1 : ¬ w.thr.iq_len = 1 := fun h1 => hne ((Queue_len_one w a q hq).mp h1)
            rw [hpipe]; simp only [h1, false_and, if_false]
            exact hp (by simp)
          obtain ⟨w3, rs, h3⟩ := ih _ _ hq2 ho hk hp2
          exact ⟨w3, r :: rs, by simp [run, hrecv, h3]⟩

/-- With every raise and drain successful the pipe holds one byte while the
queue is not empty and none while it is empty. -/
theorem run_signal : ∀ (ops : List Op) (w : World) (q : List Nat), Queue w q → Owned q ops →
    AllOk ops → (w.pipe = if q = [] then 0 else 1) →
    ∃ w1 rs q1, run w ops = some (w1, rs) ∧ Queue w1 q1 ∧
      w1.pipe = if q1 = [] then 0 else 1 := by
  intro ops
  induction ops with
  | nil => intro w q hq _ _ hp; exact ⟨w, [], q, rfl, hq, hp⟩
  | cons op ops ih =>
    intro w q hq ho hk hp
    cases op with
    | send source mp ok =>
      obtain ⟨hmp, hnq, ho1⟩ := ho
      obtain ⟨hok, hk1⟩ := hk
      refine ih _ _ (send_Queue w q source mp ok hq hmp hnq) ho1 hk1 ?_
      rw [send_pipe, hp]
      by_cases h0 : q = []
      · simp [h0, hok, (Queue_len_zero w q hq).mpr h0]
      · have h1 : ¬ w.thr.iq_len = 0 := fun h1 => h0 ((Queue_len_zero w q hq).mp h1)
        simp [h0, h1]
    | recv ok =>
      obtain ⟨hok, hk1⟩ := hk
      cases q with
      | nil =>
        have hf : w.thr.iq_front = 0 := hq.1
        obtain ⟨w1, rs, q1, h1, h2⟩ := ih _ _ hq ho hk1 hp
        exact ⟨w1, 0 :: rs, q1, by simp [run, recv_empty w none ok hf, h1], h2⟩
      | cons a q =>
        simp only [reduceCtorEq, if_false] at hp
        cases hrecv : dthread_recv w none ok with
        | none =>
          have h4 := ((recv_none_iff w none ok).mp hrecv).2.2.2
          omega
        | some res =>
          obtain ⟨w2, r, s2⟩ := res
          obtain ⟨_, hq2, _⟩ := recv_Queue w w2 a q none s2 ok r hq hrecv
          have hf : w.thr.iq_front ≠ 0 := by
            have := hq.1.1; have := hq.1.2.1; omega
          have hpipe := (recv_some w w2 none s2 ok r hrecv hf).2.2.2.2.2.2.1
          have hp2 : w2.pipe = if q = [] then 0 else 1 := by
            rw [hpipe, hp]
            by_cases hne : q = []
            · simp [hne, hok, (Queue_len_one w a q hq).mpr hne]
            · have h1 : ¬ w.thr.iq_len = 1 := fun h1 => hne ((Queue_len_one w a q hq).mp h1)
              simp [hne, h1]
          obtain ⟨w3, rs, q1, h3, h4⟩ := ih _ _ hq2 ho hk1 hp2
          exact ⟨w3, r :: rs, q1, by simp [run, hrecv, h3], h4⟩

theorem run_append : ∀ (ops1 ops2 : List Op) (w : World),
    run w (ops1 ++ ops2) =
      (run w ops1).bind fun r1 => (run r1.1 ops2).map fun r2 => (r2.1, r1.2 ++ r2.2) := by
  intro ops1
  induction ops1 with
  | nil => intro ops2 w; cases h : run w ops2 <;> simp [run, h]
  | cons op ops1 ih =>
    intro ops2 w
    cases op with
    | send source mp ok => simp only [List.cons_append, run]; exact ih ops2 _
    | recv ok =>
      simp only [List.cons_append, run]
      cases hrecv : dthread_recv w none ok with
      | none => simp
      | some res =>
        obtain ⟨w2, r, s2⟩ := res
        have e := ih ops2 w2
        cases h1 : run w2 ops1 with
        | none => rw [h1] at e; simp [e, h1]
        | some r1 =>
          rw [h1] at e
          cases h2 : run r1.1 ops2 <;> simp [h2] at e <;> simp [e, h1, h2]

/-- A run of `dthread_send` calls whose raises succeed. -/
theorem run_sends : ∀ (ms : List (Nat × Nat)) (w : World) (q : List Nat), Queue w q →
    Owned q (ms.map fun m => Op.send m.1 m.2 true) → (q ≠ [] → 0 < w.pipe) →
    ∃ w1, run w (ms.map fun m => Op.send m.1 m.2 true) = some (w1, []) ∧
      Queue w1 (q ++ ms.map Prod.snd) ∧ (q ++ ms.map Prod.snd ≠ [] → 0 < w1.pipe) := by
  intro ms
  induction ms with
  | nil => intro w q hq _ hp; exact ⟨w, rfl, by simpa using hq, by simpa using hp⟩
  | cons m ms ih =>
    intro w q hq ho hp
    obtain ⟨hmp, hnq, ho1⟩ := ho
    have hp1 : q ++ [m.2] ≠ [] → 0 < (dthread_send w m.1 m.2 true).1.pipe := by
      intro _
      rw [send_pipe]
      by_cases h0 : w.thr.iq_len = 0
      · simp [h0]
      · simp only [h0, false_and, if_false]
        exact hp fun hq0 => h0 ((Queue_len_zero w q hq).mpr hq0)
    obtain ⟨w1, h1, h2, h3⟩ := ih _ _ (send_Queue w q m.1 m.2 true hq hmp hnq) ho1 hp1
    exact ⟨w1, by simpa [run] using h1, by simpa using h2, by simpa using h3⟩

/-- As many `dthread_recv` calls as there are messages return them front first,
provided they return. -/
theorem run_recvs_partial : ∀ (q : List Nat) (w : World) (oks : List Bool), Queue w q →
    oks.length = q.length → ∀ w1 rs, run w (oks.map Op.recv) = some (w1, rs) →
      rs = q ∧ Queue w1 [] ∧ w1.mem = w.mem := by
  intro q
  induction q with
  | nil =>
    intro w oks hq hlen w1 rs hrun
    have : oks = [] := List.length_eq_zero.mp hlen
    subst this
    simp only [List.map_nil, run, Option.some.injEq, Prod.mk.injEq] at hrun
    obtain ⟨rfl, rfl⟩ := hrun
    exact ⟨rfl, hq, rfl⟩
  | cons a q ih =>
    intro w oks hq hlen w1 rs hrun
    cases oks with
    | nil => simp at hlen
    | cons ok oks =>
      simp only [List.map_cons, run] at hrun
      cases hrecv : dthread_recv w none ok with
      | none => rw [hrecv] at hrun; simp at hrun
      | some res =>
        obtain ⟨w2, r, s2⟩ := res
        rw [hrecv] at hrun
        simp only [Option.map_eq_some'] at hrun
        obtain ⟨⟨w3, rs3⟩, hrun3, he⟩ := hrun
        simp only [Prod.mk.injEq] at he
        obtain ⟨rfl, rfl⟩ := he
        obtain ⟨hra, hq2, hm⟩ := recv_Queue w w2 a q none s2 ok r hq hrecv
        obtain ⟨e1, e2, e3⟩ := ih w2 oks hq2 (by simpa using hlen) w3 rs3 hrun3
        exact ⟨by rw [hra, e1], e2, e3.trans hm⟩

/-- As many `dthread_recv` calls as there are messages do return when the
signal holds a byte. -/
theorem run_recvs_total : ∀ (q : List Nat) (w : World) (oks : List Bool), Queue w q →
    oks.length = q.length → (q ≠ [] → 0 < w.pipe) →
    ∃ w1 rs, run w (oks.map Op.recv) = some (w1, rs) := by
  intro q
  induction q with
  | nil =>
    intro w oks _ hlen _
    have : oks = [] := List.length_eq_zero.mp hlen
    subst this
    exact ⟨w, [], rfl⟩
  | cons a q ih =>
    intro w oks hq hlen hp
    cases oks with
    | nil => simp at hlen
    | cons ok oks =>
      cases hrecv : dthread_recv w none ok with
      | none =>
        have h4 := ((recv_none_iff w none ok).mp hrecv).2.2.2
        have := hp (by simp)
        omega
      | some res =>
        obtain ⟨w2, r, s2⟩ := res
        obtain ⟨_, hq2, _⟩ := recv_Queue w w2 a q none s2 ok r hq hrecv
        have hf : w.thr.iq_front ≠ 0 := by
          have := hq.1.1; have := hq.1.2.1; omega
        have hpipe := (recv_some w w2 none s2 ok r hrecv hf).2.2.2.2.2.2.1
        have hp2 : q ≠ [] → 0 < w2.pipe := by
          intro hne
          have h1 : ¬ w.thr.iq_len = 1 := fun h1 => hne ((Queue_len_one w a q hq).mp h1)
          rw [hpipe]; simp only [h1, false_and, if_false]
          exact hp (by simp)
        obtain ⟨w3, rs, h3⟩ := ih w2 oks hq2 (by simpa using hlen) hp2
        exact ⟨w3, r :: rs, by simp [run, hrecv, h3]⟩

/-! ## Properties of the channel queue -/

theorem chain_last_next (mem : Nat → dmessage_t) :
    ∀ (q : List Nat) (p : Nat), chain mem p q → q ≠ [] → (mem (q.getLastD 0)).next = 0 := by
  intro q
  induction q with
  | nil => intro p _ h; exact absurd rfl h
  | cons a l ih =>
    intro p h _
    obtain ⟨_, _, hl⟩ := h
    cases l with
    | nil => simpa [chain] using hl
    | cons b t => rw [getLastD_cons_cons]; exact ih _ hl (by simp)

theorem init_success (cfg : Config) (host : Host) (w : World) (port mtx : Nat) (fd0 fd1 : Int)
    (hm : mtx ≠ 0) :
    ∃ w0, dthread_init cfg host w port mtx (some (fd0, fd1)) = some (w0, 0) ∧
      EmptyQueue w0 ∧ w0.pipe = 0 := by
  refine ⟨_, by simp only [dthread_init, hm, if_false]; rfl, ?_, ?_⟩
  · exact ⟨rfl, rfl, rfl⟩
  · rfl

theorem Queue_structure (w : World) (q : List Nat) (h : Queue w q) :
    (w.thr.iq_rear ≠ 0 → (w.mem w.thr.iq_rear).next = 0) ∧
      (w.thr.iq_len = 0 ↔ w.thr.iq_front = 0 ∧ w.thr.iq_rear = 0) := by
  have hz := Queue_len_zero w q h
  have hr := Queue_rear_eq_zero w q h
  have hf := Queue_front w q h
  constructor
  · intro h0
    have hne : q ≠ [] := fun hq => h0 (hr.mpr hq)
    rw [h.2.2.2]
    exact chain_last_next w.mem q _ h.1 hne
  · constructor
    · intro h0
      have hq := hz.mp h0
      exact ⟨by rw [hf, hq]; rfl, hr.mpr hq⟩
    · intro h0
      exact hz.mpr (hr.mp h0.2)

/-- C1. FIFO order of the channel queue. For a channel whose queue is empty and
any interleaving `ops` of `dthread_send` and `dthread_recv` calls in which a
message is handed to `dthread_send` only while it is not queued: (1) the
messages returned by the `dthread_recv` calls are, in order, the first ones
passed to `dthread_send`, so the k-th returned message is the k-th sent one;
(2) every call returns when the raises succeed; (3) when `ops` are N sends,
N receives after them return the N messages in send order and one further
`dthread_recv` returns `NULL`. -/
theorem dthread_fifo_order (w : World) (ops : List Op) (hE : EmptyQueue w)
    (hO : Owned [] ops) :
    (∀ w1 rs, run w ops = some (w1, rs) →
        received rs = (sent ops).take (received rs).length) ∧
    (RaiseOk ops → ∃ w1 rs, run w ops = some (w1, rs)) ∧
    (∀ (ms : List (Nat × Nat)) (oks : List Bool) (ok : Bool),
        ops = ms.map (fun m => Op.send m.1 m.2 true) → oks.length = ms.length →
        ∃ w1, run w (ops ++ oks.map Op.recv ++ [Op.recv ok]) =
          some (w1, ms.map Prod.snd ++ [0])) := by
  have hq := Queue_empty w hE
  refine ⟨?_, ?_, ?_⟩
  · intro w1 rs hrun
    obtain ⟨q1, _, he⟩ := run_Queue ops w [] hq hO w1 rs hrun
    rw [List.nil_append] at he
    rw [← he, List.take_left]
  · intro hk
    exact run_total ops w [] hq hO hk (fun h => absurd rfl h)
  · intro ms oks ok hops hlen
    subst hops
    obtain ⟨w1, h1, hq1, hp1⟩ := run_sends ms w [] hq hO (fun h => absurd rfl h)
    rw [List.nil_append] at hq1 hp1
    have hl : oks.length = (ms.map Prod.snd).length := by simpa using hlen
    obtain ⟨w2, rs, h2⟩ := run_recvs_total _ w1 oks hq1 hl hp1
    obtain ⟨hrs, hq2, _⟩ := run_recvs_partial _ w1 oks hq1 hl w2 rs h2
    subst hrs
    have h3 : run w2 [Op.recv ok] = some (w2, [0]) := by
      simp [run, recv_empty w2 none ok hq2.1]
    refine ⟨w2, ?_⟩
    rw [List.append_assoc, run_append, h1]
    simp only [Option.some_bind, List.nil_append]
    rw [run_append, h2]
    simp [h3]

/-- Example for C1: two sends, then three receives. -/
theorem dthread_fifo_order_witness :
    EmptyQueue world_empty ∧
    Owned [] [Op.send 9 1 true, Op.send 9 2 true] ∧
    (run world_empty [Op.send 9 1 true, Op.send 9 2 true, Op.recv true, Op.recv true,
        Op.recv true]).map Prod.snd = some [1, 2, 0] := by
  have hE : EmptyQueue world_empty := ⟨rfl, rfl, rfl⟩
  have hO : Owned [] [Op.send 9 1 true, Op.send 9 2 true] := by simp [Owned]
  refine ⟨hE, hO, ?_⟩
  obtain ⟨w1, h⟩ := (dthread_fifo_order world_empty _ hE hO).2.2 [(9, 1), (9, 2)]
    [true, true] true rfl rfl
  simp only [List.map_cons, List.map_nil, List.cons_append, List.nil_append] at h
  rw [h]; rfl

/-- C2. Queue structure invariant. After a successful `dthread_init` and any
sequence of `dthread_send` and `dthread_recv` calls (a message is handed to
`dthread_send` only while it is not queued), `iq_len` is the number of
messages linked from `iq_front` by `next`, `iq_rear` is the last of them and
its `next` is `NULL`, and `iq_front` and `iq_rear` are both `NULL` exactly when
`iq_len` is 0. -/
theorem queue_structure_invariant (cfg : Config) (host : Host) (w : World) (port mtx : Nat)
    (fd0 fd1 : Int) (ops : List Op) (hm : mtx ≠ 0) (hO : Owned [] ops) :
    ∃ w0, dthread_init cfg host w port mtx (some (fd0, fd1)) = some (w0, 0) ∧
      ∀ w1 rs, run w0 ops = some (w1, rs) →
        ∃ l, chain w1.mem w1.thr.iq_front l ∧ w1.thr.iq_len = (l.length : Int) ∧
          w1.thr.iq_rear = l.getLastD 0 ∧
          (w1.thr.iq_rear ≠ 0 → (w1.mem w1.thr.iq_rear).next = 0) ∧
          (w1.thr.iq_len = 0 ↔ w1.thr.iq_front = 0 ∧ w1.thr.iq_rear = 0) := by
  obtain ⟨w0, h0, hE, _⟩ := init_success cfg host w port mtx fd0 fd1 hm
  refine ⟨w0, h0, ?_⟩
  intro w1 rs hrun
  obtain ⟨q1, hq1, _⟩ := run_Queue ops w0 [] (Queue_empty w0 hE) hO w1 rs hrun
  obtain ⟨h1, h2⟩ := Queue_structure w1 q1 hq1
  exact ⟨q1, hq1.1, hq1.2.2.1, hq1.2.2.2, h1, h2⟩

/-- Example for C2: initialise, send two messages, receive one. -/
theorem queue_structure_invariant_witness :
    (1 : Nat) ≠ 0 ∧ Owned [] [Op.send 9 1 true, Op.send 9 2 true, Op.recv true] ∧
    ∃ w0, dthread_init cfg0 host0 world_empty 7 1 (some (3, 4)) = some (w0, 0) ∧
      ∀ w1 rs, run w0 [Op.send 9 1 true, Op.send 9 2 true, Op.recv true] = some (w1, rs) →
        ∃ l, chain w1.mem w1.thr.iq_front l ∧ w1.thr.iq_len = (l.length : Int) ∧
          w1.thr.iq_rear = l.getLastD 0 ∧
          (w1.thr.iq_rear ≠ 0 → (w1.mem w1.thr.iq_rear).next = 0) ∧
          (w1.thr.iq_len = 0 ↔ w1.thr.iq_front = 0 ∧ w1.thr.iq_rear = 0) :=
  ⟨by decide, by simp [Owned],
    queue_structure_invariant cfg0 host0 world_empty 7 1 3 4 _ (by decide) (by simp [Owned])⟩

/-- C3. Signal and queue coupling. With the signal counted as the bytes in the
pipe and every raise and drain successful, after a successful `dthread_init`
and any sequence `ops` of `dthread_send` and `dthread_recv` calls the pipe
holds exactly one byte when `iq_len > 0` and none when `iq_len = 0` (so it is
empty after the receive that empties the queue, however many sends came
before); in any world `dthread_send` adds a byte only when `iq_len` was 0 and
`dthread_recv` takes one only when it removes the last message. -/
theorem signal_queue_coupling (cfg : Config) (host : Host) (w : World) (port mtx : Nat)
    (fd0 fd1 : Int) (ops : List Op) (hm : mtx ≠ 0) (hO : Owned [] ops) (hk : AllOk ops) :
    ∃ w0, dthread_init cfg host w port mtx (some (fd0, fd1)) = some (w0, 0) ∧
      (∃ w1 rs, run w0 ops = some (w1, rs) ∧
        w1.pipe = if 0 < w1.thr.iq_len then 1 else 0) ∧
      (∀ (v : World) (source mp : Nat) (ok : Bool),
        (dthread_send v source mp ok).1.pipe =
          if v.thr.iq_len = 0 ∧ ok = true then v.pipe + 1 else v.pipe) ∧
      (∀ (v v1 : World) (source s1 : Option Nat) (ok : Bool) (r : Nat),
        dthread_recv v source ok = some (v1, r, s1) →
          v1.pipe = if v.thr.iq_front ≠ 0 ∧ v.thr.iq_len = 1 ∧ ok = true
            then v.pipe - 1 else v.pipe) := by
  obtain ⟨w0, h0, hE, hp⟩ := init_success cfg host w port mtx fd0 fd1 hm
  refine ⟨w0, h0, ?_, ?_, ?_⟩
  · obtain ⟨w1, rs, q1, h1, hq1, hp1⟩ :=
      run_signal ops w0 [] (Queue_empty w0 hE) hO hk (by simpa using hp)
    refine ⟨w1, rs, h1, ?_⟩
    rw [hp1]
    have hz := Queue_len_zero w1 q1 hq1
    have hlen := hq1.2.2.1
    by_cases hq : q1 = []
    · simp [hq, hz.mpr hq]
    · have : w1.thr.iq_len ≠ 0 := fun h => hq (hz.mp h)
      have : 0 < w1.thr.iq_len := by omega
      simp [hq, this]
  · intro v source mp ok
    exact send_pipe v source mp ok
  · intro v v1 source s1 ok r h
    by_cases hf : v.thr.iq_front = 0
    · rw [recv_empty v source ok hf] at h
      simp only [Option.some.injEq, Prod.mk.injEq] at h
      obtain ⟨rfl, _, _⟩ := h
      simp [hf]
    · rw [(recv_some v v1 source s1 ok r h hf).2.2.2.2.2.2.1]
      simp [hf]

/-- Example for C3: initialise, send two messages, receive both. -/
theorem signal_queue_coupling_witness :
    (1 : Nat) ≠ 0 ∧
    Owned [] [Op.send 9 1 true, Op.send 9 2 true, Op.recv true, Op.recv true] ∧
    AllOk [Op.send 9 1 true, Op.send 9 2 true, Op.recv true, Op.recv true] ∧
    ∃ w0, dthread_init cfg0 host0 world_empty 7 1 (some (3, 4)) = some (w0, 0) ∧
      ∃ w1 rs, run w0 [Op.send 9 1 true, Op.send 9 2 true, Op.recv true, Op.recv true] =
          some (w1, rs) ∧
        w1.pipe = if 0 < w1.thr.iq_len then 1 else 0 := by
  refine ⟨by decide, by simp [Owned], by simp [AllOk], ?_⟩
  obtain ⟨w0, h0, h1, _⟩ := signal_queue_coupling cfg0 host0 world_empty 7 1 3 4
    [Op.send 9 1 true, Op.send 9 2 true, Op.recv true, Op.recv true]
    (by decide) (by simp [Owned]) (by simp [AllOk])
  exact ⟨w0, h0, h1⟩

/-- C4. `dthread_recv` on an empty queue is a no-op that returns at once: when
`iq_front` is `NULL` it returns `NULL` and the whole world (`iq_front`,
`iq_rear`, `iq_len`, the pipe) and the caller's `*source` are unchanged,
whatever a `read` of the pipe would have done. -/
theorem recv_empty_is_noop (w : World) (source : Option Nat) (ok : Bool)
    (h : w.thr.iq_front = 0) : dthread_recv w source ok = some (w, 0, source) :=
  recv_empty w source ok h

/-- Example for C4: a receive on the empty channel, `*source` holding 5. -/
theorem recv_empty_is_noop_witness :
    world_empty.thr.iq_front = 0 ∧
    dthread_recv world_empty (some 5) true = some (world_empty, 0, some 5) :=
  ⟨rfl, recv_empty_is_noop world_empty (some 5) true rfl⟩

/-- Counterexample for C5. A send to a channel that already holds a message
queues the message and returns 0, whether the `write` would succeed or not,
while `dthread_signal_set` gives 1 for a successful raise and -1 for a failed
one: the value returned is not a result of `dthread_signal_set` and does not
depend on the raise. -/
theorem send_return_counterexample :
    (dthread_send world_one 9 2 true).1.thr.iq_len = 2 ∧
    (dthread_send world_one 9 2 true).2 = 0 ∧
    (dthread_send world_one 9 2 false).2 = 0 ∧
    (dthread_signal_set world_one true).2 = 1 ∧
    (dthread_signal_set world_one false).2 = -1 ∧
    (dthread_send world_one 9 2 true).2 ≠ (dthread_signal_set world_one true).2 ∧
    (dthread_send world_one 9 2 false).2 ≠ (dthread_signal_set world_one false).2 := by
  refine ⟨?_, ?_, ?_, ?_, ?_, ?_, ?_⟩
  · rw [send_len]; rfl
  · rw [send_ret]; simp [world_one, dthread_zero]
  · rw [send_ret]; simp [world_one, dthread_zero]
  · simp [dthread_signal_set]
  · simp [dthread_signal_set]
  · rw [send_ret]; simp [world_one, dthread_zero, dthread_signal_set]
  · rw [send_ret]; simp [world_one, dthread_zero, dthread_signal_set]

/-- C5, amended. `dthread_send` always queues: the message is appended at the
rear and `iq_len` grows by one whether or not the raise succeeds. Only a send
to an empty queue raises, and it returns the result of `dthread_signal_set`
(1 when the byte was written, -1 when the write failed); a send to a
non-empty queue raises nothing and returns 0. So the value returned is
negative exactly when a raise was attempted and failed. -/
theorem send_queues_and_reports (w : World) (q : List Nat) (source mp : Nat) (ok : Bool)
    (hq : Queue w q) (hmp : mp ≠ 0) (hnq : mp ∉ q) :
    Queue (dthread_send w source mp ok).1 (q ++ [mp]) ∧
    (dthread_send w source mp ok).1.thr.iq_len = w.thr.iq_len + 1 ∧
    (q = [] → (dthread_send w source mp ok).2 = (dthread_signal_set w ok).2 ∧
        (dthread_send w source mp ok).2 = (if ok = true then 1 else -1)) ∧
    (q ≠ [] → (dthread_send w source mp ok).2 = 0 ∧
        (dthread_send w source mp ok).1.pipe = w.pipe) ∧
    ((dthread_send w source mp ok).2 < 0 ↔ q = [] ∧ ok = false) := by
  have hz := Queue_len_zero w q hq
  refine ⟨send_Queue w q source mp ok hq hmp hnq, send_len w source mp ok, ?_, ?_, ?_⟩
  · intro h0
    rw [send_ret, if_pos (hz.mpr h0)]
    cases ok <;> simp [dthread_signal_set]
  · intro h0
    have h1 : ¬ w.thr.iq_len = 0 := fun h => h0 (hz.mp h)
    rw [send_ret, send_pipe]
    simp [h1]
  · rw [send_ret]
    by_cases h0 : q = []
    · rw [if_pos (hz.mpr h0)]
      cases ok <;> simp [dthread_signal_set, h0]
    · have h1 : ¬ w.thr.iq_len = 0 := fun h => h0 (hz.mp h)
      simp [h1, h0]

/-- Example for C5: a send to the empty channel whose raise fails. -/
theorem send_queues_and_reports_witness :
    Queue world_empty [] ∧ (1 : Nat) ≠ 0 ∧ 1 ∉ ([] : List Nat) ∧
    Queue (dthread_send world_empty 9 1 false).1 [1] ∧
    (dthread_send world_empty 9 1 false).2 = -1 := by
  have hq : Queue world_empty [] := Queue_empty world_empty ⟨rfl, rfl, rfl⟩
  have h := send_queues_and_reports world_empty [] 9 1 false hq (by decide) (by simp)
  exact ⟨hq, by decide, by simp, h.1, by simpa using (h.2.2.1 rfl).2⟩

theorem dmessage_create_some (mem : Nat → dmessage_t) (mp : Nat) (cmd : Int) (buf : BufPtr)
    (bytes : List Nat) (len : Nat) (hmp : mp ≠ 0) :
    (dmessage_create mem (some mp) cmd buf bytes len).2 = mp ∧
    (∀ x, x ≠ mp → (dmessage_create mem (some mp) cmd buf bytes len).1 x = mem x) ∧
    ((dmessage_create mem (some mp) cmd buf bytes len).1 mp).cmd = cmd ∧
    ((dmessage_create mem (some mp) cmd buf bytes len).1 mp).used = len := by
  refine ⟨?_, ?_, ?_, ?_⟩
  · simp [dmessage_create, dmessage_create_r, dmessage_alloc, hmp]
  · intro x hx
    simp [dmessage_create, dmessage_create_r, dmessage_alloc, hmp, Function.update_noteq hx]
  · simp [dmessage_create, dmessage_create_r, dmessage_alloc, hmp]
  · simp [dmessage_create, dmessage_create_r, dmessage_alloc, hmp]

theorem send_mem_cmd (w : World) (source mp : Nat) (ok : Bool) (x : Nat) :
    ((dthread_send w source mp ok).1.mem x).cmd = (w.mem x).cmd ∧
    ((dthread_send w source mp ok).1.mem x).used = (w.mem x).used := by
  rw [send_mem]
  by_cases h1 : w.thr.iq_rear = 0
  · simp only [h1, ne_eq, not_true_eq_false, if_false]
    by_cases h2 : x = mp
    · subst h2; simp
    · simp [Function.update_noteq h2]
  · simp only [h1, ne_eq, not_false_eq_true, if_true]
    by_cases h3 : x = w.thr.iq_rear
    · rw [h3]
      simp only [Function.update_same]
      by_cases h2 : w.thr.iq_rear = mp
      · rw [h2]; simp
      · simp [Function.update_noteq h2]
    · rw [Function.update_noteq h3]
      by_cases h2 : x = mp
      · subst h2; simp
      · simp [Function.update_noteq h2]

/-- C6. Stop ordering. When the queue of the target holds the messages `q` and
the allocation of the STOP message succeeds (new block `mp`), the first part
of `dthread_stop` leaves the queue `q` followed by `mp`, where `mp` has
command `DTHREAD_STOP` and a payload of 0 bytes; the next `|q| + 1` calls of
`dthread_recv` return the messages of `q` in order and only then `mp`, still
carrying `DTHREAD_STOP`; and they do return when the signal is raised. -/
theorem stop_ordering (cfg : Config) (w : World) (q : List Nat) (source mp : Nat) (ok : Bool)
    (hq : Queue w q) (hmp : mp ≠ 0) (hnq : mp ∉ q) :
    ∃ w1, dthread_stop_enqueue cfg w source (some mp) ok = some w1 ∧
      Queue w1 (q ++ [mp]) ∧
      (w1.mem mp).cmd = cfg.DTHREAD_STOP ∧ (w1.mem mp).used = 0 ∧
      (∀ (oks : List Bool), oks.length = q.length + 1 →
        ∀ w2 rs, run w1 (oks.map Op.recv) = some (w2, rs) →
          rs = q ++ [mp] ∧ (w2.mem mp).cmd = cfg.DTHREAD_STOP ∧ (w2.mem mp).used = 0) ∧
      (ok = true → (q ≠ [] → 0 < w.pipe) →
        ∀ (oks : List Bool), oks.length = q.length + 1 →
          ∃ w2 rs, run w1 (oks.map Op.recv) = some (w2, rs)) := by
  obtain ⟨e1, e2, e3, e4⟩ := dmessage_create_some w.mem mp cfg.DTHREAD_STOP BufPtr.null [] 0 hmp
  have hq1 : Queue { w with mem := (dmessage_create w.mem (some mp) cfg.DTHREAD_STOP
      BufPtr.null [] 0).1 } q := by
    obtain ⟨hc, hnd, hlen, hr⟩ := hq
    refine ⟨chain_congr w.mem _ q _ hc ?_, hnd, hlen, hr⟩
    intro x hx
    have hxm : x ≠ mp := fun h => hnq (h ▸ hx)
    show ((dmessage_create w.mem (some mp) cfg.DTHREAD_STOP BufPtr.null [] 0).1 x).next = _
    rw [e2 x hxm]
  have hq2 := send_Queue _ q source mp ok hq1 hmp hnq
  have hcmd := send_mem_cmd { w with mem := (dmessage_create w.mem (some mp) cfg.DTHREAD_STOP
      BufPtr.null [] 0).1 } source mp ok mp
  refine ⟨_, ?_, hq2, ?_, ?_, ?_, ?_⟩
  · unfold dthread_stop_enqueue
    have : (dmessage_create w.mem (some mp) cfg.DTHREAD_STOP BufPtr.null [] 0) =
        ((dmessage_create w.mem (some mp) cfg.DTHREAD_STOP BufPtr.null [] 0).1, mp) :=
      Prod.ext rfl e1
    rw [this]
    simp only [hmp, if_false]
  · rw [hcmd.1]; exact e3
  · rw [hcmd.2]; exact e4
  · intro oks hlen w2 rs hrun
    obtain ⟨h1, _, h3⟩ := run_recvs_partial _ _ oks hq2 (by simpa using hlen) w2 rs hrun
    refine ⟨h1, ?_, ?_⟩
    · rw [h3, hcmd.1]; exact e3
    · rw [h3, hcmd.2]; exact e4
  · intro hok hp oks hlen
    refine run_recvs_total _ _ oks hq2 (by simpa using hlen) ?_
    intro _
    rw [send_pipe]
    by_cases h0 : q = []
    · have h1 : w.thr.iq_len = 0 := (Queue_len_zero w q hq).mpr h0
      simp [h1, hok]
    · have h1 : ¬ w.thr.iq_len = 0 := fun h => h0 ((Queue_len_zero w q hq).mp h)
      simp only [h1, false_and, if_false]
      exact hp h0

/-- Example for C6: the queue holds the messages 1 and 2, the STOP message is
allocated at address 3, and three receives follow. -/
theorem stop_ordering_witness :
    Queue world_two [1, 2] ∧ (3 : Nat) ≠ 0 ∧ 3 ∉ [1, 2] ∧
    ∃ w1, dthread_stop_enqueue cfg0 world_two 9 (some 3) true = some w1 ∧
      (w1.mem 3).cmd = cfg0.DTHREAD_STOP ∧
      ∃ w2, run w1 [Op.recv true, Op.recv true, Op.recv true] = some (w2, [1, 2, 3]) := by
  have hq : Queue world_two [1, 2] :=
    ⟨⟨rfl, by decide, rfl, by decide, rfl⟩, by decide, rfl, rfl⟩
  refine ⟨hq, by decide, by decide, ?_⟩
  obtain ⟨w1, h1, _, h3, _, h5, h6⟩ :=
    stop_ordering cfg0 world_two [1, 2] 9 3 true hq (by decide) (by decide)
  obtain ⟨w2, rs, h7⟩ := h6 rfl (fun _ => by decide) [true, true, true] rfl
  obtain ⟨h8, _⟩ := h5 [true, true, true] rfl w2 rs h7
  subst h8
  exact ⟨w1, h1, h3, w2, h7⟩

/-! ## Lemmas on the term buffer -/

theorem take_eq_map_range (l : List ErlDrvTermData) (d : ErlDrvTermData) :
    ∀ k, k ≤ l.length → l.take k = (List.range k).map fun i => l.getD i d := by
  intro k hk
  apply List.ext_getElem
  · simp [Nat.min_eq_left hk]
  · intro i h1 h2
    have hi : i < k := by simpa using h2
    have hl : i < l.length := by omega
    simp [List.getD_eq_getElem?_getD, List.getElem?_eq_getElem hl]

theorem take_map_range (f : Nat → ErlDrvTermData) (n k : Nat) (hk : k ≤ n) :
    ((List.range n).map f).take k = (List.range k).map f := by
  rw [← List.map_take, List.take_range, Nat.min_eq_left hk]

theorem drop_take_set (l : List ErlDrvTermData) (b j u : Nat) (v : ErlDrvTermData) :
    ((l.set (b + j) v).drop b).take u = ((l.drop b).take u).set j v := by
  apply List.ext_getElem?
  intro i
  simp only [List.getElem?_take, List.getElem?_drop, List.getElem?_set]
  by_cases hi : i < u
  · by_cases hj : j = i
    · subst hj
      simp [hi, List.getElem?_take, List.getElem?_drop]
      by_cases hl : b + j < l.length
      · have : j < l.length - b := by omega
        simp [hl, this]
      · have : ¬ j < l.length - b := by omega
        simp [hl, this]
    · have : b + j ≠ b + i := by omega
      simp [hi, hj, this, List.getElem?_take, List.getElem?_drop]
  · by_cases hj : j = i
    · subst hj; simp [hi, List.getElem?_take]
    · simp [hi, hj, List.getElem?_take]

theorem words_length (t : TermState) (h : TermOk t) :
    (dterm_words t).length = dterm_used_size t.p := by
  obtain ⟨⟨_, _, h3, h4⟩, h5⟩ := h
  simp only [dterm_words, dterm_used_size, List.length_take, List.length_drop]
  omega

theorem block_heap (t : TermState) (a : Nat) : t.block (Blk.heap a) = t.heap a := rfl

theorem block_data (t : TermState) : t.block Blk.data = t.p.data := rfl

theorem expand_none (t : TermState) (n : Nat) : spec_expand t n none = (t, 0) := by
  unfold spec_expand
  by_cases hb : t.p.base = ⟨Blk.data, 0⟩ <;> simp [hb]

theorem expand_fields (t : TermState) (n a : Nat) (junk : List ErlDrvTermData) :
    (spec_expand t n (some (a, junk))).2 = 1 ∧
    (spec_expand t n (some (a, junk))).1.p.base = ⟨Blk.heap a, 0⟩ ∧
    (spec_expand t n (some (a, junk))).1.p.ptr = ⟨Blk.heap a, 0 + dterm_used_size t.p⟩ ∧
    (spec_expand t n (some (a, junk))).1.p.ptr_end =
      ⟨Blk.heap a, 0 + (dterm_allocated_size t.p + n)⟩ ∧
    (spec_expand t n (some (a, junk))).1.heap a =
      (if t.p.base = ⟨Blk.data, 0⟩ then
        memcpy_words (raw_block (dterm_allocated_size t.p + n) junk)
          ((t.block t.p.base.blk).drop t.p.base.off) (dterm_allocated_size t.p)
       else realloc_block ((t.block t.p.base.blk).drop t.p.base.off)
          (dterm_allocated_size t.p + n) junk) ∧
    (spec_expand t n (some (a, junk))).1.p.head = t.p.head ∧
    (spec_expand t n (some (a, junk))).1.p.mark = t.p.mark ∧
    (spec_expand t n (some (a, junk))).1.freed = t.freed ∧
    (spec_expand t n (some (a, junk))).1.nreq = t.nreq := by
  unfold spec_expand
  by_cases hb : t.p.base = ⟨Blk.data, 0⟩ <;> simp [hb, dterm_used_size]

theorem expand_some (t : TermState) (n a : Nat) (junk : List ErlDrvTermData) (h : TermOk t) :
    TermOk (spec_expand t n (some (a, junk))).1 ∧
    dterm_words (spec_expand t n (some (a, junk))).1 = dterm_words t ∧
    dterm_used_size (spec_expand t n (some (a, junk))).1.p = dterm_used_size t.p ∧
    dterm_allocated_size (spec_expand t n (some (a, junk))).1.p =
      dterm_allocated_size t.p + n ∧
    dterm_remain (spec_expand t n (some (a, junk))).1.p = dterm_remain t.p + n := by
  obtain ⟨_, e1, e2, e3, e4, _⟩ := expand_fields t n a junk
  obtain ⟨⟨_, _, h3, h4⟩, h5⟩ := h
  have hu : dterm_used_size t.p ≤ dterm_allocated_size t.p := by
    simp only [dterm_used_size, dterm_allocated_size]; omega
  have hlen : ((spec_expand t n (some (a, junk))).1.heap a).length =
      dterm_allocated_size t.p + n := by
    rw [e4]
    by_cases hb : t.p.base = ⟨Blk.data, 0⟩ <;>
      simp [hb, memcpy_words, raw_block, realloc_block]
  refine ⟨⟨⟨?_, ?_, ?_, ?_⟩, ?_⟩, ?_, ?_, ?_, ?_⟩
  · rw [e1, e2]
  · rw [e1, e3]
  · rw [e1, e2]; simp
  · rw [e2, e3]; simp; omega
  · rw [e1, e3, block_heap, hlen]; simp
  · have hw : dterm_words (spec_expand t n (some (a, junk))).1 =
        ((spec_expand t n (some (a, junk))).1.heap a).take (dterm_used_size t.p) := by
      simp only [dterm_words, dterm_used_size]
      rw [e1, e2]
      simp [block_heap, dterm_used_size]
    have hold : dterm_used_size t.p ≤
        ((t.block t.p.base.blk).drop t.p.base.off).length := by
      simp only [List.length_drop, dterm_used_size]; omega
    rw [hw, e4]
    unfold dterm_words
    rw [take_eq_map_range _ 0 _ hold]
    by_cases hb : t.p.base = ⟨Blk.data, 0⟩
    · simp only [hb, if_true, memcpy_words, raw_block, List.length_map, List.length_range]
      rw [take_map_range _ _ _ (by omega)]
      apply List.map_congr_left
      intro i hi
      have hi1 : i < dterm_used_size t.p := List.mem_range.mp hi
      have : i < dterm_allocated_size t.p := by omega
      simp [this, hb]
    · simp only [hb, if_false, realloc_block]
      rw [take_map_range _ _ _ (by omega)]
      apply List.map_congr_left
      intro i hi
      have hi1 : i < dterm_used_size t.p := List.mem_range.mp hi
      have : i < ((t.block t.p.base.blk).drop t.p.base.off).length := by omega
      simp only [this, if_true]
  · simp only [dterm_used_size]; rw [e1, e2]; simp [dterm_used_size]
  · simp only [dterm_allocated_size]; rw [e1, e3]; simp [dterm_allocated_size]
  · simp only [dterm_remain]; rw [e2, e3]
    simp only [dterm_used_size, dterm_allocated_size, dterm_remain]; omega

theorem store_fields (t : TermState) (q : TPtr) (v : ErlDrvTermData) :
    (t.store q v).block q.blk = (t.block q.blk).set q.off v ∧
    (t.store q v).p.base = t.p.base ∧ (t.store q v).p.ptr = t.p.ptr ∧
    (t.store q v).p.ptr_end = t.p.ptr_end ∧ (t.store q v).p.head = t.p.head ∧
    (t.store q v).p.mark = t.p.mark ∧ (t.store q v).freed = t.freed ∧
    (t.store q v).nreq = t.nreq := by
  obtain ⟨b, o⟩ := q
  cases b <;> simp [TermState.store, TermState.block]

theorem take_succ_set (l : List ErlDrvTermData) (v : ErlDrvTermData) :
    ∀ u, u < l.length → (l.take (u + 1)).set u v = l.take u ++ [v] := by
  induction l with
  | nil => intro u h; simp at h
  | cons a l ih =>
    intro u h
    cases u with
    | zero => simp
    | succ u =>
      have h1 : u < l.length := by simpa using h
      simp only [List.take_succ_cons, List.set_cons_succ, List.cons_append]
      rw [ih u h1]

theorem put_word_spec (t : TermState) (w : ErlDrvTermData) (h : TermOk t)
    (hr : 1 ≤ dterm_remain t.p) :
    TermOk (dterm_put_word t w) ∧ dterm_words (dterm_put_word t w) = dterm_words t ++ [w] ∧
    (dterm_put_word t w).p.base = t.p.base ∧ (dterm_put_word t w).p.ptr_end = t.p.ptr_end ∧
    (dterm_put_word t w).p.ptr = ⟨t.p.ptr.blk, t.p.ptr.off + 1⟩ ∧
    (dterm_put_word t w).p.head = t.p.head ∧ (dterm_put_word t w).freed = t.freed ∧
    (dterm_put_word t w).nreq = t.nreq := by
  obtain ⟨⟨h1, h2, h3, h4⟩, h5⟩ := h
  obtain ⟨s1, s2, s3, s4, s5, _, s7, s8⟩ := store_fields t t.p.ptr w
  simp only [dterm_remain] at hr
  have e1 : (dterm_put_word t w).p.base = t.p.base := s2
  have e2 : (dterm_put_word t w).p.ptr_end = t.p.ptr_end := s4
  have e3 : (dterm_put_word t w).p.ptr = ⟨t.p.ptr.blk, t.p.ptr.off + 1⟩ := by
    show (⟨(t.store t.p.ptr w).p.ptr.blk, (t.store t.p.ptr w).p.ptr.off + 1⟩ : TPtr) = _
    rw [s3]
  have e4 : (dterm_put_word t w).block t.p.ptr.blk = (t.block t.p.ptr.blk).set t.p.ptr.off w := by
    rw [← s1]
    cases t.p.ptr.blk <;> rfl
  refine ⟨⟨⟨?_, ?_, ?_, ?_⟩, ?_⟩, ?_, e1, e2, e3, s5, s7, s8⟩
  · rw [e1, e3]; exact h1
  · rw [e1, e2]; exact h2
  · rw [e1, e3]; show t.p.base.off ≤ t.p.ptr.off + 1; omega
  · rw [e2, e3]; show t.p.ptr.off + 1 ≤ t.p.ptr_end.off; omega
  · rw [e1, e2, h1, e4, List.length_set, ← h1]; exact h5
  · simp only [dterm_words, dterm_used_size]
    rw [e1, e3, h1, e4, ← h1]
    obtain ⟨k, hk0⟩ := Nat.exists_eq_add_of_le h3
    rw [hk0]
    have e5 : t.p.base.off + k + 1 - t.p.base.off = k + 1 := by omega
    have e6 : t.p.base.off + k - t.p.base.off = k := by omega
    rw [e5, e6, drop_take_set]
    refine take_succ_set _ w k ?_
    simp only [List.length_drop]; omega

theorem put_spec : ∀ (ws : List ErlDrvTermData) (t : TermState), TermOk t →
    ws.length ≤ dterm_remain t.p →
    TermOk (dterm_put t ws) ∧ dterm_words (dterm_put t ws) = dterm_words t ++ ws ∧
    (dterm_put t ws).p.base = t.p.base ∧ (dterm_put t ws).p.ptr_end = t.p.ptr_end ∧
    dterm_used_size (dterm_put t ws).p = dterm_used_size t.p + ws.length ∧
    (dterm_put t ws).p.head = t.p.head ∧ (dterm_put t ws).freed = t.freed ∧
    (dterm_put t ws).nreq = t.nreq := by
  intro ws
  induction ws with
  | nil => intro t h _; exact ⟨h, by simp [dterm_put], rfl, rfl, rfl, rfl, rfl, rfl⟩
  | cons w ws ih =>
    intro t h hr
    simp only [List.length_cons] at hr
    obtain ⟨k1, k2, k3, k4, k5, k6, k7, k8⟩ := put_word_spec t w h (by omega)
    have h3 := h.1.2.2.1
    have hr2 : ws.length ≤ dterm_remain (dterm_put_word t w).p := by
      simp only [dterm_remain] at hr ⊢
      rw [k4, k5]; show ws.length ≤ t.p.ptr_end.off - (t.p.ptr.off + 1); omega
    obtain ⟨i1, i2, i3, i4, i5, i6, i7, i8⟩ := ih _ k1 hr2
    refine ⟨i1, ?_, ?_, ?_, ?_, ?_, ?_, ?_⟩
    · show dterm_words (dterm_put _ ws) = _
      rw [i2, k2]; simp
    · show (dterm_put _ ws).p.base = _
      rw [i3]; exact k3
    · show (dterm_put _ ws).p.ptr_end = _
      rw [i4]; exact k4
    · show dterm_used_size (dterm_put _ ws).p = _
      rw [i5]
      simp only [dterm_used_size, List.length_cons]
      rw [k3, k5]; show t.p.ptr.off + 1 - t.p.base.off + ws.length = _; omega
    · show (dterm_put _ ws).p.head = _
      rw [i6]; exact k6
    · show (dterm_put _ ws).freed = _
      rw [i7]; exact k7
    · show (dterm_put _ ws).nreq = _
      rw [i8]; exact k8

theorem ensure_ok (env : AllocEnv) (t : TermState) (n : Nat) (hk : TermOk t)
    (hc : Covers env) (hn : NoFailure env) :
    (ensureCapacity env t n).2 = 1 ∧ TermOk (ensureCapacity env t n).1 ∧
    dterm_words (ensureCapacity env t n).1 = dterm_words t ∧
    n ≤ dterm_remain (ensureCapacity env t n).1.p ∧
    dterm_used_size (ensureCapacity env t n).1.p = dterm_used_size t.p ∧
    (ensureCapacity env t n).1.p.head = t.p.head ∧
    (ensureCapacity env t n).1.freed = t.freed := by
  unfold ensureCapacity
  by_cases hr : dterm_remain t.p < n
  · rw [if_pos hr]
    cases ho : env.outcome t.nreq with
    | none => exact absurd ho (hn t.nreq)
    | some r =>
      obtain ⟨a, junk⟩ := r
      have hk1 : TermOk { t with nreq := t.nreq + 1 } := hk
      obtain ⟨f1, _, _, _, _, f6, _, f8, _⟩ := expand_fields { t with nreq := t.nreq + 1 }
        (env.grow (dterm_allocated_size t.p) (n - dterm_remain t.p)) a junk
      obtain ⟨g1, g2, g3, _, g5⟩ := expand_some { t with nreq := t.nreq + 1 }
        (env.grow (dterm_allocated_size t.p) (n - dterm_remain t.p)) a junk hk1
      refine ⟨f1, g1, g2, ?_, g3, f6, f8⟩
      rw [g5]
      have := hc (dterm_allocated_size t.p) (n - dterm_remain t.p)
      show n ≤ dterm_remain t.p + _
      omega
  · rw [if_neg hr]
    exact ⟨rfl, hk, rfl, by show n ≤ dterm_remain t.p; omega, rfl, rfl, rfl⟩

theorem emit_ok (env : AllocEnv) (t : TermState) (ws : List ErlDrvTermData) (hk : TermOk t)
    (hc : Covers env) (hn : NoFailure env) :
    (dterm_emit env t ws).2 = 1 ∧ TermOk (dterm_emit env t ws).1 ∧
    dterm_words (dterm_emit env t ws).1 = dterm_words t ++ ws ∧
    dterm_used_size (dterm_emit env t ws).1.p = dterm_used_size t.p + ws.length ∧
    (dterm_emit env t ws).1.p.head = t.p.head ∧
    (dterm_emit env t ws).1.freed = t.freed := by
  obtain ⟨e1, e2, e3, e4, e5, e6, e7⟩ := ensure_ok env t ws.length hk hc hn
  obtain ⟨p1, p2, _, _, p5, p6, p7, _⟩ := put_spec ws _ e2 e4
  have hd : dterm_emit env t ws = (dterm_put (ensureCapacity env t ws.length).1 ws, 1) := by
    unfold dterm_emit
    have : ensureCapacity env t ws.length = ((ensureCapacity env t ws.length).1, 1) :=
      Prod.ext rfl e1
    rw [this]; simp
  rw [hd]
  exact ⟨rfl, p1, by rw [p2, e3], by rw [p5, e5], by rw [p6, e6], by rw [p7, e7]⟩

theorem tuple_end_spec (t : TermState) (m : Nat) (hk : TermOk t) :
    TermOk (dterm_tuple_end t m) ∧
    dterm_words (dterm_tuple_end t m) =
      (dterm_words t).set (m + 1) (elem_count ((dterm_words t).drop (m + 2)) : Nat) ∧
    (dterm_tuple_end t m).p.head = t.p.head ∧ (dterm_tuple_end t m).freed = t.freed := by
  obtain ⟨⟨h1, h2, h3, h4⟩, h5⟩ := hk
  obtain ⟨s1, s2, s3, s4, s5, _, s7, _⟩ := store_fields t ⟨t.p.base.blk, t.p.base.off + m + 1⟩
    (elem_count ((dterm_words t).drop (m + 2)) : Nat)
  unfold dterm_tuple_end
  refine ⟨⟨⟨?_, ?_, ?_, ?_⟩, ?_⟩, ?_, s5, s7⟩
  · rw [s2, s3]; exact h1
  · rw [s2, s4]; exact h2
  · rw [s2, s3]; exact h3
  · rw [s3, s4]; exact h4
  · rw [s2, s4, s1, List.length_set]; exact h5
  · show ((_ : List ErlDrvTermData).drop _).take _ = _
    simp only [dterm_used_size]
    rw [s2, s3, s1, Nat.add_assoc, drop_take_set]
    rfl

theorem emit_one_refines (env : AllocEnv) (hc : Covers env) (hn : NoFailure env)
    (t : TermState) (ms : List dterm_mark_t) (e : Emit) (hk : TermOk t) :
    ∃ t1 ms1, emit_one env (t, ms) e = some (t1, ms1) ∧ TermOk t1 ∧
      (dterm_words t1, ms1) = unbounded_one (dterm_words t, ms) e ∧
      t1.p.head = t.p.head ∧ t1.freed = t.freed := by
  cases e with
  | atom a =>
    obtain ⟨e1, e2, e3, _, e5, e6⟩ := emit_ok env t [ERL_DRV_ATOM, a] hk hc hn
    exact ⟨_, ms, by simp [emit_one, dterm_atom, e1], e2, by simp [unbounded_one, e3], e5, e6⟩
  | int v =>
    obtain ⟨e1, e2, e3, _, e5, e6⟩ := emit_ok env t [ERL_DRV_INT, v] hk hc hn
    exact ⟨_, ms, by simp [emit_one, dterm_int, e1], e2, by simp [unbounded_one, e3], e5, e6⟩
  | uint v =>
    obtain ⟨e1, e2, e3, _, e5, e6⟩ := emit_ok env t [ERL_DRV_UINT, (v : Int)] hk hc hn
    exact ⟨_, ms, by simp [emit_one, dterm_uint, e1], e2, by simp [unbounded_one, e3], e5, e6⟩
  | string q n =>
    obtain ⟨e1, e2, e3, _, e5, e6⟩ :=
      emit_ok env t [ERL_DRV_STRING, (q : Int), (n : Int)] hk hc hn
    exact ⟨_, ms, by simp [emit_one, dterm_string, e1], e2, by simp [unbounded_one, e3], e5, e6⟩
  | tuple_begin =>
    obtain ⟨e1, e2, e3, _, e5, e6⟩ := emit_ok env t [ERL_DRV_TUPLE, 0] hk hc hn
    refine ⟨_, dterm_used_size t.p :: ms, by simp [emit_one, dterm_tuple_begin, e1], e2, ?_,
      e5, e6⟩
    simp [unbounded_one, e3, words_length t hk]
  | tuple_end =>
    cases ms with
    | nil => exact ⟨t, [], rfl, hk, rfl, rfl, rfl⟩
    | cons m ms =>
      obtain ⟨e1, e2, e3, e4⟩ := tuple_end_spec t m hk
      exact ⟨_, ms, rfl, e1, by simp [unbounded_one, e2], e3, e4⟩

theorem emit_all_refines (env : AllocEnv) (hc : Covers env) (hn : NoFailure env) :
    ∀ (es : List Emit) (t : TermState) (ms : List dterm_mark_t), TermOk t →
    ∃ t1 ms1, emit_all env (t, ms) es = some (t1, ms1) ∧ TermOk t1 ∧
      (dterm_words t1, ms1) = unbounded_all (dterm_words t, ms) es ∧
      t1.p.head = t.p.head ∧ t1.freed = t.freed := by
  intro es
  induction es with
  | nil => intro t ms hk; exact ⟨t, ms, rfl, hk, rfl, rfl, rfl⟩
  | cons e es ih =>
    intro t ms hk
    obtain ⟨t1, ms1, h1, h2, h3, h4, h5⟩ := emit_one_refines env hc hn t ms e hk
    obtain ⟨t2, ms2, i1, i2, i3, i4, i5⟩ := ih t1 ms1 h2
    refine ⟨t2, ms2, by simp [emit_all, h1, i1], i2, ?_, by rw [i4, h4], by rw [i5, h5]⟩
    rw [i3, h3]; rfl

/-! ## Properties of the term buffer -/

theorem init_ok (cfg : Config) (t : TermState) (hd : t.p.data.length = cfg.DTERM_FIXED) :
    TermOk (dterm_init cfg t) ∧ dterm_words (dterm_init cfg t) = [] ∧
    dterm_used_size (dterm_init cfg t).p = 0 ∧
    dterm_allocated_size (dterm_init cfg t).p = cfg.DTERM_FIXED := by
  refine ⟨⟨⟨rfl, rfl, ?_, ?_⟩, ?_⟩, ?_, ?_, ?_⟩
  · simp [dterm_init]
  · simp [dterm_init]
  · simp [dterm_init, TermState.block, hd]
  · simp [dterm_words, dterm_init, dterm_used_size]
  · simp [dterm_init, dterm_used_size]
  · simp [dterm_init, dterm_allocated_size]

theorem ptr_plus_fit (S W : Nat) (b : Blk) (k : Nat) (hW : 0 < W) (hk : k * W < S) :
    ptr_plus S W ⟨b, 0⟩ k = ⟨b, 0 + k⟩ := by
  unfold ptr_plus
  simp only [Nat.zero_mul, Nat.zero_add]
  rw [Nat.mod_eq_of_lt hk, Nat.mul_div_cancel _ hW]

theorem dterm_expand_none (S W : Nat) (t : TermState) (n : Nat) :
    dterm_expand S W t n none = some (t, 0) := by
  unfold dterm_expand
  by_cases hb : t.p.base = ⟨Blk.data, 0⟩ <;> simp [hb]

/-- When no size wraps, `dterm_expand` computes the exact growth. -/
theorem dterm_expand_exact (S W : Nat) (t : TermState) (n a : Nat)
    (junk : List ErlDrvTermData) (hW : 0 < W) (hw : Window t.p)
    (hfit : (dterm_allocated_size t.p + n) * W < S) :
    dterm_expand S W t n (some (a, junk)) = some (spec_expand t n (some (a, junk))) := by
  obtain ⟨_, _, h3, h4⟩ := hw
  have hle : dterm_allocated_size t.p + n ≤ (dterm_allocated_size t.p + n) * W :=
    Nat.le_mul_of_pos_right _ hW
  have h1 : (dterm_allocated_size t.p + n) % S = dterm_allocated_size t.p + n :=
    Nat.mod_eq_of_lt (by omega)
  have hold : dterm_allocated_size t.p * W < S := by
    have : dterm_allocated_size t.p * W ≤ (dterm_allocated_size t.p + n) * W :=
      Nat.mul_le_mul_right W (Nat.le_add_right _ _)
    omega
  have h2 : (dterm_allocated_size t.p * W) % S = dterm_allocated_size t.p * W :=
    Nat.mod_eq_of_lt hold
  have h5 : ((dterm_allocated_size t.p + n) * W) % S = (dterm_allocated_size t.p + n) * W :=
    Nat.mod_eq_of_lt hfit
  have hoff : (t.p.ptr.off - t.p.base.off) * W < S := by
    have : t.p.ptr.off - t.p.base.off ≤ dterm_allocated_size t.p := by
      unfold dterm_allocated_size; omega
    have : (t.p.ptr.off - t.p.base.off) * W ≤ dterm_allocated_size t.p * W :=
      Nat.mul_le_mul_right W this
    omega
  have hnot : ¬ (dterm_allocated_size t.p + n) * W < dterm_allocated_size t.p * W := by
    have : dterm_allocated_size t.p * W ≤ (dterm_allocated_size t.p + n) * W :=
      Nat.mul_le_mul_right W (Nat.le_add_right _ _)
    omega
  unfold dterm_expand spec_expand
  simp only [h1, h2, h5, Nat.mul_div_cancel _ hW, hnot, if_false,
    ptr_plus_fit S W _ _ hW hoff, ptr_plus_fit S W _ _ hW hfit]
  by_cases hb : t.p.base = ⟨Blk.data, 0⟩ <;> simp [hb]

/-- C7 (the code departs from it): with a `size_t` of `2^64` values and words
of 8 bytes, `dterm_expand(p, 2^61)` on the inline buffer of capacity 4 that
holds `[2, 5]` computes `new_sz = 32`, gets a block of 4 words and returns 1
with the capacity still 4, not `4 + 2^61`; with `n = 2^61 - 1` it computes
`new_sz = 24` and its `memcpy` of the 32 old bytes writes past that block.
With `n = 4` the same buffer gets capacity 8 and keeps its words. Whenever
`(capacity + n) * W` does not wrap, a successful `dterm_expand` returns 1,
leaves the used size and the written words unchanged and makes the capacity
the old capacity plus `n`, for inline and heap storage alike, which is the
growth `spec_expand` of the specification; a failed one returns 0 and changes
nothing; and with an allocator that does not fail, any emission sequence on a
buffer fresh from `dterm_init`, growing by `spec_expand`, yields the word
sequence of the unbounded buffer. -/
theorem expand_wraps_capacity :
    (dterm_allocated_size term_used.p = 4 ∧ dterm_words term_used = [2, 5] ∧
      (dterm_expand (2 ^ 64) 8 term_used (2 ^ 61) (some (8, [77]))).map
          (fun r => (r.2, dterm_allocated_size r.1.p, dterm_used_size r.1.p, dterm_words r.1,
            r.1.heap 8)) =
        some (1, 4, 2, [2, 5], [2, 5, 13, 14]) ∧
      (dterm_expand (2 ^ 64) 8 term_used (2 ^ 61 - 1) (some (8, [77]))).isSome = false ∧
      (dterm_expand (2 ^ 64) 8 term_used 4 (some (8, [77]))).map
          (fun r => (r.2, dterm_allocated_size r.1.p, dterm_used_size r.1.p, dterm_words r.1)) =
        some (1, 8, 2, [2, 5])) ∧
    (∀ (S W : Nat) (t : TermState) (n : Nat) (r : Option (Nat × List ErlDrvTermData)),
      0 < W → Window t.p → (dterm_allocated_size t.p + n) * W < S →
      dterm_expand S W t n r = some (spec_expand t n r)) ∧
    (∀ (S W : Nat) (t : TermState) (n a : Nat) (junk : List ErlDrvTermData),
      0 < W → TermOk t → (dterm_allocated_size t.p + n) * W < S →
      ∃ t1, dterm_expand S W t n (some (a, junk)) = some (t1, 1) ∧
        dterm_used_size t1.p = dterm_used_size t.p ∧
        dterm_words t1 = dterm_words t ∧
        dterm_allocated_size t1.p = dterm_allocated_size t.p + n ∧ TermOk t1) ∧
    (∀ (S W : Nat) (t : TermState) (n : Nat), dterm_expand S W t n none = some (t, 0)) ∧
    (∀ (cfg : Config) (env : AllocEnv) (t0 : TermState) (es : List Emit),
      Covers env → NoFailure env → t0.p.data.length = cfg.DTERM_FIXED →
      ∃ t1 ms1, emit_all env (dterm_init cfg t0, []) es = some (t1, ms1) ∧
        dterm_words t1 = (unbounded_all ([], []) es).1) := by
  refine ⟨⟨by decide, by decide, by decide, by decide, by decide⟩, ?_, ?_, dterm_expand_none,
    ?_⟩
  · intro S W t n r hW hw hfit
    cases r with
    | none => rw [dterm_expand_none, expand_none]
    | some o => exact dterm_expand_exact S W t n o.1 o.2 hW hw hfit
  · intro S W t n a junk hW hk hfit
    obtain ⟨f1, _⟩ := expand_fields t n a junk
    obtain ⟨g1, g2, g3, g4, _⟩ := expand_some t n a junk hk
    refine ⟨(spec_expand t n (some (a, junk))).1, ?_, g3, g2, g4, g1⟩
    rw [dterm_expand_exact S W t n a junk hW hk.1 hfit, ← f1]
  · intro cfg env t0 es hc hn hd
    obtain ⟨i1, i2, _, _⟩ := init_ok cfg t0 hd
    obtain ⟨t1, ms1, h1, _, h3, _⟩ := emit_all_refines env hc hn es (dterm_init cfg t0) [] i1
    refine ⟨t1, ms1, h1, ?_⟩
    rw [i2] at h3
    rw [← h3]

theorem reset_spec (t : TermState) :
    (dterm_reset t).p.ptr = t.p.base ∧ (dterm_reset t).p.base = t.p.base ∧
    (dterm_reset t).p.ptr_end = t.p.ptr_end ∧ (dterm_reset t).p.head = [] ∧
    (dterm_reset t).freed = t.freed ++ t.p.head.map dterm_link_t.addr ∧
    (dterm_reset t).p.data = t.p.data ∧ (dterm_reset t).heap = t.heap := by
  unfold dterm_reset dterm_reset_links
  by_cases h : t.p.head = [] <;> simp [h]

theorem alloc_spec (S W HDR : Nat) (t : TermState) (size : Nat) (links : List dterm_link_t)
    (mark : Nat) (junk : List ErlDrvTermData) (hW : 0 < W) (hfit : HDR + size * W < S) :
    ∃ t1, dterm_alloc S W HDR t size (some (links, mark, junk)) = some (some t1) ∧ TermOk t1 ∧
      dterm_used_size t1.p = 0 ∧ dterm_allocated_size t1.p = size ∧ t1.p.dyn_alloc = 1 := by
  have h1 : (size * W) % S = size * W := Nat.mod_eq_of_lt (by omega)
  have h2 : (HDR + size * W) % S = HDR + size * W := Nat.mod_eq_of_lt hfit
  have h3 : ¬ HDR + size * W < HDR := by omega
  have h4 : (HDR + size * W - HDR) / W = size := by
    rw [Nat.add_sub_cancel_left, Nat.mul_div_cancel _ hW]
  have h5 : size * W < S := by omega
  have he : dterm_alloc S W HDR t size (some (links, mark, junk)) =
      some (some { t with p :=
        { dyn_alloc := 1, dyn_size := size, base := ⟨Blk.data, 0⟩, ptr := ⟨Blk.data, 0⟩,
          ptr_end := ⟨Blk.data, 0 + size⟩, head := [], mark := 0,
          data := raw_block size junk } }) := by
    unfold dterm_alloc
    simp only [h1, h2, h3, h4, if_false, ptr_plus_fit S W _ _ hW h5]
  refine ⟨_, he, ⟨⟨rfl, rfl, ?_, ?_⟩, ?_⟩, ?_, ?_, rfl⟩
  · simp
  · simp
  · simp [TermState.block, raw_block]
  · simp [dterm_used_size]
  · simp [dterm_allocated_size]

/-- C9 (the code departs from it): with a `size_t` of `2^64` values and words
of 8 bytes, `dterm_expand(p, 2^61 - 4)` on the heap buffer of capacity 8 with 6
words used computes `new_sz = 32`, returns 1 and leaves `ptr` 6 words and
`ptr_end` 4 words after `base`: the window is broken and the capacity fell from
8 to 4; with `n = 4` the window stays and the capacity becomes 12. Likewise
`dterm_alloc(2^61)` asks `malloc` for the header alone and returns a buffer of
capacity 0, whereas `dterm_alloc(5)` returns one of capacity 5. `dterm_init`
establishes `base <= ptr <= ptr_end` with used size 0 and capacity
`DTERM_FIXED`, `dterm_reset` preserves the window, and whenever the byte
counts do not wrap `dterm_alloc(size)` establishes it with used size 0 and
capacity `size`, and `dterm_expand` preserves it and does not decrease the
capacity. -/
theorem expand_shrinks_window :
    (Window term_heap.p ∧ dterm_allocated_size term_heap.p = 8 ∧
      (dterm_expand (2 ^ 64) 8 term_heap (2 ^ 61 - 4) (some (9, []))).map
          (fun r => (r.2, r.1.p.base, r.1.p.ptr, r.1.p.ptr_end, dterm_allocated_size r.1.p)) =
        some (1, ⟨Blk.heap 9, 0⟩, ⟨Blk.heap 9, 6⟩, ⟨Blk.heap 9, 4⟩, 4) ∧
      (dterm_alloc (2 ^ 64) 8 64 term_raw (2 ^ 61) (some ([], 0, []))).map
          (fun r => r.map fun t1 => (t1.p.dyn_size, dterm_allocated_size t1.p,
            t1.p.data.length)) =
        some (some (2 ^ 61, 0, 0)) ∧
      (dterm_expand (2 ^ 64) 8 term_heap 4 (some (9, []))).map
          (fun r => (r.2, r.1.p.base, r.1.p.ptr, r.1.p.ptr_end, dterm_allocated_size r.1.p)) =
        some (1, ⟨Blk.heap 9, 0⟩, ⟨Blk.heap 9, 6⟩, ⟨Blk.heap 9, 12⟩, 12) ∧
      (dterm_alloc (2 ^ 64) 8 64 term_raw 5 (some ([], 0, []))).map
          (fun r => r.map fun t1 => (t1.p.dyn_size, dterm_allocated_size t1.p,
            t1.p.data.length)) =
        some (some (5, 5, 5))) ∧
    (∀ (cfg : Config) (t0 : TermState),
      Window (dterm_init cfg t0).p ∧ dterm_used_size (dterm_init cfg t0).p = 0 ∧
      dterm_allocated_size (dterm_init cfg t0).p = cfg.DTERM_FIXED) ∧
    (∀ (S W HDR : Nat) (t0 : TermState) (size : Nat) (links : List dterm_link_t) (mark : Nat)
        (junk : List ErlDrvTermData), 0 < W → HDR + size * W < S →
      ∃ t1, dterm_alloc S W HDR t0 size (some (links, mark, junk)) = some (some t1) ∧
        Window t1.p ∧ dterm_used_size t1.p = 0 ∧ dterm_allocated_size t1.p = size) ∧
    (∀ (S W HDR : Nat) (t0 : TermState) (size : Nat),
      dterm_alloc S W HDR t0 size none = some none) ∧
    (∀ t : TermState, Window t.p → Window (dterm_reset t).p) ∧
    (∀ (S W : Nat) (t : TermState) (n : Nat) (r : Option (Nat × List ErlDrvTermData)),
      0 < W → Window t.p → (dterm_allocated_size t.p + n) * W < S →
      ∃ t1 res, dterm_expand S W t n r = some (t1, res) ∧ Window t1.p ∧
        dterm_allocated_size t.p ≤ dterm_allocated_size t1.p) := by
  refine ⟨⟨⟨rfl, rfl, by decide, by decide⟩, by decide, by decide, by decide, by decide,
    by decide⟩, ?_, ?_, ?_, ?_, ?_⟩
  · intro cfg t0
    refine ⟨⟨rfl, rfl, ?_, ?_⟩, ?_, ?_⟩
    · simp [dterm_init]
    · simp [dterm_init]
    · simp [dterm_init, dterm_used_size]
    · simp [dterm_init, dterm_allocated_size]
  · intro S W HDR t0 size links mark junk hW hfit
    obtain ⟨t1, a1, a2, a3, a4, _⟩ := alloc_spec S W HDR t0 size links mark junk hW hfit
    exact ⟨t1, a1, a2.1, a3, a4⟩
  · intro S W HDR t0 size
    rfl
  · intro t hw
    obtain ⟨h1, h2, h3, h4⟩ := hw
    obtain ⟨r1, r2, r3, _⟩ := reset_spec t
    refine ⟨?_, ?_, ?_, ?_⟩
    · rw [r1, r2]
    · rw [r2, r3]; exact h2
    · rw [r1, r2]
    · rw [r1, r3]; omega
  · intro S W t n r hW hw hfit
    obtain ⟨h1, h2, h3, h4⟩ := hw
    cases r with
    | none => exact ⟨t, 0, dterm_expand_none S W t n, ⟨h1, h2, h3, h4⟩, Nat.le_refl _⟩
    | some o =>
      obtain ⟨a, jk⟩ := o
      obtain ⟨_, e1, e2, e3, _⟩ := expand_fields t n a jk
      refine ⟨(spec_expand t n (some (a, jk))).1, (spec_expand t n (some (a, jk))).2, ?_,
        ⟨?_, ?_, ?_, ?_⟩, ?_⟩
      · rw [dterm_expand_exact S W t n a jk hW ⟨h1, h2, h3, h4⟩ hfit]
      · rw [e1, e2]
      · rw [e1, e3]
      · rw [e1, e2]; simp
      · rw [e2, e3]; simp [dterm_used_size, dterm_allocated_size]; omega
      · simp only [dterm_allocated_size]
        rw [e1, e3]; simp [dterm_allocated_size]

theorem le_bytes_length : ∀ (k n : Nat), (le_bytes k n).length = k := by
  intro k
  induction k with
  | zero => intro n; rfl
  | succ k ih => intro n; simp [le_bytes, ih]

theorem le_value_le_bytes : ∀ (k n : Nat), le_value (le_bytes k n) = n % 256 ^ k := by
  intro k
  induction k with
  | zero => intro n; simp [le_bytes, le_value, Nat.mod_one]
  | succ k ih =>
    intro n
    simp only [le_bytes, le_value, ih]
    rw [pow_succ, Nat.mul_comm (256 ^ k) 256, Nat.mod_mul]

theorem word_norm_nonneg (W : Nat) (v : ErlDrvTermData) : 0 ≤ word_norm W v :=
  Int.emod_nonneg _ (pow_ne_zero _ (by decide))

theorem word_norm_lt (W : Nat) (v : ErlDrvTermData) : word_norm W v < (256 : Int) ^ W :=
  Int.emod_lt_of_pos _ (pow_pos (by decide) _)

theorem word_norm_id (W : Nat) (v : ErlDrvTermData) (h0 : 0 ≤ v) (h1 : v < (256 : Int) ^ W) :
    word_norm W v = v :=
  Int.emod_eq_of_lt h0 h1

theorem word_bytes_length (W : Nat) (v : ErlDrvTermData) : (word_bytes W v).length = W :=
  le_bytes_length _ _

theorem word_value (W : Nat) (v : ErlDrvTermData) :
    (le_value (word_bytes W v) : Int) = word_norm W v := by
  unfold word_bytes
  rw [le_value_le_bytes]
  have h0 := word_norm_nonneg W v
  have h1 := word_norm_lt W v
  have h2 : (word_norm W v).toNat < 256 ^ W := by
    have : ((word_norm W v).toNat : Int) < ((256 ^ W : Nat) : Int) := by
      rw [Int.toNat_of_nonneg h0]; exact_mod_cast h1
    exact_mod_cast this
  rw [Nat.mod_eq_of_lt h2, Int.toNat_of_nonneg h0]

theorem spec_bytes_nil (W : Nat) : spec_bytes W [] = [] := rfl

theorem spec_bytes_cons (W : Nat) (v : ErlDrvTermData) (spec : List ErlDrvTermData) :
    spec_bytes W (v :: spec) = word_bytes W v ++ spec_bytes W spec := by
  simp [spec_bytes]

theorem spec_bytes_length (W : Nat) :
    ∀ spec : List ErlDrvTermData, (spec_bytes W spec).length = spec.length * W := by
  intro spec
  induction spec with
  | nil => simp [spec_bytes_nil]
  | cons v spec ih =>
    rw [spec_bytes_cons, List.length_append, word_bytes_length, ih, List.length_cons]
    ring

theorem bytes_words_spec (W : Nat) : ∀ (spec : List ErlDrvTermData) (rest : List Nat),
    bytes_words W spec.length (spec_bytes W spec ++ rest) = spec.map (word_norm W) := by
  intro spec
  induction spec with
  | nil => intro rest; rfl
  | cons v spec ih =>
    intro rest
    have hl := word_bytes_length W v
    rw [spec_bytes_cons, List.length_cons, List.append_assoc]
    simp only [bytes_words, List.map_cons]
    rw [List.take_left' hl, List.drop_left' hl, ih, word_value]

theorem spec_bytes_take (W : Nat) : ∀ (n : Nat) (spec : List ErlDrvTermData),
    (spec_bytes W spec).take (n * W) = spec_bytes W (spec.take n) := by
  intro n
  induction n with
  | zero => intro spec; simp [spec_bytes_nil]
  | succ n ih =>
    intro spec
    cases spec with
    | nil => simp [spec_bytes_nil]
    | cons v spec =>
      have hl := word_bytes_length W v
      rw [List.take_succ_cons, spec_bytes_cons, spec_bytes_cons, ← ih spec]
      have e : (n + 1) * W = (word_bytes W v).length + n * W := by rw [hl]; ring
      rw [e, List.take_append]

theorem spec_bytes_drop (W : Nat) : ∀ (n : Nat) (spec : List ErlDrvTermData),
    (spec_bytes W spec).drop (n * W) = spec_bytes W (spec.drop n) := by
  intro n
  induction n with
  | zero => intro spec; simp
  | succ n ih =>
    intro spec
    cases spec with
    | nil => simp [spec_bytes_nil]
    | cons v spec =>
      have hl := word_bytes_length W v
      rw [List.drop_succ_cons, spec_bytes_cons, ← ih spec]
      have e : (n + 1) * W = (word_bytes W v).length + n * W := by rw [hl]; ring
      rw [e, List.drop_append]

theorem bytes_word_at_spec (W : Nat) (spec : List ErlDrvTermData) (i : Nat)
    (h : i < spec.length) :
    bytes_word_at W (spec_bytes W spec) i = word_norm W (spec.getD i 0) := by
  unfold bytes_word_at
  rw [spec_bytes_drop]
  have e : spec.drop i = spec.getD i 0 :: spec.drop (i + 1) := by
    rw [List.getD_eq_getElem _ _ h]
    exact List.drop_eq_getElem_cons h
  rw [e, spec_bytes_cons, List.take_left' (word_bytes_length W _), word_value]

theorem take_eq_map_range_nat : ∀ (l : List Nat) (k : Nat), k ≤ l.length →
    (List.range k).map (fun i => l.getD i 0) = l.take k := by
  intro l k h
  apply List.ext_getElem
  · simp [h]
  · intro i h1 h2
    simp at h1
    have h3 : i < l.length := Nat.lt_of_lt_of_le h1 h
    simp [List.getElem?_eq_getElem h3]

/-! ## Lemmas on proxied messages -/

theorem create_at (mem : Nat → dmessage_t) (mp : Nat) (cmd : Int) (buf : BufPtr)
    (bytes : List Nat) (len : Nat) (hmp : mp ≠ 0) :
    dmessage_create mem (some mp) cmd buf bytes len =
      (Function.update mem mp (proxy_message cmd mp 0 0 bytes len), mp) := by
  simp [dmessage_create, dmessage_create_r, dmessage_alloc, dmessage_zero, hmp, proxy_message]

theorem create_none (mem : Nat → dmessage_t) (cmd : Int) (buf : BufPtr)
    (bytes : List Nat) (len : Nat) :
    dmessage_create mem none cmd buf bytes len = (mem, 0) := by
  simp [dmessage_create, dmessage_create_r, dmessage_alloc]

theorem memcpy_inl_payload (bytes : List Nat) (len : Nat) :
    ((memcpy_inl (List.replicate (len + 8) 0) 8 bytes len).drop 8).take len =
      (List.range len).map fun i => bytes.getD i 0 := by
  apply List.ext_getElem
  · simp [memcpy_inl]
  · intro i h1 h2
    simp at h2
    simp [memcpy_inl, h2]

theorem enqueue_fresh (w : World) (q : List Nat) (source mp : Nat) (m : dmessage_t) (ok : Bool)
    (hq : Queue w q) (hmp : mp ≠ 0) (hnq : mp ∉ q) :
    Queue (dthread_send { w with mem := Function.update w.mem mp m } source mp ok).1
      (q ++ [mp]) ∧
    (dthread_send { w with mem := Function.update w.mem mp m } source mp ok).1.mem mp =
      { m with next := 0, source := source } := by
  have hq1 : Queue { w with mem := Function.update w.mem mp m } q := by
    obtain ⟨hc, hnd, hlen, hr⟩ := hq
    refine ⟨chain_congr w.mem _ q _ hc ?_, hnd, hlen, hr⟩
    intro x hx
    have hxm : x ≠ mp := fun h => hnq (h ▸ hx)
    show ((Function.update w.mem mp m) x).next = _
    rw [Function.update_noteq hxm]
  refine ⟨send_Queue _ q source mp ok hq1 hmp hnq, ?_⟩
  rw [send_mem]
  by_cases h1 : w.thr.iq_rear = 0
  · simp [h1]
  · have hr : w.thr.iq_rear ≠ mp := by
      intro e
      have hne : q ≠ [] := fun hnil => h1 ((Queue_rear_eq_zero w q hq).2 hnil)
      have hm := getLastD_mem q hne 0
      rw [← hq.2.2.2, e] at hm
      exact hnq hm
    simp [h1, Function.update_noteq (Ne.symm hr)]

theorem payload_bytes_proxy (mem : Nat → dmessage_t) (mp : Nat) (m : dmessage_t)
    (bytes : List Nat) (len : Nat) (hmem : mem mp = m) (hb : m.buffer = BufPtr.inl mp 8)
    (hu : m.used = len)
    (hd : m.data = memcpy_inl (List.replicate (len + 8) 0) 8 bytes len) :
    payload_bytes mem mp = (List.range len).map fun i => bytes.getD i 0 := by
  unfold payload_bytes
  rw [hmem, hb, hu]
  simp only [bytes_at]
  rw [hmem, hd, memcpy_inl_payload]

theorem payload_words_proxy (W : Nat) (hW : 0 < W) (mem : Nat → dmessage_t) (mp : Nat)
    (m : dmessage_t) (spec : List ErlDrvTermData) (n : Nat) (hn : n ≤ spec.length)
    (hmem : mem mp = m) (hb : m.buffer = BufPtr.inl mp 8) (hu : m.used = n * W)
    (hd : m.data = memcpy_inl (List.replicate (n * W + 8) 0) 8 (spec_bytes W spec) (n * W)) :
    payload_bytes mem mp = spec_bytes W (spec.take n) ∧
    payload_words W mem mp = (spec.take n).map (word_norm W) := by
  have hp := payload_bytes_proxy mem mp m (spec_bytes W spec) (n * W) hmem hb hu hd
  have hlen : n * W ≤ (spec_bytes W spec).length := by
    rw [spec_bytes_length]; exact Nat.mul_le_mul_right W hn
  rw [take_eq_map_range_nat _ _ hlen, spec_bytes_take] at hp
  refine ⟨hp, ?_⟩
  unfold payload_words
  rw [hp, hmem, hu, Nat.mul_div_cancel _ hW]
  have h1 := bytes_words_spec W (spec.take n) []
  rw [List.append_nil, List.length_take, Nat.min_eq_left hn] at h1
  exact h1

theorem free_run_inline (W : Nat) (mem : Nat → dmessage_t) (mp : Nat) (m : dmessage_t)
    (len : Nat) (hmem : mem mp = m) (hb : m.buffer = BufPtr.inl mp 8) (hs : m.size = len + 8)
    (hr : m.release = 0) :
    dmessage_free_run W mem mp = [Call.driver_free_msg mp] := by
  simp [dmessage_free_run, dmessage_free, hmem, hr, buffer_outside, hb, hs, run_release]

theorem free_run_spec_5 (W : Nat) (mem : Nat → dmessage_t) (mp : Nat) (m : dmessage_t)
    (spec : List ErlDrvTermData) (hmem : mem mp = m) (hb : m.buffer = BufPtr.inl mp 8)
    (hr : m.release = release_spec_5_fn) (h5 : 5 < spec.length)
    (hd : (m.data.drop 8) = spec_bytes W spec) :
    dmessage_free_run W mem mp =
      [Call.driver_free_buf (BufPtr.ext (word_norm W (spec.getD 5 0)).toNat),
       Call.driver_free_msg mp] := by
  have e : bytes_at mem (BufPtr.inl mp 8) = spec_bytes W spec := by
    simp only [bytes_at]; rw [hmem, hd]
  simp [dmessage_free_run, dmessage_free, hmem, hr, hb, run_release, release_spec_5_fn,
    release_spec_5, e, bytes_word_at_spec W spec 5 h5]

theorem free_run_spec_5_8 (W : Nat) (mem : Nat → dmessage_t) (mp : Nat) (m : dmessage_t)
    (spec : List ErlDrvTermData) (hmem : mem mp = m) (hb : m.buffer = BufPtr.inl mp 8)
    (hr : m.release = release_spec_5_8_fn) (h8 : 8 < spec.length)
    (hd : (m.data.drop 8) = spec_bytes W spec) :
    dmessage_free_run W mem mp =
      [Call.driver_free_buf (BufPtr.ext (word_norm W (spec.getD 5 0)).toNat),
       Call.driver_free_buf (BufPtr.ext (word_norm W (spec.getD 8 0)).toNat),
       Call.driver_free_msg mp] := by
  have e : bytes_at mem (BufPtr.inl mp 8) = spec_bytes W spec := by
    simp only [bytes_at]; rw [hmem, hd]
  simp [dmessage_free_run, dmessage_free, hmem, hr, hb, run_release, release_spec_5_fn,
    release_spec_5_8_fn, release_spec_5_8, e, bytes_word_at_spec W spec 5 (by omega),
    bytes_word_at_spec W spec 8 h8]

theorem memcpy_inl_drop (bytes : List Nat) (len : Nat) :
    (memcpy_inl (List.replicate (len + 8) 0) 8 bytes len).drop 8 =
      (List.range len).map fun i => bytes.getD i 0 := by
  rw [← memcpy_inl_payload]
  symm
  apply List.take_of_length_le
  simp [memcpy_inl]

theorem proxy_enqueued (W : Nat) (hW : 0 < W) (w w1 : World) (q : List Nat) (cmd : Int)
    (source mp target rel : Nat) (spec : List ErlDrvTermData) (n : Nat) (ok : Bool)
    (hq : Queue w q) (hmp : mp ≠ 0) (hnq : mp ∉ q) (hn : n ≤ spec.length)
    (hw1 : w1 = (dthread_send { w with mem := (Function.update w.mem mp
      (proxy_message cmd mp target rel (spec_bytes W spec) (n * W))) } source mp ok).1) :
    Queue w1 (q ++ [mp]) ∧ (w1.mem mp).cmd = cmd ∧ (w1.mem mp).to_ = target ∧
    (w1.mem mp).release = rel ∧ (w1.mem mp).source = source ∧
    payload_bytes w1.mem mp = spec_bytes W (spec.take n) ∧
    payload_words W w1.mem mp = (spec.take n).map (word_norm W) ∧
    (rel = 0 → dmessage_free_run W w1.mem mp = [Call.driver_free_msg mp]) ∧
    (rel = release_spec_5_fn → 5 < n →
      dmessage_free_run W w1.mem mp =
        [Call.driver_free_buf (BufPtr.ext (word_norm W (spec.getD 5 0)).toNat),
         Call.driver_free_msg mp]) ∧
    (rel = release_spec_5_8_fn → 8 < n →
      dmessage_free_run W w1.mem mp =
        [Call.driver_free_buf (BufPtr.ext (word_norm W (spec.getD 5 0)).toNat),
         Call.driver_free_buf (BufPtr.ext (word_norm W (spec.getD 8 0)).toNat),
         Call.driver_free_msg mp]) := by
  obtain ⟨h1, h2⟩ := enqueue_fresh w q source mp
    (proxy_message cmd mp target rel (spec_bytes W spec) (n * W)) ok hq hmp hnq
  rw [← hw1] at h1 h2
  have hp := payload_words_proxy W hW w1.mem mp _ spec n hn h2 rfl rfl rfl
  have hdrop : ((w1.mem mp).data.drop 8) = spec_bytes W (spec.take n) := by
    rw [h2]
    show (memcpy_inl (List.replicate (n * W + 8) 0) 8 (spec_bytes W spec) (n * W)).drop 8 = _
    rw [memcpy_inl_drop, take_eq_map_range_nat, spec_bytes_take]
    rw [spec_bytes_length]; exact Nat.mul_le_mul_right W hn
  have hget : ∀ i, i < n → (spec.take n).getD i 0 = spec.getD i 0 := by
    intro i hi
    simp [List.getD_eq_getElem?_getD, List.getElem?_take, hi]
  refine ⟨h1, by rw [h2]; rfl, by rw [h2]; rfl, by rw [h2]; rfl, by rw [h2], hp.1, hp.2,
    ?_, ?_, ?_⟩
  · intro hr
    exact free_run_inline W w1.mem mp _ (n * W) h2 rfl rfl hr
  · intro hr h5
    have := free_run_spec_5 W w1.mem mp (w1.mem mp) (spec.take n) rfl (by rw [h2]; rfl)
      (by rw [h2]; exact hr) (by rw [List.length_take]; omega) hdrop
    rw [hget 5 h5] at this
    exact this
  · intro hr h8
    have := free_run_spec_5_8 W w1.mem mp (w1.mem mp) (spec.take n) rfl (by rw [h2]; rfl)
      (by rw [h2]; exact hr) (by rw [List.length_take]; omega) hdrop
    rw [hget 5 (by omega), hget 8 h8] at this
    exact this

theorem send_term_smp (cfg : Config) (W : Nat) (pw : PortWorld) (source target : Nat)
    (spec : List ErlDrvTermData) (len : Nat) (a : Option Nat) (res : Int) (ok : Bool)
    (hs : pw.w.thr.smp_support ≠ 0) :
    dthread_port_send_term cfg W pw source target spec len a res ok =
      some ({ pw with delivered := pw.delivered ++ [(pw.w.thr.port, target, spec.take len)] },
        res) := by
  simp [dthread_port_send_term, hs]

theorem send_term_unfold (cfg : Config) (W : Nat) (pw : PortWorld) (source target : Nat)
    (spec : List ErlDrvTermData) (len mp : Nat) (res : Int) (ok : Bool)
    (hs : pw.w.thr.smp_support = 0) (hmp : mp ≠ 0) :
    dthread_port_send_term cfg W pw source target spec len (some mp) res ok =
      some ({ pw with w := (dthread_send { pw.w with mem := (Function.update pw.w.mem mp
          (proxy_message cfg.DTHREAD_SEND_TERM mp target 0 (spec_bytes W spec) (len * W))) }
          source mp ok).1 },
        (dthread_send { pw.w with mem := (Function.update pw.w.mem mp
          (proxy_message cfg.DTHREAD_SEND_TERM mp target 0 (spec_bytes W spec) (len * W))) }
          source mp ok).2) := by
  simp [dthread_port_send_term, hs, create_at _ _ _ _ _ _ hmp, hmp, proxy_message]

theorem send_term_null (cfg : Config) (W : Nat) (pw : PortWorld) (source target : Nat)
    (spec : List ErlDrvTermData) (len : Nat) (res : Int) (ok : Bool)
    (hs : pw.w.thr.smp_support = 0) :
    dthread_port_send_term cfg W pw source target spec len none res ok = none := by
  simp [dthread_port_send_term, hs, create_none]

theorem send_dterm_eq (cfg : Config) (W : Nat) (pw : PortWorld) (source target : Nat)
    (t : TermState) (a : Option Nat) (res : Int) (ok : Bool) :
    dthread_port_send_dterm cfg W pw source target t a res ok =
      dthread_port_send_term cfg W pw source target (dterm_memory t) (dterm_used_size t.p)
        a res ok := rfl

theorem output_smp (cfg : Config) (W : Nat) (host : Host) (pw : PortWorld)
    (source buf len : Nat) (a_copy a_msg : Option Nat) (res : Int) (ok : Bool)
    (hs : pw.w.thr.smp_support ≠ 0) :
    dthread_port_output cfg W host pw source buf len a_copy a_msg res ok =
      some ({ pw with delivered := pw.delivered ++ [(pw.w.thr.port, pw.w.thr.owner,
        [ERL_DRV_PORT, (pw.w.thr.dport : Int), ERL_DRV_ATOM, (host.driver_mk_atom "data" : Int),
         ERL_DRV_STRING, (buf : Int), (len : Int), ERL_DRV_TUPLE, 2, ERL_DRV_TUPLE, 2])] },
        res) := by
  simp [dthread_port_output, hs]

theorem output_unfold (cfg : Config) (W : Nat) (host : Host) (pw : PortWorld)
    (source buf len c mp : Nat) (res : Int) (ok : Bool)
    (hs : pw.w.thr.smp_support = 0) (hmp : mp ≠ 0) :
    dthread_port_output cfg W host pw source buf len (some c) (some mp) res ok =
      some ({ pw with
          w := (dthread_send { pw.w with mem := (Function.update pw.w.mem mp
            (proxy_message cfg.DTHREAD_SEND_TERM mp pw.w.thr.owner release_spec_5_fn
              (spec_bytes W [ERL_DRV_PORT, (pw.w.thr.dport : Int), ERL_DRV_ATOM,
                (host.driver_mk_atom "data" : Int), ERL_DRV_STRING, (c : Int), (len : Int),
                ERL_DRV_TUPLE, 2, ERL_DRV_TUPLE, 2]) (11 * W))) } source mp ok).1,
          bufs := (Function.update pw.bufs c
            ((List.range len).map fun i => (pw.bufs buf).getD i 0)) },
        (dthread_send { pw.w with mem := (Function.update pw.w.mem mp
            (proxy_message cfg.DTHREAD_SEND_TERM mp pw.w.thr.owner release_spec_5_fn
              (spec_bytes W [ERL_DRV_PORT, (pw.w.thr.dport : Int), ERL_DRV_ATOM,
                (host.driver_mk_atom "data" : Int), ERL_DRV_STRING, (c : Int), (len : Int),
                ERL_DRV_TUPLE, 2, ERL_DRV_TUPLE, 2]) (11 * W))) } source mp ok).2) := by
  simp [dthread_port_output, hs, copy_buffer, create_at _ _ _ _ _ _ hmp, hmp, proxy_message]

theorem output_null_msg (cfg : Config) (W : Nat) (host : Host) (pw : PortWorld)
    (source buf len : Nat) (a_copy : Option Nat) (res : Int) (ok : Bool)
    (hs : pw.w.thr.smp_support = 0) :
    dthread_port_output cfg W host pw source buf len a_copy none res ok = none := by
  cases a_copy with
  | none =>
    by_cases hl : len = 0 <;> simp [dthread_port_output, hs, copy_buffer, create_none, hl]
  | some c => simp [dthread_port_output, hs, copy_buffer, create_none]

theorem output_null_copy (cfg : Config) (W : Nat) (host : Host) (pw : PortWorld)
    (source buf len : Nat) (a_msg : Option Nat) (res : Int) (ok : Bool)
    (hs : pw.w.thr.smp_support = 0) (hl : len ≠ 0) :
    dthread_port_output cfg W host pw source buf len none a_msg res ok = none := by
  simp [dthread_port_output, hs, copy_buffer, hl]

theorem output2_spec_cases (dport am_data hbuf hlen buf len : Nat) :
    (len = 0 → output2_spec dport am_data hbuf hlen buf len =
      ([ERL_DRV_PORT, (dport : Int), ERL_DRV_ATOM, (am_data : Int), ERL_DRV_STRING,
        (hbuf : Int), (hlen : Int), ERL_DRV_TUPLE, 2, ERL_DRV_TUPLE, 2], false)) ∧
    (len ≠ 0 → hlen = 0 → output2_spec dport am_data hbuf hlen buf len =
      ([ERL_DRV_PORT, (dport : Int), ERL_DRV_ATOM, (am_data : Int), ERL_DRV_STRING,
        (buf : Int), (len : Int), ERL_DRV_TUPLE, 2, ERL_DRV_TUPLE, 2], false)) ∧
    (len ≠ 0 → hlen ≠ 0 → output2_spec dport am_data hbuf hlen buf len =
      ([ERL_DRV_PORT, (dport : Int), ERL_DRV_ATOM, (am_data : Int), ERL_DRV_STRING,
        (buf : Int), (len : Int), ERL_DRV_STRING_CONS, (hbuf : Int), (hlen : Int),
        ERL_DRV_TUPLE, 2, ERL_DRV_TUPLE, 2], true)) := by
  refine ⟨?_, ?_, ?_⟩
  · intro h; simp [output2_spec, h]
  · intro h1 h2; simp [output2_spec, h1, h2]
  · intro h1 h2; simp [output2_spec, h1, h2]

theorem output2_smp (cfg : Config) (W : Nat) (am_data : Nat) (pw : PortWorld)
    (source hbuf hlen buf len : Nat) (a_5 a_8 a_msg : Option Nat) (res : Int) (ok : Bool)
    (hs : pw.w.thr.smp_support ≠ 0) :
    dthread_port_output2 cfg W am_data pw source hbuf hlen buf len a_5 a_8 a_msg res ok =
      some ({ pw with delivered := pw.delivered ++ [(pw.w.thr.port, pw.w.thr.owner,
        (output2_spec pw.w.thr.dport am_data hbuf hlen buf len).1)] }, res) := by
  simp [dthread_port_output2, hs]

theorem output2_unfold_header (cfg : Config) (W : Nat) (am_data : Nat) (pw : PortWorld)
    (source hbuf hlen buf c5 mp : Nat) (a_8 : Option Nat) (res : Int) (ok : Bool)
    (hs : pw.w.thr.smp_support = 0) (hmp : mp ≠ 0) :
    dthread_port_output2 cfg W am_data pw source hbuf hlen buf 0 (some c5) a_8 (some mp) res ok =
      some ({ pw with
          w := (dthread_send { pw.w with mem := (Function.update pw.w.mem mp
            (proxy_message cfg.DTHREAD_SEND_TERM mp pw.w.thr.owner release_spec_5_fn
              (spec_bytes W [ERL_DRV_PORT, (pw.w.thr.dport : Int), ERL_DRV_ATOM,
                (am_data : Int), ERL_DRV_STRING, (c5 : Int), (hlen : Int),
                ERL_DRV_TUPLE, 2, ERL_DRV_TUPLE, 2]) (11 * W))) } source mp ok).1,
          bufs := (Function.update pw.bufs c5
            ((List.range hlen).map fun i => (pw.bufs hbuf).getD i 0)) },
        (dthread_send { pw.w with mem := (Function.update pw.w.mem mp
            (proxy_message cfg.DTHREAD_SEND_TERM mp pw.w.thr.owner release_spec_5_fn
              (spec_bytes W [ERL_DRV_PORT, (pw.w.thr.dport : Int), ERL_DRV_ATOM,
                (am_data : Int), ERL_DRV_STRING, (c5 : Int), (hlen : Int),
                ERL_DRV_TUPLE, 2, ERL_DRV_TUPLE, 2]) (11 * W))) } source mp ok).2) := by
  simp [dthread_port_output2, output2_spec, hs, copy_buffer, create_at _ _ _ _ _ _ hmp, hmp,
    proxy_message]

theorem output2_unfold_body (cfg : Config) (W : Nat) (am_data : Nat) (pw : PortWorld)
    (source hbuf buf len c5 mp : Nat) (a_8 : Option Nat) (res : Int) (ok : Bool)
    (hs : pw.w.thr.smp_support = 0) (hmp : mp ≠ 0) (hl : len ≠ 0) :
    dthread_port_output2 cfg W am_data pw source hbuf 0 buf len (some c5) a_8 (some mp) res ok =
      some ({ pw with
          w := (dthread_send { pw.w with mem := (Function.update pw.w.mem mp
            (proxy_message cfg.DTHREAD_SEND_TERM mp pw.w.thr.owner release_spec_5_fn
              (spec_bytes W [ERL_DRV_PORT, (pw.w.thr.dport : Int), ERL_DRV_ATOM,
                (am_data : Int), ERL_DRV_STRING, (c5 : Int), (len : Int),
                ERL_DRV_TUPLE, 2, ERL_DRV_TUPLE, 2]) (11 * W))) } source mp ok).1,
          bufs := (Function.update pw.bufs c5
            ((List.range len).map fun i => (pw.bufs buf).getD i 0)) },
        (dthread_send { pw.w with mem := (Function.update pw.w.mem mp
            (proxy_message cfg.DTHREAD_SEND_TERM mp pw.w.thr.owner release_spec_5_fn
              (spec_bytes W [ERL_DRV_PORT, (pw.w.thr.dport : Int), ERL_DRV_ATOM,
                (am_data : Int), ERL_DRV_STRING, (c5 : Int), (len : Int),
                ERL_DRV_TUPLE, 2, ERL_DRV_TUPLE, 2]) (11 * W))) } source mp ok).2) := by
  simp [dthread_port_output2, output2_spec, hs, copy_buffer, create_at _ _ _ _ _ _ hmp, hmp,
    proxy_message, hl]

theorem output2_unfold_both (cfg : Config) (W : Nat) (am_data : Nat) (pw : PortWorld)
    (source hbuf hlen buf len c5 c8 mp : Nat) (res : Int) (ok : Bool)
    (hs : pw.w.thr.smp_support = 0) (hmp : mp ≠ 0) (hl : len ≠ 0) (hh : hlen ≠ 0) :
    dthread_port_output2 cfg W am_data pw source hbuf hlen buf len (some c5) (some c8) (some mp)
        res ok =
      some ({ pw with
          w := (dthread_send { pw.w with mem := (Function.update pw.w.mem mp
            (proxy_message cfg.DTHREAD_SEND_TERM mp pw.w.thr.owner release_spec_5_8_fn
              (spec_bytes W [ERL_DRV_PORT, (pw.w.thr.dport : Int), ERL_DRV_ATOM,
                (am_data : Int), ERL_DRV_STRING, (c5 : Int), (len : Int),
                ERL_DRV_STRING_CONS, (c8 : Int), (hlen : Int),
                ERL_DRV_TUPLE, 2, ERL_DRV_TUPLE, 2]) (14 * W))) } source mp ok).1,
          bufs := (Function.update
            (Function.update pw.bufs c5 ((List.range len).map fun i => (pw.bufs buf).getD i 0))
            c8 ((List.range hlen).map fun i =>
              ((Function.update pw.bufs c5
                ((List.range len).map fun i => (pw.bufs buf).getD i 0)) hbuf).getD i 0)) },
        (dthread_send { pw.w with mem := (Function.update pw.w.mem mp
            (proxy_message cfg.DTHREAD_SEND_TERM mp pw.w.thr.owner release_spec_5_8_fn
              (spec_bytes W [ERL_DRV_PORT, (pw.w.thr.dport : Int), ERL_DRV_ATOM,
                (am_data : Int), ERL_DRV_STRING, (c5 : Int), (len : Int),
                ERL_DRV_STRING_CONS, (c8 : Int), (hlen : Int),
                ERL_DRV_TUPLE, 2, ERL_DRV_TUPLE, 2]) (14 * W))) } source mp ok).2) := by
  unfold dthread_port_output2
  rw [(output2_spec_cases _ _ _ _ _ _).2.2 hl hh]
  simp [hs, copy_buffer, create_at _ _ _ _ _ _ hmp, hmp, proxy_message]

theorem output2_null_msg (cfg : Config) (W : Nat) (am_data : Nat) (pw : PortWorld)
    (source hbuf hlen buf len : Nat) (a_5 a_8 : Option Nat) (res : Int) (ok : Bool)
    (hs : pw.w.thr.smp_support = 0) :
    dthread_port_output2 cfg W am_data pw source hbuf hlen buf len a_5 a_8 none res ok =
      none := by
  by_cases hl : len = 0 <;> by_cases hh : hlen = 0 <;> cases a_5 <;> cases a_8 <;>
    simp [dthread_port_output2, output2_spec, hs, copy_buffer, create_none, hl, hh]

theorem map_word_norm_id (W : Nat) (l : List ErlDrvTermData)
    (h : ∀ v ∈ l, 0 ≤ v ∧ v < (256 : Int) ^ W) : l.map (word_norm W) = l := by
  induction l with
  | nil => rfl
  | cons a l ih =>
    have ha := h a (List.mem_cons_self a l)
    rw [List.map_cons, word_norm_id W a ha.1 ha.2,
      ih (fun v hv => h v (List.mem_cons_of_mem a hv))]

theorem send_term_proxied (cfg : Config) (W : Nat) (pw : PortWorld) (q : List Nat)
    (source target : Nat) (spec : List ErlDrvTermData) (len mp : Nat) (res : Int) (ok : Bool)
    (hW : 0 < W) (hq : Queue pw.w q) (hmp : mp ≠ 0) (hnq : mp ∉ q) (hlen : len ≤ spec.length)
    (hs : pw.w.thr.smp_support = 0) :
    ∃ pw1 r, dthread_port_send_term cfg W pw source target spec len (some mp) res ok =
        some (pw1, r) ∧
      pw1.delivered = pw.delivered ∧ pw1.bufs = pw.bufs ∧ Queue pw1.w (q ++ [mp]) ∧
      (pw1.w.mem mp).cmd = cfg.DTHREAD_SEND_TERM ∧ (pw1.w.mem mp).to_ = target ∧
      payload_words W pw1.w.mem mp = (spec.take len).map (word_norm W) ∧
      dmessage_free_run W pw1.w.mem mp = [Call.driver_free_msg mp] := by
  obtain ⟨h1, h2, h3, _, _, _, h7, h8, _, _⟩ := proxy_enqueued W hW pw.w _ q
    cfg.DTHREAD_SEND_TERM source mp target 0 spec len ok hq hmp hnq hlen rfl
  exact ⟨_, _, send_term_unfold cfg W pw source target spec len mp res ok hs hmp, rfl, rfl,
    h1, h2, h3, h7, h8 rfl⟩

theorem output_proxied (cfg : Config) (W : Nat) (host : Host) (pw : PortWorld) (q : List Nat)
    (source buf len c mp : Nat) (res : Int) (ok : Bool)
    (hW : 0 < W) (hq : Queue pw.w q) (hmp : mp ≠ 0) (hnq : mp ∉ q)
    (hb : len ≤ (pw.bufs buf).length) (hs : pw.w.thr.smp_support = 0) :
    ∃ pw1 r, dthread_port_output cfg W host pw source buf len (some c) (some mp) res ok =
        some (pw1, r) ∧
      pw1.delivered = pw.delivered ∧ Queue pw1.w (q ++ [mp]) ∧
      (pw1.w.mem mp).cmd = cfg.DTHREAD_SEND_TERM ∧ (pw1.w.mem mp).to_ = pw.w.thr.owner ∧
      payload_words W pw1.w.mem mp =
        [ERL_DRV_PORT, (pw.w.thr.dport : Int), ERL_DRV_ATOM, (host.driver_mk_atom "data" : Int),
         ERL_DRV_STRING, (c : Int), (len : Int), ERL_DRV_TUPLE, 2, ERL_DRV_TUPLE,
         2].map (word_norm W) ∧
      pw1.bufs c = (pw.bufs buf).take len ∧ (∀ x, x ≠ c → pw1.bufs x = pw.bufs x) ∧
      dmessage_free_run W pw1.w.mem mp =
        [Call.driver_free_buf (BufPtr.ext (word_norm W (c : Int)).toNat),
         Call.driver_free_msg mp] := by
  obtain ⟨h1, h2, h3, _, _, _, h7, _, h9, _⟩ := proxy_enqueued W hW pw.w _ q
    cfg.DTHREAD_SEND_TERM source mp pw.w.thr.owner release_spec_5_fn
    [ERL_DRV_PORT, (pw.w.thr.dport : Int), ERL_DRV_ATOM, (host.driver_mk_atom "data" : Int),
     ERL_DRV_STRING, (c : Int), (len : Int), ERL_DRV_TUPLE, 2, ERL_DRV_TUPLE, 2] 11 ok
    hq hmp hnq (by simp) rfl
  refine ⟨_, _, output_unfold cfg W host pw source buf len c mp res ok hs hmp, rfl, h1, h2, h3,
    h7, ?_, ?_, h9 rfl (by decide)⟩
  · show Function.update pw.bufs c _ c = _
    rw [Function.update_same, take_eq_map_range_nat _ _ hb]
  · intro x hx
    show Function.update pw.bufs c _ x = _
    rw [Function.update_noteq hx]

theorem output2_proxied_header (cfg : Config) (W : Nat) (am_data : Nat) (pw : PortWorld)
    (q : List Nat) (source hbuf hlen buf c5 mp : Nat) (a_8 : Option Nat) (res : Int) (ok : Bool)
    (hW : 0 < W) (hq : Queue pw.w q) (hmp : mp ≠ 0) (hnq : mp ∉ q)
    (hb : hlen ≤ (pw.bufs hbuf).length) (hs : pw.w.thr.smp_support = 0) :
    ∃ pw1 r, dthread_port_output2 cfg W am_data pw source hbuf hlen buf 0 (some c5) a_8
        (some mp) res ok = some (pw1, r) ∧
      pw1.delivered = pw.delivered ∧ Queue pw1.w (q ++ [mp]) ∧
      (pw1.w.mem mp).cmd = cfg.DTHREAD_SEND_TERM ∧ (pw1.w.mem mp).to_ = pw.w.thr.owner ∧
      payload_words W pw1.w.mem mp =
        [ERL_DRV_PORT, (pw.w.thr.dport : Int), ERL_DRV_ATOM, (am_data : Int),
         ERL_DRV_STRING, (c5 : Int), (hlen : Int), ERL_DRV_TUPLE, 2, ERL_DRV_TUPLE,
         2].map (word_norm W) ∧
      pw1.bufs c5 = (pw.bufs hbuf).take hlen ∧ (∀ x, x ≠ c5 → pw1.bufs x = pw.bufs x) ∧
      dmessage_free_run W pw1.w.mem mp =
        [Call.driver_free_buf (BufPtr.ext (word_norm W (c5 : Int)).toNat),
         Call.driver_free_msg mp] := by
  obtain ⟨h1, h2, h3, _, _, _, h7, _, h9, _⟩ := proxy_enqueued W hW pw.w _ q
    cfg.DTHREAD_SEND_TERM source mp pw.w.thr.owner release_spec_5_fn
    [ERL_DRV_PORT, (pw.w.thr.dport : Int), ERL_DRV_ATOM, (am_data : Int),
     ERL_DRV_STRING, (c5 : Int), (hlen : Int), ERL_DRV_TUPLE, 2, ERL_DRV_TUPLE, 2] 11 ok
    hq hmp hnq (by simp) rfl
  refine ⟨_, _, output2_unfold_header cfg W am_data pw source hbuf hlen buf c5 mp a_8 res ok
    hs hmp, rfl, h1, h2, h3, h7, ?_, ?_, h9 rfl (by decide)⟩
  · show Function.update pw.bufs c5 _ c5 = _
    rw [Function.update_same, take_eq_map_range_nat _ _ hb]
  · intro x hx
    show Function.update pw.bufs c5 _ x = _
    rw [Function.update_noteq hx]

theorem output2_proxied_body (cfg : Config) (W : Nat) (am_data : Nat) (pw : PortWorld)
    (q : List Nat) (source hbuf buf len c5 mp : Nat) (a_8 : Option Nat) (res : Int) (ok : Bool)
    (hW : 0 < W) (hq : Queue pw.w q) (hmp : mp ≠ 0) (hnq : mp ∉ q)
    (hb : len ≤ (pw.bufs buf).length) (hs : pw.w.thr.smp_support = 0) (hl : len ≠ 0) :
    ∃ pw1 r, dthread_port_output2 cfg W am_data pw source hbuf 0 buf len (some c5) a_8
        (some mp) res ok = some (pw1, r) ∧
      pw1.delivered = pw.delivered ∧ Queue pw1.w (q ++ [mp]) ∧
      (pw1.w.mem mp).cmd = cfg.DTHREAD_SEND_TERM ∧ (pw1.w.mem mp).to_ = pw.w.thr.owner ∧
      payload_words W pw1.w.mem mp =
        [ERL_DRV_PORT, (pw.w.thr.dport : Int), ERL_DRV_ATOM, (am_data : Int),
         ERL_DRV_STRING, (c5 : Int), (len : Int), ERL_DRV_TUPLE, 2, ERL_DRV_TUPLE,
         2].map (word_norm W) ∧
      pw1.bufs c5 = (pw.bufs buf).take len ∧ (∀ x, x ≠ c5 → pw1.bufs x = pw.bufs x) ∧
      dmessage_free_run W pw1.w.mem mp =
        [Call.driver_free_buf (BufPtr.ext (word_norm W (c5 : Int)).toNat),
         Call.driver_free_msg mp] := by
  obtain ⟨h1, h2, h3, _, _, _, h7, _, h9, _⟩ := proxy_enqueued W hW pw.w _ q
    cfg.DTHREAD_SEND_TERM source mp pw.w.thr.owner release_spec_5_fn
    [ERL_DRV_PORT, (pw.w.thr.dport : Int), ERL_DRV_ATOM, (am_data : Int),
     ERL_DRV_STRING, (c5 : Int), (len : Int), ERL_DRV_TUPLE, 2, ERL_DRV_TUPLE, 2] 11 ok
    hq hmp hnq (by simp) rfl
  refine ⟨_, _, output2_unfold_body cfg W am_data pw source hbuf buf len c5 mp a_8 res ok
    hs hmp hl, rfl, h1, h2, h3, h7, ?_, ?_, h9 rfl (by decide)⟩
  · show Function.update pw.bufs c5 _ c5 = _
    rw [Function.update_same, take_eq_map_range_nat _ _ hb]
  · intro x hx
    show Function.update pw.bufs c5 _ x = _
    rw [Function.update_noteq hx]

theorem output2_proxied_both (cfg : Config) (W : Nat) (am_data : Nat) (pw : PortWorld)
    (q : List Nat) (source hbuf hlen buf len c5 c8 mp : Nat) (res : Int) (ok : Bool)
    (hW : 0 < W) (hq : Queue pw.w q) (hmp : mp ≠ 0) (hnq : mp ∉ q)
    (hb : len ≤ (pw.bufs buf).length) (hhb : hlen ≤ (pw.bufs hbuf).length)
    (hs : pw.w.thr.smp_support = 0) (hl : len ≠ 0) (hh : hlen ≠ 0)
    (hc : c5 ≠ c8) (hch : c5 ≠ hbuf) :
    ∃ pw1 r, dthread_port_output2 cfg W am_data pw source hbuf hlen buf len (some c5) (some c8)
        (some mp) res ok = some (pw1, r) ∧
      pw1.delivered = pw.delivered ∧ Queue pw1.w (q ++ [mp]) ∧
      (pw1.w.mem mp).cmd = cfg.DTHREAD_SEND_TERM ∧ (pw1.w.mem mp).to_ = pw.w.thr.owner ∧
      payload_words W pw1.w.mem mp =
        [ERL_DRV_PORT, (pw.w.thr.dport : Int), ERL_DRV_ATOM, (am_data : Int),
         ERL_DRV_STRING, (c5 : Int), (len : Int), ERL_DRV_STRING_CONS, (c8 : Int), (hlen : Int),
         ERL_DRV_TUPLE, 2, ERL_DRV_TUPLE, 2].map (word_norm W) ∧
      pw1.bufs c5 = (pw.bufs buf).take len ∧ pw1.bufs c8 = (pw.bufs hbuf).take hlen ∧
      (∀ x, x ≠ c5 → x ≠ c8 → pw1.bufs x = pw.bufs x) ∧
      dmessage_free_run W pw1.w.mem mp =
        [Call.driver_free_buf (BufPtr.ext (word_norm W (c5 : Int)).toNat),
         Call.driver_free_buf (BufPtr.ext (word_norm W (c8 : Int)).toNat),
         Call.driver_free_msg mp] := by
  obtain ⟨h1, h2, h3, _, _, _, h7, _, _, h10⟩ := proxy_enqueued W hW pw.w _ q
    cfg.DTHREAD_SEND_TERM source mp pw.w.thr.owner release_spec_5_8_fn
    [ERL_DRV_PORT, (pw.w.thr.dport : Int), ERL_DRV_ATOM, (am_data : Int),
     ERL_DRV_STRING, (c5 : Int), (len : Int), ERL_DRV_STRING_CONS, (c8 : Int), (hlen : Int),
     ERL_DRV_TUPLE, 2, ERL_DRV_TUPLE, 2] 14 ok
    hq hmp hnq (by simp) rfl
  refine ⟨_, _, output2_unfold_both cfg W am_data pw source hbuf hlen buf len c5 c8 mp res ok
    hs hmp hl hh, rfl, h1, h2, h3, h7, ?_, ?_, ?_, h10 rfl (by decide)⟩
  · show Function.update (Function.update pw.bufs c5 _) c8 _ c5 = _
    rw [Function.update_noteq hc, Function.update_same, take_eq_map_range_nat _ _ hb]
  · show Function.update (Function.update pw.bufs c5 _) c8 _ c8 = _
    rw [Function.update_same, Function.update_noteq (Ne.symm hch),
      take_eq_map_range_nat _ _ hhb]
  · intro x hx5 hx8
    show Function.update (Function.update pw.bufs c5 _) c8 _ x = _
    rw [Function.update_noteq hx8, Function.update_noteq hx5]

theorem port_data_term (bufs : Nat → List Nat) (dport am_data buf len : Nat) :
    driver_term bufs [ERL_DRV_PORT, (dport : Int), ERL_DRV_ATOM, (am_data : Int),
      ERL_DRV_STRING, (buf : Int), (len : Int), ERL_DRV_TUPLE, 2, ERL_DRV_TUPLE, 2] =
    some (ETerm.tuple [ETerm.port dport,
      ETerm.tuple [ETerm.atom am_data, ETerm.str ((bufs buf).take len)]]) := by
  rfl

theorem port_data_cons_term (bufs : Nat → List Nat) (dport am_data hbuf hlen buf len : Nat) :
    driver_term bufs [ERL_DRV_PORT, (dport : Int), ERL_DRV_ATOM, (am_data : Int),
      ERL_DRV_STRING, (buf : Int), (len : Int), ERL_DRV_STRING_CONS, (hbuf : Int), (hlen : Int),
      ERL_DRV_TUPLE, 2, ERL_DRV_TUPLE, 2] =
    some (ETerm.tuple [ETerm.port dport,
      ETerm.tuple [ETerm.atom am_data,
        ETerm.str ((bufs hbuf).take hlen ++ (bufs buf).take len)]]) := by
  rfl

theorem poll_select_once (w : World) (events : Option (List dthread_poll_event_t))
    (nevents : Option Nat) (timeout : Int)
    (select : List Int → List Int → Option (Int × Int) → SelectResult) :
    dthread_poll w events nevents timeout select =
      dthread_poll w events nevents timeout (fun _ _ _ =>
        select (poll_fdsets w events nevents).1 (poll_fdsets w events nevents).2
          (poll_timeval timeout)) := by
  rcases events with _ | es <;> rcases nevents with _ | _ | n <;>
    simp [dthread_poll, poll_fdsets]

theorem poll_const (w : World) (events : Option (List dthread_poll_event_t))
    (nevents : Option Nat) (timeout : Int) (sel : SelectResult) :
    (dthread_poll w events nevents timeout (fun _ _ _ => sel)).1 = w ∧
    (sel.ready ≤ 0 →
      (dthread_poll w events nevents timeout (fun _ _ _ => sel)).2.2.2 = sel.ready ∧
      (dthread_poll w events nevents timeout (fun _ _ _ => sel)).2.2.1 =
        nevents.map (fun _ => 0) ∧
      ∀ es n, events = some es → nevents = some n →
        ∃ es1, (dthread_poll w events nevents timeout (fun _ _ _ => sel)).2.1 = some es1 ∧
          es1.length = es.length ∧ ∀ e ∈ es1.take n, e.revents = 0) ∧
    (0 < sel.ready →
      (dthread_poll w events nevents timeout (fun _ _ _ => sel)).2.2.2 =
        if sel.readfds w.thr.iq_signal_0 then w.thr.iq_len else 0) := by
  refine ⟨?_, ?_, ?_⟩
  · rcases events with _ | es <;> rcases nevents with _ | _ | n <;>
      by_cases h1 : sel.ready ≤ 0 <;> by_cases h2 : sel.readfds w.thr.iq_signal_0 = true <;>
      by_cases h3 : sel.ready - 1 = 0 <;> by_cases h4 : sel.ready = 0 <;>
      simp [dthread_poll, h1, h2, h3, h4]
  · intro h1
    refine ⟨?_, ?_, ?_⟩
    · rcases events with _ | es <;> rcases nevents with _ | _ | n <;>
        simp [dthread_poll, h1]
    · rcases events with _ | es <;> rcases nevents with _ | _ | n <;>
        simp [dthread_poll, h1]
    · intro es n he hn
      subst he hn
      rcases n with _ | n
      · exact ⟨es, by simp [dthread_poll, h1], rfl, by simp⟩
      · refine ⟨poll_clear (es.take (n + 1)) ++ es.drop (n + 1), by simp [dthread_poll, h1],
          ?_, ?_⟩
        · simp [poll_clear]
          omega
        · intro e he
          rw [List.take_append_eq_append_take] at he
          rcases List.mem_append.1 he with he | he
          · have he1 := List.mem_of_mem_take he
            unfold poll_clear at he1
            obtain ⟨a, _, ha⟩ := List.mem_map.1 he1
            rw [← ha]
          · exfalso
            by_cases hlen : n + 1 ≤ es.length
            · have : (poll_clear (es.take (n + 1))).length = n + 1 := by
                simp [poll_clear]; omega
              rw [this] at he
              simp at he
            · have : es.drop (n + 1) = [] := List.drop_eq_nil_of_le (by omega)
              rw [this] at he
              simp at he
  · intro h1
    have h1n : ¬ sel.ready ≤ 0 := not_le.mpr h1
    rcases events with _ | es <;> rcases nevents with _ | _ | n <;>
      by_cases h2 : sel.readfds w.thr.iq_signal_0 = true <;>
      by_cases h3 : sel.ready - 1 = 0 <;> by_cases h4 : sel.ready = 0 <;>
      first | (exfalso; omega) | simp [dthread_poll, h1n, h2, h3, h4]
/-! ## Lemmas on the status replies -/

/-- C12: `dthread_port_output` builds the 11 words `[PORT, dport, ATOM, data,
STRING, address, len, TUPLE, 2, TUPLE, 2]`, which `driver_send_term` reads as
`(port, (data, Payload))` with `Payload` the `len` bytes at `buf`. With SMP
support the words go to `driver_send_term` with the address `buf`; without it
they are the payload of the queued message (each word read back as an unsigned
word of `W` bytes) with the address of the copy `c`, whose `len` bytes are
those at `buf`, so that they stand for the same term. -/
theorem port_output_wire_shape (cfg : Config) (W : Nat) (host : Host) (pw : PortWorld)
    (q : List Nat) (source buf len c mp : Nat) (res : Int) (ok : Bool)
    (hW : 0 < W) (hq : Queue pw.w q) (hmp : mp ≠ 0) (hnq : mp ∉ q)
    (hb : len ≤ (pw.bufs buf).length) :
    (pw.w.thr.smp_support ≠ 0 → ∀ a_copy a_msg,
      dthread_port_output cfg W host pw source buf len a_copy a_msg res ok =
        some ({ pw with delivered := pw.delivered ++ [(pw.w.thr.port, pw.w.thr.owner,
          [ERL_DRV_PORT, (pw.w.thr.dport : Int), ERL_DRV_ATOM,
           (host.driver_mk_atom "data" : Int), ERL_DRV_STRING, (buf : Int), (len : Int),
           ERL_DRV_TUPLE, 2, ERL_DRV_TUPLE, 2])] }, res)) ∧
    driver_term pw.bufs [ERL_DRV_PORT, (pw.w.thr.dport : Int), ERL_DRV_ATOM,
        (host.driver_mk_atom "data" : Int), ERL_DRV_STRING, (buf : Int), (len : Int),
        ERL_DRV_TUPLE, 2, ERL_DRV_TUPLE, 2] =
      some (ETerm.tuple [ETerm.port pw.w.thr.dport,
        ETerm.tuple [ETerm.atom (host.driver_mk_atom "data"),
          ETerm.str ((pw.bufs buf).take len)]]) ∧
    (pw.w.thr.smp_support = 0 →
      ∃ pw1 r, dthread_port_output cfg W host pw source buf len (some c) (some mp) res ok =
          some (pw1, r) ∧
        payload_words W pw1.w.mem mp =
          [ERL_DRV_PORT, (pw.w.thr.dport : Int), ERL_DRV_ATOM,
           (host.driver_mk_atom "data" : Int), ERL_DRV_STRING, (c : Int), (len : Int),
           ERL_DRV_TUPLE, 2, ERL_DRV_TUPLE, 2].map (word_norm W) ∧
        pw1.bufs c = (pw.bufs buf).take len ∧
        driver_term pw1.bufs [ERL_DRV_PORT, (pw.w.thr.dport : Int), ERL_DRV_ATOM,
            (host.driver_mk_atom "data" : Int), ERL_DRV_STRING, (c : Int), (len : Int),
            ERL_DRV_TUPLE, 2, ERL_DRV_TUPLE, 2] =
          some (ETerm.tuple [ETerm.port pw.w.thr.dport,
            ETerm.tuple [ETerm.atom (host.driver_mk_atom "data"),
              ETerm.str ((pw.bufs buf).take len)]])) := by
  refine ⟨?_, port_data_term _ _ _ _ _, ?_⟩
  · intro hs a_copy a_msg
    exact output_smp cfg W host pw source buf len a_copy a_msg res ok hs
  · intro hs
    obtain ⟨pw1, r, h1, _, _, _, _, h6, h7, _⟩ := output_proxied cfg W host pw q source buf len
      c mp res ok hW hq hmp hnq hb hs
    refine ⟨pw1, r, h1, h6, h7, ?_⟩
    rw [port_data_term, h7, List.take_take, Nat.min_self]

/-- Example for C12: three of the five bytes at address 1000 are sent through
the channel without SMP support; the copy is the block at address 2000, the
message the block at address 60. -/
theorem port_output_wire_shape_witness :
    0 < 8 ∧ Queue port_world.w [] ∧ 60 ≠ 0 ∧ 60 ∉ ([] : List Nat) ∧
    3 ≤ (port_world.bufs 1000).length ∧
    ∃ pw1 r, dthread_port_output cfg0 8 host0 port_world 9 1000 3 (some 2000) (some 60) 1 true =
        some (pw1, r) ∧
      payload_words 8 pw1.w.mem 60 = [4, 107, 2, 4, 6, 2000, 3, 7, 2, 7, 2] ∧
      pw1.bufs 2000 = [1, 2, 3] := by
  obtain ⟨_, _, h3⟩ := port_output_wire_shape cfg0 8 host0 port_world [] 9 1000 3 2000 60 1 true
    (by decide) (Queue_empty _ ⟨rfl, rfl, rfl⟩) (by decide) (by simp) (by decide)
  obtain ⟨pw1, r, h4, h5, h6, _⟩ := h3 rfl
  exact ⟨by decide, Queue_empty _ ⟨rfl, rfl, rfl⟩, by decide, by simp, by decide,
    pw1, r, h4, by rw [h5]; decide, by rw [h6]; decide⟩

/-- C13: the term array of `dthread_port_output2` is, for `len = 0`, the 11
words with the single string `(hbuf, hlen)`; for `len != 0` and `hlen = 0`,
the 11 words with the single string `(buf, len)`; for both non-zero, the 14
words with `STRING (buf, len)` followed by `STRING_CONS (hbuf, hlen)`. In
every case it ends with `TUPLE 2 TUPLE 2`, `driver_send_term` reads it as
`(port, (data, Payload))` with `Payload` the `hlen` header bytes followed by
the `len` body bytes, and with SMP support it is what `driver_send_term` is
given. `dthread_port_output_binary` is the same call on
`bin->orig_bytes + offset`. -/
theorem header_body_payload (cfg : Config) (W am_data : Nat) (pw : PortWorld)
    (source hbuf hlen buf len : Nat) (a_5 a_8 a_msg : Option Nat) (res : Int) (ok : Bool) :
    (len = 0 → (output2_spec pw.w.thr.dport am_data hbuf hlen buf len).1 =
      [ERL_DRV_PORT, (pw.w.thr.dport : Int), ERL_DRV_ATOM, (am_data : Int), ERL_DRV_STRING,
       (hbuf : Int), (hlen : Int), ERL_DRV_TUPLE, 2, ERL_DRV_TUPLE, 2]) ∧
    (len ≠ 0 → hlen = 0 → (output2_spec pw.w.thr.dport am_data hbuf hlen buf len).1 =
      [ERL_DRV_PORT, (pw.w.thr.dport : Int), ERL_DRV_ATOM, (am_data : Int), ERL_DRV_STRING,
       (buf : Int), (len : Int), ERL_DRV_TUPLE, 2, ERL_DRV_TUPLE, 2]) ∧
    (len ≠ 0 → hlen ≠ 0 → (output2_spec pw.w.thr.dport am_data hbuf hlen buf len).1 =
      [ERL_DRV_PORT, (pw.w.thr.dport : Int), ERL_DRV_ATOM, (am_data : Int), ERL_DRV_STRING,
       (buf : Int), (len : Int), ERL_DRV_STRING_CONS, (hbuf : Int), (hlen : Int),
       ERL_DRV_TUPLE, 2, ERL_DRV_TUPLE, 2]) ∧
    (output2_spec pw.w.thr.dport am_data hbuf hlen buf len).1.drop
        ((output2_spec pw.w.thr.dport am_data hbuf hlen buf len).1.length - 4) =
      [ERL_DRV_TUPLE, 2, ERL_DRV_TUPLE, 2] ∧
    driver_term pw.bufs (output2_spec pw.w.thr.dport am_data hbuf hlen buf len).1 =
      some (ETerm.tuple [ETerm.port pw.w.thr.dport,
        ETerm.tuple [ETerm.atom am_data,
          ETerm.str ((pw.bufs hbuf).take hlen ++ (pw.bufs buf).take len)]]) ∧
    (pw.w.thr.smp_support ≠ 0 →
      dthread_port_output2 cfg W am_data pw source hbuf hlen buf len a_5 a_8 a_msg res ok =
        some ({ pw with delivered := pw.delivered ++ [(pw.w.thr.port, pw.w.thr.owner,
          (output2_spec pw.w.thr.dport am_data hbuf hlen buf len).1)] }, res)) ∧
    (∀ orig_bytes offset,
      dthread_port_output_binary cfg W am_data pw source hbuf hlen orig_bytes offset len
          a_5 a_8 a_msg res ok =
        dthread_port_output2 cfg W am_data pw source hbuf hlen (orig_bytes + offset) len
          a_5 a_8 a_msg res ok) ∧
    (pw.w.thr.smp_support = 0 → ∀ q c5 c8 mp, 0 < W → Queue pw.w q → mp ≠ 0 → mp ∉ q →
      len ≤ (pw.bufs buf).length → hlen ≤ (pw.bufs hbuf).length → len ≠ 0 → hlen ≠ 0 →
      c5 ≠ c8 → c5 ≠ hbuf →
      ∃ pw1 r, dthread_port_output2 cfg W am_data pw source hbuf hlen buf len (some c5)
          (some c8) (some mp) res ok = some (pw1, r) ∧
        payload_words W pw1.w.mem mp =
          [ERL_DRV_PORT, (pw.w.thr.dport : Int), ERL_DRV_ATOM, (am_data : Int),
           ERL_DRV_STRING, (c5 : Int), (len : Int), ERL_DRV_STRING_CONS, (c8 : Int),
           (hlen : Int), ERL_DRV_TUPLE, 2, ERL_DRV_TUPLE, 2].map (word_norm W) ∧
        driver_term pw1.bufs [ERL_DRV_PORT, (pw.w.thr.dport : Int), ERL_DRV_ATOM,
            (am_data : Int), ERL_DRV_STRING, (c5 : Int), (len : Int), ERL_DRV_STRING_CONS,
            (c8 : Int), (hlen : Int), ERL_DRV_TUPLE, 2, ERL_DRV_TUPLE, 2] =
          some (ETerm.tuple [ETerm.port pw.w.thr.dport,
            ETerm.tuple [ETerm.atom am_data,
              ETerm.str ((pw.bufs hbuf).take hlen ++ (pw.bufs buf).take len)]])) := by
  obtain ⟨c1, c2, c3⟩ := output2_spec_cases pw.w.thr.dport am_data hbuf hlen buf len
  refine ⟨fun h => by rw [c1 h], fun h1 h2 => by rw [c2 h1 h2], fun h1 h2 => by rw [c3 h1 h2],
    ?_, ?_, ?_, fun _ _ => rfl, ?_⟩
  · by_cases h1 : len = 0
    · rw [c1 h1]; rfl
    · by_cases h2 : hlen = 0
      · rw [c2 h1 h2]; rfl
      · rw [c3 h1 h2]; rfl
  · by_cases h1 : len = 0
    · rw [c1 h1, port_data_term, h1]; simp
    · by_cases h2 : hlen = 0
      · rw [c2 h1 h2, port_data_term, h2]; simp
      · rw [c3 h1 h2, port_data_cons_term]
  · intro hs
    exact output2_smp cfg W am_data pw source hbuf hlen buf len a_5 a_8 a_msg res ok hs
  · intro hs q c5 c8 mp hW hq hmp hnq hb hhb hl hh hc hch
    obtain ⟨pw1, r, h1, _, _, _, _, h6, h7, h8, _⟩ := output2_proxied_both cfg W am_data pw q
      source hbuf hlen buf len c5 c8 mp res ok hW hq hmp hnq hb hhb hs hl hh hc hch
    refine ⟨pw1, r, h1, h6, ?_⟩
    rw [port_data_cons_term, h7, h8, List.take_take, List.take_take, Nat.min_self,
      Nat.min_self]

/-- Example for C13: the two header bytes at address 1100 and three of the body
bytes at address 1000 go through the channel without SMP support. -/
theorem header_body_payload_witness :
    (output2_spec 107 4 1100 2 1000 3).1 = [4, 107, 2, 4, 6, 1000, 3, 9, 1100, 2, 7, 2, 7, 2] ∧
    driver_term port_world.bufs (output2_spec 107 4 1100 2 1000 3).1 =
      some (ETerm.tuple [ETerm.port 107, ETerm.tuple [ETerm.atom 4,
        ETerm.str [8, 9, 1, 2, 3]]]) ∧
    ∃ pw1 r, dthread_port_output2 cfg0 8 4 port_world 9 1100 2 1000 3 (some 2000) (some 2100)
        (some 60) 1 true = some (pw1, r) ∧
      payload_words 8 pw1.w.mem 60 = [4, 107, 2, 4, 6, 2000, 3, 9, 2100, 2, 7, 2, 7, 2] ∧
      driver_term pw1.bufs [4, 107, 2, 4, 6, 2000, 3, 9, 2100, 2, 7, 2, 7, 2] =
        some (ETerm.tuple [ETerm.port 107, ETerm.tuple [ETerm.atom 4,
          ETerm.str [8, 9, 1, 2, 3]]]) := by
  obtain ⟨_, _, h3, _, h5, _, _, h8⟩ := header_body_payload cfg0 8 4 port_world 9 1100 2 1000 3
    (some 2000) (some 2100) (some 60) 1 true
  obtain ⟨pw1, r, h9, h10, h11⟩ := h8 rfl [] 2000 2100 60 (by decide)
    (Queue_empty _ ⟨rfl, rfl, rfl⟩) (by decide) (by simp) (by decide) (by decide) (by decide)
    (by decide) (by decide) (by decide)
  exact ⟨h3 (by decide) (by decide), h5, pw1, r, h9, by rw [h10]; decide, h11⟩

/-- C14: with SMP support `dthread_port_send_term`, `dthread_port_send_dterm`
and `dthread_port_output` pass the `len` words and the target to
`driver_send_term`, return its result and leave the channel world (queue,
`iq_len`, pipe, byte memory) as it was. Without it they call no delivery
primitive and queue exactly one message with command `DTHREAD_SEND_TERM`,
`to = target` and a payload of the same `len` words (each read back as an
unsigned word of `W` bytes; unchanged when it is such a value), except that in
`dthread_port_output` word 5 is the address of the fresh copy `c`, whose `len`
bytes are those at `buf`. The spec memory holds at least `len` words, the
caller's buffer at least `blen` bytes, and both allocations succeed. -/
theorem direct_and_proxied_same_term (cfg : Config) (W : Nat) (host : Host) (pw : PortWorld)
    (q : List Nat) (source target : Nat) (spec : List ErlDrvTermData) (len : Nat)
    (t : TermState) (buf blen c mp : Nat) (res : Int) (ok : Bool)
    (hW : 0 < W) (hq : Queue pw.w q) (hmp : mp ≠ 0) (hnq : mp ∉ q) (hlen : len ≤ spec.length)
    (hb : blen ≤ (pw.bufs buf).length) :
    (pw.w.thr.smp_support ≠ 0 →
      (∀ a, dthread_port_send_term cfg W pw source target spec len a res ok =
        some ({ pw with delivered := pw.delivered ++ [(pw.w.thr.port, target, spec.take len)] },
          res)) ∧
      (∀ a, dthread_port_send_dterm cfg W pw source target t a res ok =
        some ({ pw with delivered := pw.delivered ++
          [(pw.w.thr.port, target, (dterm_memory t).take (dterm_used_size t.p))] }, res)) ∧
      (∀ a_copy a_msg, dthread_port_output cfg W host pw source buf blen a_copy a_msg res ok =
        some ({ pw with delivered := pw.delivered ++ [(pw.w.thr.port, pw.w.thr.owner,
          [ERL_DRV_PORT, (pw.w.thr.dport : Int), ERL_DRV_ATOM,
           (host.driver_mk_atom "data" : Int), ERL_DRV_STRING, (buf : Int), (blen : Int),
           ERL_DRV_TUPLE, 2, ERL_DRV_TUPLE, 2])] }, res))) ∧
    (pw.w.thr.smp_support = 0 →
      (∃ pw1 r, dthread_port_send_term cfg W pw source target spec len (some mp) res ok =
          some (pw1, r) ∧
        pw1.delivered = pw.delivered ∧ pw1.bufs = pw.bufs ∧ Queue pw1.w (q ++ [mp]) ∧
        (pw1.w.mem mp).cmd = cfg.DTHREAD_SEND_TERM ∧ (pw1.w.mem mp).to_ = target ∧
        payload_words W pw1.w.mem mp = (spec.take len).map (word_norm W) ∧
        ((∀ v ∈ spec.take len, 0 ≤ v ∧ v < (256 : Int) ^ W) →
          payload_words W pw1.w.mem mp = spec.take len)) ∧
      dthread_port_send_dterm cfg W pw source target t (some mp) res ok =
        dthread_port_send_term cfg W pw source target (dterm_memory t) (dterm_used_size t.p)
          (some mp) res ok ∧
      (∃ pw1 r, dthread_port_output cfg W host pw source buf blen (some c) (some mp) res ok =
          some (pw1, r) ∧
        pw1.delivered = pw.delivered ∧ Queue pw1.w (q ++ [mp]) ∧
        (pw1.w.mem mp).cmd = cfg.DTHREAD_SEND_TERM ∧ (pw1.w.mem mp).to_ = pw.w.thr.owner ∧
        payload_words W pw1.w.mem mp =
          [ERL_DRV_PORT, (pw.w.thr.dport : Int), ERL_DRV_ATOM,
           (host.driver_mk_atom "data" : Int), ERL_DRV_STRING, (c : Int), (blen : Int),
           ERL_DRV_TUPLE, 2, ERL_DRV_TUPLE, 2].map (word_norm W) ∧
        pw1.bufs c = (pw.bufs buf).take blen ∧ ∀ x, x ≠ c → pw1.bufs x = pw.bufs x)) := by
  refine ⟨?_, ?_⟩
  · intro hs
    refine ⟨?_, ?_, ?_⟩
    · intro a
      exact send_term_smp cfg W pw source target spec len a res ok hs
    · intro a
      rw [send_dterm_eq]
      exact send_term_smp cfg W pw source target _ _ a res ok hs
    · intro a_copy a_msg
      exact output_smp cfg W host pw source buf blen a_copy a_msg res ok hs
  · intro hs
    obtain ⟨pa, ra, a1, a2, a3, a4, a5, a6, a7, _⟩ := send_term_proxied cfg W pw q source target
      spec len mp res ok hW hq hmp hnq hlen hs
    obtain ⟨pb, rb, b1, b2, b3, b4, b5, b6, b7, b8, _⟩ := output_proxied cfg W host pw q source
      buf blen c mp res ok hW hq hmp hnq hb hs
    refine ⟨⟨pa, ra, a1, a2, a3, a4, a5, a6, a7, ?_⟩, send_dterm_eq _ _ _ _ _ _ _ _ _,
      ⟨pb, rb, b1, b2, b3, b4, b5, b6, b7, b8⟩⟩
    intro hv
    rw [a7, map_word_norm_id W _ hv]

/-- Example for C14: the words of `(5, ok)` are sent to target 300 through the
channel without SMP support and come back word for word as the payload of the
message at address 60. -/
theorem direct_and_proxied_same_term_witness :
    0 < 8 ∧ Queue port_world.w [] ∧ 60 ≠ 0 ∧ 60 ∉ ([] : List Nat) ∧
    6 ≤ ([7, 2, 3, 5, 2, 21] : List ErlDrvTermData).length ∧
    3 ≤ (port_world.bufs 1000).length ∧
    (dthread_port_send_term cfg0 8 port_world_smp 9 300 [7, 2, 3, 5, 2, 21] 6 (some 60) 1
        true).map (fun r => (r.1.delivered, r.2)) = some ([(7, 300, [7, 2, 3, 5, 2, 21])], 1) ∧
    ∃ pw1 r, dthread_port_send_term cfg0 8 port_world 9 300 [7, 2, 3, 5, 2, 21] 6 (some 60) 1
        true = some (pw1, r) ∧
      pw1.delivered = [] ∧ Queue pw1.w [60] ∧ (pw1.w.mem 60).cmd = 3 ∧
      (pw1.w.mem 60).to_ = 300 ∧ payload_words 8 pw1.w.mem 60 = [7, 2, 3, 5, 2, 21] := by
  obtain ⟨_, h2⟩ := direct_and_proxied_same_term cfg0 8 host0 port_world [] 9 300
    [7, 2, 3, 5, 2, 21] 6 term_used 1000 3 2000 60 1 true
    (by decide) (Queue_empty _ ⟨rfl, rfl, rfl⟩) (by decide) (by simp) (by decide) (by decide)
  obtain ⟨⟨pw1, r, h3, h4, _, h6, h7, h8, h9, _⟩, _, _⟩ := h2 rfl
  exact ⟨by decide, Queue_empty _ ⟨rfl, rfl, rfl⟩, by decide, by simp, by decide, by decide,
    by decide, pw1, r, h3, h4, h6, h7, h8, by rw [h9]; decide⟩

/-- C16 (the code departs from it): two entries ask for `ERL_DRV_READ` on the
descriptors 5 and 6, `select` finds descriptor 6 alone readable and returns 1.
The scan loop of `dthread_poll` decrements `ready` at the entry of descriptor
5 and stops, so the entry of descriptor 6 comes back with `revents = 0` and
`*nevents = 0`, although its descriptor is set in the returned read set. -/
theorem poll_skips_ready_entry :
    (poll_fdsets poll_world (some poll_entries) (some 2)).1 = [3, 5, 6] ∧
    (select_only 6 [3, 5, 6] [] (poll_timeval 100)).ready = 1 ∧
    (select_only 6 [3, 5, 6] [] (poll_timeval 100)).readfds 6 = true ∧
    (dthread_poll poll_world (some poll_entries) (some 2) 100 (select_only 6)).2 =
      (some [{ event := 5, events := 1, revents := 0 }, { event := 6, events := 1, revents := 0 }],
       some 0, 0) := by
  refine ⟨by decide, by decide, by decide, by decide⟩

/-- C17: for every outcome `sel` of the `select` call of `dthread_poll`, the
world (queue pointers, `iq_len`, pipe) is returned as it was; when
`sel.ready <= 0` the result is `sel.ready` (negative for a failed wait, 0 for a
timeout), `*nevents` is set to 0 where `nevents` is not `NULL`, and the
`revents` of each of the `n` entries is 0; when `sel.ready > 0` the result is
`iq_len` if the descriptor of the queue signal is in the returned read set and
0 otherwise. -/
theorem poll_result (w : World) (events : Option (List dthread_poll_event_t))
    (nevents : Option Nat) (timeout : Int)
    (select : List Int → List Int → Option (Int × Int) → SelectResult) :
    (dthread_poll w events nevents timeout select).1 = w ∧
    ((select (poll_fdsets w events nevents).1 (poll_fdsets w events nevents).2
        (poll_timeval timeout)).ready ≤ 0 →
      (dthread_poll w events nevents timeout select).2.2.2 =
        (select (poll_fdsets w events nevents).1 (poll_fdsets w events nevents).2
          (poll_timeval timeout)).ready ∧
      (dthread_poll w events nevents timeout select).2.2.1 = nevents.map (fun _ => 0) ∧
      ∀ es n, events = some es → nevents = some n →
        ∃ es1, (dthread_poll w events nevents timeout select).2.1 = some es1 ∧
          es1.length = es.length ∧ ∀ e ∈ es1.take n, e.revents = 0) ∧
    (0 < (select (poll_fdsets w events nevents).1 (poll_fdsets w events nevents).2
        (poll_timeval timeout)).ready →
      (dthread_poll w events nevents timeout select).2.2.2 =
        if (select (poll_fdsets w events nevents).1 (poll_fdsets w events nevents).2
            (poll_timeval timeout)).readfds w.thr.iq_signal_0
        then w.thr.iq_len else 0) := by
  rw [poll_select_once]
  exact poll_const w events nevents timeout _

/-- C18 (the code departs from it): two entries ask for `ERL_DRV_READ` on the
descriptors 5 and 6 and `*nevents = 2`; `select` finds the queue signal
(descriptor 3) alone readable and returns 1. `dthread_poll` returns `iq_len`
and leaves `*nevents = 2`, although no entry has a `revents` other than 0. -/
theorem poll_count_stale :
    (select_only 3 [3, 5, 6] [] (poll_timeval 100)).ready = 1 ∧
    (dthread_poll poll_world (some poll_entries) (some 2) 100 (select_only 3)).2 =
      (some [{ event := 5, events := 1, revents := 0 }, { event := 6, events := 1, revents := 0 }],
       some 2, 2) ∧
    ready_count
      [{ event := 5, events := 1, revents := 0 }, { event := 6, events := 1, revents := 0 }] 2 =
      0 := by
  refine ⟨by decide, by decide, by decide⟩

/-- C19 (the code departs from it): the channel, the mutex and the pipe
(descriptors 3 and 4) are created, then `erl_drv_thread_create` fails.
`dthread_start` returns `NULL` after destroying the mutex and the thread
options and freeing the channel, each once, but it never closes the two
descriptors: it only overwrites them with `DTHREAD_INVALID_EVENT`. The same
holds when `erl_drv_thread_opts_create` fails. -/
theorem start_failure_keeps_pipe_open :
    (dthread_init cfg0 host0 world_empty 7 1 (some (3, 4))).map
        (fun r => (r.1.thr.iq_signal_0, r.1.thr.iq_signal_1, r.2)) = some (3, 4, 0) ∧
    (dthread_start cfg0 host0 world_empty 7 (some 50) 1 (some (3, 4)) 9 (-1) 77 0).map
        (fun r => (r.1.calls, r.2, r.1.thr.iq_signal_0, r.1.thr.iq_signal_1)) =
      some ([Call.mutex_destroy 1, Call.thread_opts_destroy 9, Call.driver_free_thr 50], 0,
        -1, -1) ∧
    (dthread_start cfg0 host0 world_empty 7 (some 50) 1 (some (3, 4)) 0 0 77 0).map
        (fun r => (r.1.calls, r.2, r.1.thr.iq_signal_0, r.1.thr.iq_signal_1)) =
      some ([Call.mutex_destroy 1, Call.driver_free_thr 50], 0, -1, -1) := by
  refine ⟨by decide, by decide, by decide⟩

/-- C20 (the code departs from it): when `driver_alloc` fails,
`dthread_control`, `dthread_output` and `dthread_stop` return -1 and leave the
world and the source's `ref` as they were, but with `smp_support = 0` the
calls `dthread_port_send_term`, `dthread_port_send_dterm`,
`dthread_port_output`, `dthread_port_output2` and
`dthread_port_output_binary` do not test the pointer and write through
`NULL` (no result). -/
theorem alloc_failure_writes_through_null :
    (∀ (R : Nat) (w : World) (source : Nat) (src : dthread_t) (cmd : Int) (buf : BufPtr)
        (bytes : List Nat) (len : Nat) (ok : Bool),
      dthread_control R w source src none cmd buf bytes len ok = (w, src, -1)) ∧
    (∀ (cfg : Config) (R : Nat) (w : World) (source : Nat) (src : dthread_t) (buf : BufPtr)
        (bytes : List Nat) (len : Nat) (ok : Bool),
      dthread_output cfg R w source src none buf bytes len ok = (w, src, -1)) ∧
    (∀ (cfg : Config) (fuel : Nat) (w : World) (target source : Nat) (ok : Bool)
        (join : World → World),
      dthread_stop cfg fuel w target source none ok join = some (w, -1)) ∧
    (∀ (cfg : Config) (W : Nat) (pw : PortWorld) (source target : Nat)
        (spec : List ErlDrvTermData) (len : Nat) (res : Int) (ok : Bool),
      pw.w.thr.smp_support = 0 →
      dthread_port_send_term cfg W pw source target spec len none res ok = none) ∧
    (∀ (cfg : Config) (W : Nat) (pw : PortWorld) (source target : Nat) (t : TermState)
        (res : Int) (ok : Bool),
      pw.w.thr.smp_support = 0 →
      dthread_port_send_dterm cfg W pw source target t none res ok = none) ∧
    (∀ (cfg : Config) (W : Nat) (host : Host) (pw : PortWorld) (source buf len : Nat)
        (a_copy : Option Nat) (res : Int) (ok : Bool),
      pw.w.thr.smp_support = 0 →
      dthread_port_output cfg W host pw source buf len a_copy none res ok = none) ∧
    (∀ (cfg : Config) (W : Nat) (host : Host) (pw : PortWorld) (source buf len : Nat)
        (a_msg : Option Nat) (res : Int) (ok : Bool),
      pw.w.thr.smp_support = 0 → len ≠ 0 →
      dthread_port_output cfg W host pw source buf len none a_msg res ok = none) ∧
    (∀ (cfg : Config) (W am_data : Nat) (pw : PortWorld) (source hbuf hlen buf len : Nat)
        (a_5 a_8 : Option Nat) (res : Int) (ok : Bool),
      pw.w.thr.smp_support = 0 →
      dthread_port_output2 cfg W am_data pw source hbuf hlen buf len a_5 a_8 none res ok =
        none) ∧
    (∀ (cfg : Config) (W am_data : Nat) (pw : PortWorld)
        (source hbuf hlen orig_bytes offset len : Nat) (a_5 a_8 : Option Nat) (res : Int)
        (ok : Bool),
      pw.w.thr.smp_support = 0 →
      dthread_port_output_binary cfg W am_data pw source hbuf hlen orig_bytes offset len
        a_5 a_8 none res ok = none) ∧
    dthread_port_send_term cfg0 8 port_world 9 300 [7, 2, 3, 5, 2, 21] 6 none 1 true = none := by
  refine ⟨?_, ?_, ?_, ?_, ?_, ?_, ?_, ?_, ?_, ?_⟩
  · intro R w source src cmd buf bytes len ok
    simp [dthread_control, create_none]
  · intro cfg R w source src buf bytes len ok
    simp [dthread_output, dthread_control, create_none]
  · intro cfg fuel w target source ok join
    simp [dthread_stop, dthread_stop_enqueue, create_none]
  · intro cfg W pw source target spec len res ok hs
    exact send_term_null cfg W pw source target spec len res ok hs
  · intro cfg W pw source target t res ok hs
    rw [send_dterm_eq]
    exact send_term_null cfg W pw source target _ _ res ok hs
  · intro cfg W host pw source buf len a_copy res ok hs
    exact output_null_msg cfg W host pw source buf len a_copy res ok hs
  · intro cfg W host pw source buf len a_msg res ok hs hl
    exact output_null_copy cfg W host pw source buf len a_msg res ok hs hl
  · intro cfg W am_data pw source hbuf hlen buf len a_5 a_8 res ok hs
    exact output2_null_msg cfg W am_data pw source hbuf hlen buf len a_5 a_8 res ok hs
  · intro cfg W am_data pw source hbuf hlen orig_bytes offset len a_5 a_8 res ok hs
    exact output2_null_msg cfg W am_data pw source hbuf hlen _ len a_5 a_8 res ok hs
  · exact send_term_null cfg0 8 port_world 9 300 _ 6 1 true rfl
/-! ## Lemmas on source routing -/

theorem send_source (w : World) (source mp : Nat) (ok : Bool) (x : Nat) :
    ((dthread_send w source mp ok).1.mem x).source =
      if x = mp then source else (w.mem x).source := by
  rw [send_mem]
  by_cases h1 : w.thr.iq_rear = 0
  · simp only [h1, ne_eq, not_true_eq_false, if_false]
    by_cases h2 : x = mp
    · rw [h2]; simp
    · simp [Function.update_noteq h2, h2]
  · simp only [h1, ne_eq, not_false_eq_true, if_true]
    by_cases h3 : x = w.thr.iq_rear
    · rw [h3]
      simp only [Function.update_same]
      by_cases h4 : w.thr.iq_rear = mp
      · rw [h4]; simp
      · simp [Function.update_noteq h4, h4]
    · rw [Function.update_noteq h3]
      by_cases h2 : x = mp
      · rw [h2]; simp
      · simp [Function.update_noteq h2, h2]

theorem send_keeps (w : World) (source mp : Nat) (ok : Bool) (x : Nat) :
    ((dthread_send w source mp ok).1.mem x).ref = (w.mem x).ref ∧
    ((dthread_send w source mp ok).1.mem x).from_ = (w.mem x).from_ ∧
    ((dthread_send w source mp ok).1.mem x).to_ = (w.mem x).to_ ∧
    ((dthread_send w source mp ok).1.mem x).release = (w.mem x).release ∧
    ((dthread_send w source mp ok).1.mem x).buffer = (w.mem x).buffer ∧
    ((dthread_send w source mp ok).1.mem x).data = (w.mem x).data := by
  rw [send_mem]
  by_cases h1 : w.thr.iq_rear = 0
  · simp only [h1, ne_eq, not_true_eq_false, if_false]
    by_cases h2 : x = mp
    · rw [h2]; simp
    · simp [Function.update_noteq h2]
  · simp only [h1, ne_eq, not_false_eq_true, if_true]
    by_cases h3 : x = w.thr.iq_rear
    · rw [h3]
      simp only [Function.update_same]
      by_cases h4 : w.thr.iq_rear = mp
      · rw [h4]; simp
      · simp [Function.update_noteq h4]
    · rw [Function.update_noteq h3]
      by_cases h2 : x = mp
      · rw [h2]; simp
      · simp [Function.update_noteq h2]

theorem recv_pointer_irrelevant (w : World) (source : Option Nat) (ok : Bool) :
    (dthread_recv w source ok).map (fun r => (r.1, r.2.1)) =
      (dthread_recv w none ok).map (fun r => (r.1, r.2.1)) := by
  unfold dthread_recv
  simp only []
  split <;> rename_i h
  · simp [h]
  · cases source <;> by_cases h1 : w.thr.iq_front = 0 <;> simp [h, h1]

theorem run_routed_run : ∀ (ops : List Op) (w : World) (s : Nat),
    (run_routed w s ops).map (fun r => (r.1, r.2.map Prod.fst)) = run w ops := by
  intro ops
  induction ops with
  | nil => intro w s; rfl
  | cons op ops ih =>
    intro w s
    cases op with
    | send source mp ok => simp only [run_routed, run]; exact ih _ _
    | recv ok =>
      have hp := recv_pointer_irrelevant w (some s) ok
      simp only [run_routed, run]
      cases h1 : dthread_recv w (some s) ok with
      | none =>
        rw [h1] at hp
        cases h2 : dthread_recv w none ok with
        | none => rfl
        | some r2 => rw [h2] at hp; simp at hp
      | some r1 =>
        obtain ⟨w1, mp, s1⟩ := r1
        rw [h1] at hp
        cases h2 : dthread_recv w none ok with
        | none => rw [h2] at hp; simp at hp
        | some r2 =>
          obtain ⟨w2, mp2, s2⟩ := r2
          rw [h2] at hp
          simp only [Option.map_some', Option.some.injEq, Prod.mk.injEq] at hp
          obtain ⟨rfl, rfl⟩ := hp
          simp only []
          rw [← ih w1 (s1.getD s)]
          cases run_routed w1 (s1.getD s) ops <;> simp

/-- Strong form of the routing discipline: the pairs received so far, followed
by the queued messages with their stored `source`, are the pairs queued at the
start followed by the pairs sent. -/
theorem run_routed_Queue : ∀ (ops : List Op) (w : World) (qs : List (Nat × Nat)) (s : Nat),
    Queue w (qs.map Prod.fst) → (∀ p ∈ qs, (w.mem p.1).source = p.2) →
    Owned (qs.map Prod.fst) ops →
    ∀ (w1 : World) (rs : List (Nat × Nat)), run_routed w s ops = some (w1, rs) →
      ∃ qs1, Queue w1 (qs1.map Prod.fst) ∧ (∀ p ∈ qs1, (w1.mem p.1).source = p.2) ∧
        rs.filter (fun r => r.1 ≠ 0) ++ qs1 = qs ++ routes ops := by
  intro ops
  induction ops with
  | nil =>
    intro w qs s hq hs _ w1 rs hrun
    simp only [run_routed, Option.some.injEq, Prod.mk.injEq] at hrun
    obtain ⟨rfl, rfl⟩ := hrun
    exact ⟨qs, hq, hs, by simp [routes]⟩
  | cons op ops ih =>
    intro w qs s hq hs ho w1 rs hrun
    cases op with
    | send source mp ok =>
      obtain ⟨hmp, hnq, ho1⟩ := ho
      have hq1 : Queue (dthread_send w source mp ok).1 ((qs ++ [(mp, source)]).map Prod.fst) := by
        rw [List.map_append]
        exact send_Queue w _ source mp ok hq hmp hnq
      have hs1 : ∀ p ∈ qs ++ [(mp, source)],
          ((dthread_send w source mp ok).1.mem p.1).source = p.2 := by
        intro p hp
        rw [send_source]
        rcases List.mem_append.1 hp with hp | hp
        · have hne : p.1 ≠ mp := fun e => hnq (e ▸ List.mem_map_of_mem Prod.fst hp)
          rw [if_neg hne]
          exact hs p hp
        · rw [List.mem_singleton] at hp
          rw [hp]; simp
      have ho2 : Owned ((qs ++ [(mp, source)]).map Prod.fst) ops := by
        rw [List.map_append]; exact ho1
      obtain ⟨qs1, h1, h2, h3⟩ := ih _ _ s hq1 hs1 ho2 w1 rs hrun
      exact ⟨qs1, h1, h2, by rw [h3]; simp [routes]⟩
    | recv ok =>
      simp only [run_routed] at hrun
      cases hrecv : dthread_recv w (some s) ok with
      | none => rw [hrecv] at hrun; simp at hrun
      | some res =>
        obtain ⟨w2, r, s2⟩ := res
        rw [hrecv] at hrun
        simp only [Option.map_eq_some'] at hrun
        obtain ⟨⟨w3, rs3⟩, hrun3, he⟩ := hrun
        simp only [Prod.mk.injEq] at he
        obtain ⟨rfl, rfl⟩ := he
        cases qs with
        | nil =>
          have hf : w.thr.iq_front = 0 := hq.1
          rw [recv_empty w (some s) ok hf] at hrecv
          simp only [Option.some.injEq, Prod.mk.injEq] at hrecv
          obtain ⟨rfl, rfl, rfl⟩ := hrecv
          obtain ⟨qs1, h1, h2, h3⟩ := ih _ _ _ hq hs ho w3 rs3 hrun3
          exact ⟨qs1, h1, h2, by simpa [routes] using h3⟩
        | cons a qs =>
          obtain ⟨a1, a2⟩ := a
          simp only [List.map_cons] at hq ho
          obtain ⟨hra, hq2, hm⟩ := recv_Queue w w2 a1 _ (some s) s2 ok r hq hrecv
          subst hra
          have hr0 : r ≠ 0 := hq.1.2.1
          have hf : w.thr.iq_front ≠ 0 := by rw [hq.1.1]; exact hr0
          have hsrc := (recv_some w w2 (some s) s2 ok r hrecv hf).2.2.2.2.2.2.2
          have ha2 : (w.mem r).source = a2 := hs (r, a2) (List.mem_cons_self _ _)
          rw [ha2] at hsrc
          subst hsrc
          have hs2 : ∀ p ∈ qs, (w2.mem p.1).source = p.2 := by
            intro p hp
            rw [hm]
            exact hs p (List.mem_cons_of_mem _ hp)
          obtain ⟨qs1, h1, h2, h3⟩ := ih _ _ _ hq2 hs2 ho w3 rs3 hrun3
          refine ⟨qs1, h1, h2, ?_⟩
          simp [routes, hr0] at h3 ⊢
          exact h3

theorem recv_mem (w w1 : World) (source s1 : Option Nat) (ok : Bool) (r : Nat)
    (h : dthread_recv w source ok = some (w1, r, s1)) : w1.mem = w.mem := by
  by_cases hf : w.thr.iq_front = 0
  · rw [recv_empty w source ok hf] at h
    simp only [Option.some.injEq, Prod.mk.injEq] at h
    rw [← h.1]
  · exact (recv_some w w1 source s1 ok r h hf).2.1

theorem owned_sends_ne_zero : ∀ (ms : List (Nat × Nat)) (q : List Nat),
    Owned q (ms.map fun m => Op.send m.1 m.2 true) → ∀ m ∈ ms, m.2 ≠ 0 := by
  intro ms
  induction ms with
  | nil => intro q _ m hm; simp at hm
  | cons a ms ih =>
    intro q ho m hm
    obtain ⟨h1, _, h3⟩ := ho
    rcases List.mem_cons.1 hm with e | hm1
    · rw [e]; exact h1
    · exact ih _ h3 m hm1

theorem routes_sends_recvs (ms : List (Nat × Nat)) (oks : List Bool) :
    routes ((ms.map fun m => Op.send m.1 m.2 true) ++ oks.map Op.recv) =
      ms.map fun m => (m.2, m.1) := by
  induction ms with
  | nil =>
    induction oks with
    | nil => rfl
    | cons ok oks ih => simpa [routes] using ih
  | cons a ms ih => simpa [routes] using ih

theorem filter_fst_ne_zero (rs : List (Nat × Nat)) (h : ∀ x ∈ rs.map Prod.fst, x ≠ 0) :
    rs.filter (fun r => r.1 ≠ 0) = rs := by
  rw [List.filter_eq_self]
  intro a ha
  simpa using h a.1 (List.mem_map_of_mem Prod.fst ha)

theorem owned_recvs : ∀ (oks : List Bool) (q : List Nat), Owned q (oks.map Op.recv) := by
  intro oks
  induction oks with
  | nil => intro q; trivial
  | cons ok oks ih => intro q; exact ih _

theorem owned_append_recvs (oks : List Bool) : ∀ (l : List Op) (q : List Nat), Owned q l →
    Owned q (l ++ oks.map Op.recv) := by
  intro l
  induction l with
  | nil => intro q _; exact owned_recvs oks q
  | cons op l ih =>
    intro q ho
    cases op with
    | send a b c => exact ⟨ho.1, ho.2.1, ih _ ho.2.2⟩
    | recv c => exact ih _ ho

/-- Sends followed by as many receives: every receive returns its message with
the `source` argument of the send that queued it. -/
theorem run_routed_sends_recvs (w : World) (s : Nat) (ms : List (Nat × Nat)) (oks : List Bool)
    (hE : EmptyQueue w) (hO : Owned [] (ms.map fun m => Op.send m.1 m.2 true))
    (hlen : oks.length = ms.length) :
    ∃ w1, run_routed w s ((ms.map fun m => Op.send m.1 m.2 true) ++ oks.map Op.recv) =
      some (w1, ms.map fun m => (m.2, m.1)) := by
  have hq := Queue_empty w hE
  obtain ⟨w1, h1, hq1, hp1⟩ := run_sends ms w [] hq hO (fun h => absurd rfl h)
  rw [List.nil_append] at hq1 hp1
  have hl : oks.length = (ms.map Prod.snd).length := by simpa using hlen
  obtain ⟨w2, rs, h2⟩ := run_recvs_total _ w1 oks hq1 hl hp1
  obtain ⟨hrs, _, _⟩ := run_recvs_partial _ w1 oks hq1 hl w2 rs h2
  subst hrs
  have hrun : run w ((ms.map fun m => Op.send m.1 m.2 true) ++ oks.map Op.recv) =
      some (w2, ms.map Prod.snd) := by
    rw [run_append, h1]
    simp [h2]
  have hrel := run_routed_run ((ms.map fun m => Op.send m.1 m.2 true) ++ oks.map Op.recv) w s
  rw [hrun] at hrel
  cases hr : run_routed w s ((ms.map fun m => Op.send m.1 m.2 true) ++ oks.map Op.recv) with
  | none => rw [hr] at hrel; simp at hrel
  | some res =>
    obtain ⟨w3, rs3⟩ := res
    rw [hr] at hrel
    simp only [Option.map_some', Option.some.injEq, Prod.mk.injEq] at hrel
    obtain ⟨rfl, hfst⟩ := hrel
    have hOw : Owned (([] : List (Nat × Nat)).map Prod.fst)
        ((ms.map fun m => Op.send m.1 m.2 true) ++ oks.map Op.recv) :=
      owned_append_recvs oks _ _ hO
    obtain ⟨qs1, _, _, h5⟩ := run_routed_Queue _ w [] s (by simpa using hq)
      (by intro p hp; simp at hp) hOw w3 rs3 hr
    rw [routes_sends_recvs, List.nil_append] at h5
    have hnz : ∀ x ∈ rs3.map Prod.fst, x ≠ 0 := by
      intro x hx
      rw [hfst] at hx
      obtain ⟨m, hm, rfl⟩ := List.mem_map.1 hx
      exact owned_sends_ne_zero ms [] hO m hm
    rw [filter_fst_ne_zero rs3 hnz] at h5
    have hl3 : rs3.length = ms.length := by
      have := congrArg List.length hfst
      simpa using this
    have hq0 : qs1 = [] := by
      have := congrArg List.length h5
      simp only [List.length_append, List.length_map] at this
      exact List.length_eq_zero.mp (by omega)
    rw [hq0, List.append_nil] at h5
    exact ⟨w3, by rw [h5]⟩
/-! ## Lemmas on correlation references and links -/

theorem control_some (R : Nat) (w : World) (source : Nat) (src : dthread_t) (mp : Nat)
    (cmd : Int) (buf : BufPtr) (bytes : List Nat) (len : Nat) (ok : Bool) (hmp : mp ≠ 0) :
    dthread_control R w source src (some mp) cmd buf bytes len ok =
      ((dthread_send { w with mem := (Function.update w.mem mp
          { proxy_message cmd mp 0 0 bytes len with
            from_ := src.caller, ref := (src.ref + 1) % R }) } source mp ok).1,
       { src with ref := (src.ref + 1) % R },
       (dthread_send { w with mem := (Function.update w.mem mp
          { proxy_message cmd mp 0 0 bytes len with
            from_ := src.caller, ref := (src.ref + 1) % R }) } source mp ok).2) := by
  simp [dthread_control, create_at _ _ _ _ _ _ hmp, hmp, proxy_message]

theorem control_none (R : Nat) (w : World) (source : Nat) (src : dthread_t)
    (cmd : Int) (buf : BufPtr) (bytes : List Nat) (len : Nat) (ok : Bool) :
    dthread_control R w source src none cmd buf bytes len ok = (w, src, -1) := by
  simp [dthread_control, create_none]

theorem control_step (R : Nat) (w : World) (q : List Nat) (source : Nat) (src : dthread_t)
    (mp : Nat) (cmd : Int) (buf : BufPtr) (bytes : List Nat) (len : Nat) (ok : Bool)
    (hq : Queue w q) (hmp : mp ≠ 0) (hnq : mp ∉ q) :
    Queue (dthread_control R w source src (some mp) cmd buf bytes len ok).1 (q ++ [mp]) ∧
    (dthread_control R w source src (some mp) cmd buf bytes len ok).2.1 =
      { src with ref := (src.ref + 1) % R } ∧
    ((dthread_control R w source src (some mp) cmd buf bytes len ok).1.mem mp).ref =
      (src.ref + 1) % R ∧
    ((dthread_control R w source src (some mp) cmd buf bytes len ok).1.mem mp).from_ =
      src.caller ∧
    ((dthread_control R w source src (some mp) cmd buf bytes len ok).1.mem mp).cmd = cmd ∧
    ((dthread_control R w source src (some mp) cmd buf bytes len ok).1.mem mp).source =
      source ∧
    (∀ x, x ≠ mp →
      ((dthread_control R w source src (some mp) cmd buf bytes len ok).1.mem x).ref =
        (w.mem x).ref ∧
      ((dthread_control R w source src (some mp) cmd buf bytes len ok).1.mem x).from_ =
        (w.mem x).from_) := by
  rw [control_some R w source src mp cmd buf bytes len ok hmp]
  obtain ⟨h1, h2⟩ := enqueue_fresh w q source mp
    { proxy_message cmd mp 0 0 bytes len with from_ := src.caller, ref := (src.ref + 1) % R }
    ok hq hmp hnq
  refine ⟨h1, rfl, by rw [h2], by rw [h2], by rw [h2]; rfl, by rw [h2], ?_⟩
  intro x hx
  obtain ⟨k1, k2, _⟩ := send_keeps { w with mem := (Function.update w.mem mp
    { proxy_message cmd mp 0 0 bytes len with from_ := src.caller, ref := (src.ref + 1) % R }) }
    source mp ok x
  refine ⟨?_, ?_⟩
  · rw [k1]; show (Function.update w.mem mp _ x).ref = _; rw [Function.update_noteq hx]
  · rw [k2]; show (Function.update w.mem mp _ x).from_ = _; rw [Function.update_noteq hx]

/-- Successive calls without wrap-around: the messages queued carry the
references `ref + 1, ref + 2, ...` of the source, in call order. -/
theorem control_run_refs (R : Nat) (source : Nat) : ∀ (calls : List ControlCall) (w : World)
    (q : List Nat) (src : dthread_t), Queue w q →
    (∀ mp ∈ calls.filterMap (fun c => c.a), mp ≠ 0) →
    (q ++ calls.filterMap (fun c => c.a)).Nodup →
    src.ref + (calls.filterMap (fun c => c.a)).length < R →
    Queue (control_run R w source src calls).1 (q ++ calls.filterMap (fun c => c.a)) ∧
    (control_run R w source src calls).2.1 =
      { src with ref := src.ref + (calls.filterMap (fun c => c.a)).length } ∧
    (calls.filterMap (fun c => c.a)).map
        (fun m => ((control_run R w source src calls).1.mem m).ref) =
      List.range' (src.ref + 1) (calls.filterMap (fun c => c.a)).length ∧
    (∀ m ∈ calls.filterMap (fun c => c.a),
      ((control_run R w source src calls).1.mem m).from_ = src.caller) ∧
    (∀ x, x ∉ calls.filterMap (fun c => c.a) →
      ((control_run R w source src calls).1.mem x).ref = (w.mem x).ref ∧
      ((control_run R w source src calls).1.mem x).from_ = (w.mem x).from_) := by
  intro calls
  induction calls with
  | nil =>
    intro w q src hq _ _ _
    exact ⟨by simpa [control_run] using hq, rfl, rfl, by intro m hm; simp at hm,
      fun x _ => ⟨rfl, rfl⟩⟩
  | cons c cs ih =>
    intro w q src hq hnz hnd hwrap
    cases ha : c.a with
    | none =>
      have hf : (c :: cs).filterMap (fun c => c.a) = cs.filterMap (fun c => c.a) := by
        simp [List.filterMap_cons, ha]
      rw [hf] at hnz hnd hwrap ⊢
      have hr : control_run R w source src (c :: cs) =
          ((control_run R w source src cs).1, (control_run R w source src cs).2.1,
            -1 :: (control_run R w source src cs).2.2) := by
        simp only [control_run, ha, control_none]
      rw [hr]
      exact ih w q src hq hnz hnd hwrap
    | some mp =>
      have hf : (c :: cs).filterMap (fun c => c.a) = mp :: cs.filterMap (fun c => c.a) := by
        simp [List.filterMap_cons, ha]
      rw [hf] at hnz hnd hwrap ⊢
      have hmp : mp ≠ 0 := hnz mp (List.mem_cons_self _ _)
      have hnd1 : ((q ++ [mp]) ++ cs.filterMap (fun c => c.a)).Nodup := by
        simpa using hnd
      have hnq : mp ∉ q := by
        intro h
        have := List.nodup_append.1 hnd
        exact this.2.2 h (List.mem_cons_self _ _) 
      have hnm : mp ∉ cs.filterMap (fun c => c.a) := by
        have := (List.nodup_append.1 hnd).2.1
        exact (List.nodup_cons.1 this).1
      simp only [List.length_cons] at hwrap
      obtain ⟨s1, s2, s3, s4, _, _, s7⟩ := control_step R w q source src mp c.cmd c.buf c.bytes
        c.len c.ok hq hmp hnq
      have hmod : (src.ref + 1) % R = src.ref + 1 := Nat.mod_eq_of_lt (by omega)
      rw [hmod] at s2 s3
      have hr : control_run R w source src (c :: cs) =
          ((control_run R (dthread_control R w source src (some mp) c.cmd c.buf c.bytes c.len
              c.ok).1 source { src with ref := src.ref + 1 } cs).1,
           (control_run R (dthread_control R w source src (some mp) c.cmd c.buf c.bytes c.len
              c.ok).1 source { src with ref := src.ref + 1 } cs).2.1,
           (dthread_control R w source src (some mp) c.cmd c.buf c.bytes c.len c.ok).2.2 ::
           (control_run R (dthread_control R w source src (some mp) c.cmd c.buf c.bytes c.len
              c.ok).1 source { src with ref := src.ref + 1 } cs).2.2) := by
        simp only [control_run, ha, s2]
      rw [hr]
      obtain ⟨i1, i2, i3, i4, i5⟩ := ih _ (q ++ [mp]) { src with ref := src.ref + 1 } s1
        (fun m hm => hnz m (List.mem_cons_of_mem _ hm)) hnd1 (by simp only []; omega)
      simp only [] at i1 i2 i3 i4 i5
      refine ⟨by simpa using i1, ?_, ?_, ?_, ?_⟩
      · rw [i2]; simp only [List.length_cons]
        congr 1; omega
      · rw [List.map_cons, List.length_cons, List.range'_succ, i3, (i5 mp hnm).1, s3]
      · intro m hm
        rcases List.mem_cons.1 hm with e | hm1
        · rw [e, (i5 mp hnm).2, s4]
        · exact i4 m hm1
      · intro x hx
        have hx1 : x ≠ mp := fun e => hx (e ▸ List.mem_cons_self _ _)
        have hx2 : x ∉ cs.filterMap (fun c => c.a) := fun h => hx (List.mem_cons_of_mem _ h)
        obtain ⟨k1, k2⟩ := i5 x hx2
        obtain ⟨k3, k4⟩ := s7 x hx1
        exact ⟨k1.trans k3, k2.trans k4⟩

theorem link_copy_none (LINK_DATA : Nat) (t : TermState) (src : List Nat) (size : Nat) :
    dterm_link_copy_data LINK_DATA t src size none = none := rfl

/-- C21: a successful `dmessage_create(cmd, buf, len)` returns a message with
that command, `used = len`, `buffer` pointing 8 bytes into its own inline
region of `len + 8` bytes, the `len` payload bytes equal to those at `buf`,
and `next`, `source`, `from`, `to`, `ref` and `release` all zero.
`dthread_send` sets `source` of the message it queues to its `source` argument
and the `source` of no other message, and `dthread_recv` writes to no message.
On a channel that starts empty, in any interleaving of calls in which a
message is handed to `dthread_send` only while it is not queued, every
`dthread_recv` that returns a message stores in `*source` the `source`
argument of the `dthread_send` that queued it; the calls return when the raises
succeed, and sends followed by as many receives return every message with its
source. -/
theorem create_and_source_routing (mem : Nat → dmessage_t) (mp : Nat) (cmd : Int)
    (buf : BufPtr) (bytes : List Nat) (len : Nat) (w : World) (s : Nat) (ops : List Op)
    (hmp : mp ≠ 0) (hE : EmptyQueue w) (hO : Owned [] ops) :
    (∃ m, dmessage_create mem (some mp) cmd buf bytes len = (Function.update mem mp m, mp) ∧
      m.cmd = cmd ∧ m.used = len ∧ m.buffer = BufPtr.inl mp 8 ∧ m.size = len + 8 ∧
      m.data.length = len + 8 ∧ buffer_outside mp m = false ∧
      payload_bytes (Function.update mem mp m) mp = (List.range len).map (fun i => bytes.getD i 0) ∧
      (len ≤ bytes.length → payload_bytes (Function.update mem mp m) mp = bytes.take len) ∧
      m.next = 0 ∧ m.source = 0 ∧ m.from_ = 0 ∧ m.to_ = 0 ∧ m.ref = 0 ∧ m.release = 0) ∧
    (∀ (w0 : World) (source x : Nat) (ok : Bool) (y : Nat),
      ((dthread_send w0 source x ok).1.mem y).source =
        if y = x then source else (w0.mem y).source) ∧
    (∀ (w0 w1 : World) (p s1 : Option Nat) (ok : Bool) (r : Nat),
      dthread_recv w0 p ok = some (w1, r, s1) → w1.mem = w0.mem) ∧
    (∀ w1 rs, run_routed w s ops = some (w1, rs) →
      rs.filter (fun r => r.1 ≠ 0) =
        (routes ops).take (rs.filter (fun r => r.1 ≠ 0)).length) ∧
    (RaiseOk ops → ∃ w1 rs, run_routed w s ops = some (w1, rs)) ∧
    (∀ (ms : List (Nat × Nat)) (oks : List Bool),
      ops = ms.map (fun m => Op.send m.1 m.2 true) → oks.length = ms.length →
      ∃ w1, run_routed w s (ops ++ oks.map Op.recv) =
        some (w1, ms.map fun m => (m.2, m.1))) := by
  have hq := Queue_empty w hE
  refine ⟨?_, ?_, ?_, ?_, ?_, ?_⟩
  · refine ⟨_, create_at mem mp cmd buf bytes len hmp, rfl, rfl, rfl, rfl, ?_, ?_, ?_, ?_,
      rfl, rfl, rfl, rfl, rfl, rfl⟩
    · simp [proxy_message, memcpy_inl]
    · simp [buffer_outside, proxy_message]
    · exact payload_bytes_proxy _ mp _ bytes len (Function.update_same _ _ _) rfl rfl rfl
    · intro hl
      rw [payload_bytes_proxy _ mp _ bytes len (Function.update_same _ _ _) rfl rfl rfl,
        take_eq_map_range_nat _ _ hl]
  · intro w0 source x ok y
    exact send_source w0 source x ok y
  · intro w0 w1 p s1 ok r h
    exact recv_mem w0 w1 p s1 ok r h
  · intro w1 rs hrun
    obtain ⟨qs1, _, _, he⟩ := run_routed_Queue ops w [] s (by simpa using hq)
      (by intro p hp; simp at hp) (by simpa using hO) w1 rs hrun
    rw [List.nil_append] at he
    rw [← he, List.take_left]
  · intro hk
    obtain ⟨w1, rs, h⟩ := run_total ops w [] hq hO hk (fun h => absurd rfl h)
    have hrel := run_routed_run ops w s
    rw [h] at hrel
    cases hr : run_routed w s ops with
    | none => rw [hr] at hrel; simp at hrel
    | some res => exact ⟨res.1, res.2, rfl⟩
  · intro ms oks hops hlen
    subst hops
    exact run_routed_sends_recvs w s ms oks hE hO hlen

/-- Example for C21: a message of three bytes is created at address 60; two
messages are sent by the channels 9 and 8 and received in that order. -/
theorem create_and_source_routing_witness :
    (60 : Nat) ≠ 0 ∧ EmptyQueue world_empty ∧
    Owned [] [Op.send 9 1 true, Op.send 8 2 true] ∧
    payload_bytes (dmessage_create world_empty.mem (some 60) 2 (BufPtr.ext 1000)
      [1, 2, 3, 4, 5] 3).1 60 = [1, 2, 3] ∧
    (run_routed world_empty 0 [Op.send 9 1 true, Op.send 8 2 true, Op.recv true,
        Op.recv true]).map Prod.snd = some [(1, 9), (2, 8)] := by
  have hE : EmptyQueue world_empty := ⟨rfl, rfl, rfl⟩
  have hO : Owned [] [Op.send 9 1 true, Op.send 8 2 true] := by simp [Owned]
  obtain ⟨⟨m, h1, _, _, _, _, _, _, _, h9, _⟩, _, _, _, _, h6⟩ :=
    create_and_source_routing world_empty.mem 60 2 (BufPtr.ext 1000) [1, 2, 3, 4, 5] 3
      world_empty 0 [Op.send 9 1 true, Op.send 8 2 true] (by decide) hE hO
  obtain ⟨w1, h7⟩ := h6 [(9, 1), (8, 2)] [true, true] rfl rfl
  refine ⟨by decide, hE, hO, ?_, ?_⟩
  · rw [h1]
    exact h9 (by decide)
  · simp only [List.map_cons, List.map_nil, List.cons_append, List.nil_append] at h7
    rw [h7]; rfl

/-- C22: a successful `dthread_control` call increases `source->ref` by one
(modulo the number `R` of values of its type), stamps the message it queues
with the new value as `ref` and with `source->caller` as `from`, and changes
`ref` and `from` of no other message; a call whose allocation fails leaves the
counter as it was; `dthread_output` is `dthread_control` with the command
`DTHREAD_OUTPUT`. Over successive calls of one source that do not wrap the
counter, the messages queued carry the references `ref + 1, ref + 2, ...` in
call order, which are strictly increasing and pairwise distinct. -/
theorem correlation_refs_increase (cfg : Config) (R : Nat) (w : World) (q : List Nat)
    (source : Nat) (src : dthread_t) (calls : List ControlCall)
    (hq : Queue w q) (hnz : ∀ mp ∈ calls.filterMap (fun c => c.a), mp ≠ 0)
    (hnd : (q ++ calls.filterMap (fun c => c.a)).Nodup)
    (hwrap : src.ref + (calls.filterMap (fun c => c.a)).length < R) :
    (∀ (mp : Nat) (cmd : Int) (buf : BufPtr) (bytes : List Nat) (len : Nat) (ok : Bool),
      mp ≠ 0 → mp ∉ q →
      Queue (dthread_control R w source src (some mp) cmd buf bytes len ok).1 (q ++ [mp]) ∧
      (dthread_control R w source src (some mp) cmd buf bytes len ok).2.1 =
        { src with ref := (src.ref + 1) % R } ∧
      (src.ref + 1 < R →
        (dthread_control R w source src (some mp) cmd buf bytes len ok).2.1.ref =
          src.ref + 1) ∧
      ((dthread_control R w source src (some mp) cmd buf bytes len ok).1.mem mp).ref =
        (dthread_control R w source src (some mp) cmd buf bytes len ok).2.1.ref ∧
      ((dthread_control R w source src (some mp) cmd buf bytes len ok).1.mem mp).from_ =
        src.caller ∧
      ∀ x, x ≠ mp →
        ((dthread_control R w source src (some mp) cmd buf bytes len ok).1.mem x).ref =
          (w.mem x).ref ∧
        ((dthread_control R w source src (some mp) cmd buf bytes len ok).1.mem x).from_ =
          (w.mem x).from_) ∧
    (∀ (cmd : Int) (buf : BufPtr) (bytes : List Nat) (len : Nat) (ok : Bool),
      dthread_control R w source src none cmd buf bytes len ok = (w, src, -1)) ∧
    (∀ (a : Option Nat) (buf : BufPtr) (bytes : List Nat) (len : Nat) (ok : Bool),
      dthread_output cfg R w source src a buf bytes len ok =
        dthread_control R w source src a cfg.DTHREAD_OUTPUT buf bytes len ok) ∧
    Queue (control_run R w source src calls).1 (q ++ calls.filterMap (fun c => c.a)) ∧
    (control_run R w source src calls).2.1 =
      { src with ref := src.ref + (calls.filterMap (fun c => c.a)).length } ∧
    (calls.filterMap (fun c => c.a)).map
        (fun m => ((control_run R w source src calls).1.mem m).ref) =
      List.range' (src.ref + 1) (calls.filterMap (fun c => c.a)).length ∧
    ((calls.filterMap (fun c => c.a)).map
        (fun m => ((control_run R w source src calls).1.mem m).ref)).Pairwise (· < ·) ∧
    ((calls.filterMap (fun c => c.a)).map
        (fun m => ((control_run R w source src calls).1.mem m).ref)).Nodup ∧
    (∀ m ∈ calls.filterMap (fun c => c.a),
      ((control_run R w source src calls).1.mem m).from_ = src.caller) := by
  obtain ⟨r1, r2, r3, r4, _⟩ := control_run_refs R source calls w q src hq hnz hnd hwrap
  refine ⟨?_, ?_, ?_, r1, r2, r3, ?_, ?_, r4⟩
  · intro mp cmd buf bytes len ok hmp hnq
    obtain ⟨s1, s2, s3, s4, _, _, s7⟩ := control_step R w q source src mp cmd buf bytes len ok
      hq hmp hnq
    refine ⟨s1, s2, ?_, ?_, s4, s7⟩
    · intro h
      rw [s2]
      exact Nat.mod_eq_of_lt h
    · rw [s3, s2]
  · intro cmd buf bytes len ok
    exact control_none R w source src cmd buf bytes len ok
  · intro a buf bytes len ok
    rfl
  · rw [r3]
    exact List.pairwise_lt_range' _ _
  · rw [r3]
    exact List.nodup_range' _ _

/-- Example for C22: three calls of the source whose last reference is 7, the
second failing in `driver_alloc`; the messages at 1 and 2 carry the references
8 and 9 and the caller 55. -/
theorem correlation_refs_increase_witness :
    Queue world_empty [] ∧
    (∀ mp ∈ three_controls.filterMap (fun c => c.a), mp ≠ 0) ∧
    (([] : List Nat) ++ three_controls.filterMap (fun c => c.a)).Nodup ∧
    source_seven.ref + (three_controls.filterMap (fun c => c.a)).length < 256 ^ 8 ∧
    [1, 2].map (fun m => ((control_run (256 ^ 8) world_empty 9 source_seven
      three_controls).1.mem m).ref) = [8, 9] ∧
    (control_run (256 ^ 8) world_empty 9 source_seven three_controls).2.1.ref = 9 ∧
    (control_run (256 ^ 8) world_empty 9 source_seven three_controls).2.2 = [1, -1, 0] ∧
    ∀ m ∈ [1, 2], ((control_run (256 ^ 8) world_empty 9 source_seven
      three_controls).1.mem m).from_ = 55 := by
  have h1 : Queue world_empty [] := Queue_empty _ ⟨rfl, rfl, rfl⟩
  have h2 : ∀ mp ∈ three_controls.filterMap (fun c => c.a), mp ≠ 0 := by decide
  have h3 : (([] : List Nat) ++ three_controls.filterMap (fun c => c.a)).Nodup := by decide
  have h4 : source_seven.ref + (three_controls.filterMap (fun c => c.a)).length < 256 ^ 8 := by
    decide
  obtain ⟨_, _, _, _, k5, k6, _, _, k9⟩ := correlation_refs_increase cfg0 (256 ^ 8) world_empty
    [] 9 source_seven three_controls h1 h2 h3 h4
  refine ⟨h1, h2, h3, h4, k6, ?_, ?_, k9⟩
  · rw [k5]; rfl
  · decide

/-- C24: for `timeout >= 0` (milliseconds) the `struct timeval` that
`dthread_poll` hands to `select` has `tv_sec = timeout / 1000`,
`0 <= tv_usec < 1000000` and `tv_sec * 1000000 + tv_usec = timeout * 1000`, and
every intermediate value of the computation lies between 0 and `timeout` or
below 1000000; `timeout = 0` gives the zero timeval; for `timeout < 0` the
pointer passed is `NULL`. The value computed is the one `select` receives. -/
theorem poll_timeout_exact (timeout : Int) :
    (0 ≤ timeout → ∃ sec usec, poll_timeval timeout = some (sec, usec) ∧
      sec = timeout / 1000 ∧ sec = Int.tdiv timeout 1000 ∧ 0 ≤ usec ∧ usec < 1000000 ∧
      sec * 1000000 + usec = timeout * 1000 ∧
      0 ≤ sec ∧ sec * 1000 ≤ timeout ∧ timeout - sec * 1000 ≤ 999 ∧
      usec = (timeout - sec * 1000) * 1000) ∧
    (timeout < 0 → poll_timeval timeout = none) ∧
    poll_timeval 0 = some (0, 0) ∧
    (∀ (w : World) (events : Option (List dthread_poll_event_t)) (nevents : Option Nat)
        (select : List Int → List Int → Option (Int × Int) → SelectResult),
      dthread_poll w events nevents timeout select =
        dthread_poll w events nevents timeout
          (fun readfds writefds _ => select readfds writefds (poll_timeval timeout))) := by
  refine ⟨?_, ?_, rfl, ?_⟩
  · intro h0
    have hd : Int.tdiv timeout 1000 = timeout / 1000 :=
      Int.tdiv_eq_ediv h0 (by decide)
    have hm := Int.emod_add_ediv timeout 1000
    have hm0 := Int.emod_nonneg timeout (show (1000 : Int) ≠ 0 by decide)
    have hm1 := Int.emod_lt_of_pos timeout (show (0 : Int) < 1000 by decide)
    refine ⟨timeout / 1000, (timeout - timeout / 1000 * 1000) * 1000, ?_, rfl, hd.symm,
      ?_, ?_, ?_, ?_, ?_, ?_, rfl⟩
    · simp [poll_timeval, not_lt.mpr h0, hd]
    all_goals omega
  · intro h
    simp [poll_timeval, h]
  · intro w events nevents select
    rcases events with _ | es <;> rcases nevents with _ | _ | n <;> simp [dthread_poll]

/-- Example for C24: one and a half seconds. -/
theorem poll_timeout_exact_witness :
    poll_timeval 1500 = some (1, 500000) ∧ (1 : Int) * 1000000 + 500000 = 1500 * 1000 ∧
    poll_timeval (-1) = none := by
  obtain ⟨h1, h2, _⟩ := poll_timeout_exact 1500
  obtain ⟨_, h3, _⟩ := poll_timeout_exact (-1)
  exact ⟨by decide, by decide, h3 (by decide)⟩
end Dthread
